import Mathlib

/-!
# Tetris game-state simulation: embedding and verification

Shallow embedding of `src/src/tetris.cpp`, `src/inc/tetris.h` and
`src/inc/tetrinos.h`.

Modelling conventions

* `int32_t` / `int8_t` values are `Int`; signed overflow is undefined in the
  source, so the model describes the executions in which it does not occur.
* `uint8_t` array cells are `Nat`; every value the program stores is one of the
  shape values `0..7`.
* C arrays are `List Nat`, indexed by an `Int` exactly as the source computes
  the index (`row * width + col`).  A read or write outside the array is
  undefined in the source; `arrayRead` yields `0` there and `arrayWrite` leaves
  the array as it is.
* `float` times are exact rationals in the model of the game functions; the sum
  `time + interval` that reschedules a drop is modelled a second time with its
  32-bit float rounding (`roundFloat`, `soft_drop_float`, `gravity_loop_float`).
* `rand()` is a stream `Nat → Nat` of the values of its successive calls; a
  function that calls it returns the rest of the stream.
* `while` loops whose trip count is not fixed by a counter take a fuel argument
  and return `none` when it runs out.
-/

namespace Tetris

/-! ## Arrays -/

/-- Value of `xs[i]`; `0` when `i` is outside the array. -/
def arrayRead (xs : List Nat) (i : Int) : Nat :=
  if i < 0 then 0 else xs.getD i.toNat 0

/-- Array after `xs[i] = v`; unchanged when `i` is outside the array. -/
def arrayWrite (xs : List Nat) (i : Int) (v : Nat) : List Nat :=
  if i < 0 then xs else xs.set i.toNat v

/-! ## Shape catalog (`tetrinos.h`) -/

/-- Record `Tetrino`: a square matrix `data` of side `side`, row-major. -/
structure Tetrino where
  data : List Nat
  side : Int
deriving DecidableEq, Repr

def TETRINO1 : List Nat :=
  [0, 0, 0, 0,
   1, 1, 1, 1,
   0, 0, 0, 0,
   0, 0, 0, 0]

def TETRINO2 : List Nat :=
  [2, 2,
   2, 2]

def TETRINO3 : List Nat :=
  [0, 0, 0,
   3, 3, 3,
   0, 3, 0]

def TETRINO4 : List Nat :=
  [0, 4, 4,
   2, 2, 0,
   0, 0, 0]

def TETRINO5 : List Nat :=
  [4, 4, 0,
   0, 4, 4,
   0, 0, 0]

def TETRINO6 : List Nat :=
  [6, 0, 0,
   6, 6, 6,
   0, 0, 0]

def TETRINO7 : List Nat :=
  [0, 0, 7,
   7, 7, 7,
   0, 0, 0]

def TETRINOS : List Tetrino :=
  [⟨TETRINO1, 4⟩, ⟨TETRINO2, 2⟩, ⟨TETRINO3, 3⟩, ⟨TETRINO4, 3⟩,
   ⟨TETRINO5, 3⟩, ⟨TETRINO6, 3⟩, ⟨TETRINO7, 3⟩]

/-- Pointer arithmetic `TETRINOS + index`; an index past the catalog is
undefined in the source and modelled as a shape without cells. -/
def tetrinoAt (index : Nat) : Tetrino :=
  TETRINOS.getD index ⟨[], 0⟩

/-! ## Game data (`tetris.h`) -/

abbrev WIDTH : Int := 14
abbrev HEIGHT : Int := 22

def FRAMES_PER_DROP : List Nat :=
  [48, 43, 38, 33, 28, 23, 18, 13, 8, 6,
   5, 5, 5, 4, 4, 4, 3, 3, 3, 2,
   2, 2, 2, 2, 2, 2, 2, 2, 2, 1]

def TARGET_SECONDS_PER_FRAME : ℚ := 1 / 60

inductive GamePhase where
  | GAME_PHASE_START
  | GAME_PHASE_PLAY
  | GAME_PHASE_LINE
  | GAME_PHASE_GAMEOVER
deriving DecidableEq, Repr

open GamePhase

structure PieceState where
  tetrinoIndex : Nat
  offsetRow : Int
  offsetCol : Int
  rotation : Int
deriving DecidableEq, Repr

structure GameState where
  board : List Nat
  lines : List Nat
  piece : PieceState
  phase : GamePhase
  level : Int
  startLevel : Int
  lineCount : Int
  pendingLineCount : Int
  score : Int
  nextDropTime : ℚ
  time : ℚ
  highlightEndTime : ℚ
deriving DecidableEq

structure InputState where
  left : Nat
  right : Nat
  up : Nat
  down : Nat
  a : Nat
  deltaLeft : Int
  deltaRight : Int
  deltaUp : Int
  deltaDown : Int
  deltaA : Int
deriving DecidableEq, Repr

/-- Stream of the values returned by successive `rand()` calls. -/
abbrev RandStream := Nat → Nat

/-! ## Shape and board access -/

def tetrino_get (tetrino : Tetrino) (row col rotation : Int) : Nat :=
  let side := tetrino.side
  if rotation = 0 then arrayRead tetrino.data (row * side + col)
  else if rotation = 1 then arrayRead tetrino.data ((side - col - 1) * side + row)
  else if rotation = 2 then
    arrayRead tetrino.data ((side - row - 1) * side + (side - col - 1))
  else if rotation = 3 then arrayRead tetrino.data (col * side + (side - row - 1))
  else 0

def matrix_get (values : List Nat) (width row col : Int) : Nat :=
  let index := row * width + col
  arrayRead values index

def matrix_set (values : List Nat) (width row col : Int) (value : Nat) : List Nat :=
  let index := row * width + col
  arrayWrite values index value

/-! ## Piece validity -/

/-- Inner `for (col ...)` loop of `check_piece_valid` at a fixed `row`, with
`n` iterations left starting at `col`; `false` is the early `return false`,
`true` means the loop ran to its end. -/
def check_piece_valid_cols (tetrino : Tetrino) (piece : PieceState) (board : List Nat)
    (width height row : Int) : Nat → Int → Bool
  | 0, _ => true
  | n + 1, col =>
    let value := tetrino_get tetrino row col piece.rotation
    if value > 0 then
      let boardRow := piece.offsetRow + row
      let boardCol := piece.offsetCol + col
      if boardRow < 0 ∨ boardRow ≥ height then false
      else if boardCol < 0 ∨ boardCol ≥ width then false
      else if matrix_get board width boardRow boardCol ≠ 0 then false
      else check_piece_valid_cols tetrino piece board width height row n (col + 1)
    else check_piece_valid_cols tetrino piece board width height row n (col + 1)

/-- Outer `for (row ...)` loop of `check_piece_valid`, with `n` iterations left
starting at `row`. -/
def check_piece_valid_rows (tetrino : Tetrino) (piece : PieceState) (board : List Nat)
    (width height : Int) : Nat → Int → Bool
  | 0, _ => true
  | n + 1, row =>
    if check_piece_valid_cols tetrino piece board width height row tetrino.side.toNat 0 then
      check_piece_valid_rows tetrino piece board width height n (row + 1)
    else false

def check_piece_valid (piece : PieceState) (board : List Nat) (width height : Int) : Bool :=
  let tetrino := tetrinoAt piece.tetrinoIndex
  check_piece_valid_rows tetrino piece board width height tetrino.side.toNat 0

/-! ## Merging, spawning, dropping -/

/-- Inner `for (col ...)` loop of `merge_piece` at a fixed `row`. -/
def merge_piece_cols (tetrino : Tetrino) (piece : PieceState) (row : Int) :
    Nat → Int → List Nat → List Nat
  | 0, _, board => board
  | n + 1, col, board =>
    let value := tetrino_get tetrino row col piece.rotation
    if value ≠ 0 then
      let boardRow := piece.offsetRow + row
      let boardCol := piece.offsetCol + col
      merge_piece_cols tetrino piece row n (col + 1)
        (matrix_set board WIDTH boardRow boardCol value)
    else merge_piece_cols tetrino piece row n (col + 1) board

/-- Outer `for (row ...)` loop of `merge_piece`. -/
def merge_piece_rows (tetrino : Tetrino) (piece : PieceState) :
    Nat → Int → List Nat → List Nat
  | 0, _, board => board
  | n + 1, row, board =>
    merge_piece_rows tetrino piece n (row + 1)
      (merge_piece_cols tetrino piece row tetrino.side.toNat 0 board)

def merge_piece (game : GameState) : GameState :=
  let tetrino := tetrinoAt game.piece.tetrinoIndex
  { game with board := merge_piece_rows tetrino game.piece tetrino.side.toNat 0 game.board }

/-- Result of `min + rand() % range`, where `r` is the value `rand()` returned;
the remainder truncates towards zero as in the source. -/
def generate_random_int (min max : Int) (r : Nat) : Int :=
  let range := max - min
  min + Int.tmod (r : Int) range

def get_time_to_next_drop (gameLevel : Int) : ℚ :=
  let gameLevel := if gameLevel > 29 then 29 else gameLevel
  (arrayRead FRAMES_PER_DROP gameLevel : ℚ) * TARGET_SECONDS_PER_FRAME

/-- Conversion `static_cast<uint8_t>` of an `int32_t`. -/
def toUint8 (x : Int) : Nat := (x % 256).toNat

def spawn_piece (game : GameState) (rnd : RandStream) : GameState × RandStream :=
  let index := toUint8 (generate_random_int 0 TETRINOS.length (rnd 0))
  ({ game with
      piece := { tetrinoIndex := index, offsetRow := 0,
                 offsetCol := Int.tdiv WIDTH 2, rotation := 0 }
      nextDropTime := game.time + get_time_to_next_drop game.level },
   fun i => rnd (i + 1))

def soft_drop (game : GameState) (rnd : RandStream) : Bool × GameState × RandStream :=
  let moved : GameState :=
    { game with piece := { game.piece with offsetRow := game.piece.offsetRow + 1 } }
  if ¬ check_piece_valid moved.piece moved.board WIDTH HEIGHT then
    let back : GameState :=
      { moved with piece := { moved.piece with offsetRow := moved.piece.offsetRow - 1 } }
    let spawned := spawn_piece (merge_piece back) rnd
    (false, spawned.1, spawned.2)
  else
    (true, { moved with nextDropTime := moved.time + get_time_to_next_drop moved.level }, rnd)

/-! ## Line engine -/

/-- Loop of `check_row_filled`: `0` is the early return at an empty cell. -/
def check_row_filled_cols (values : List Nat) (width row : Int) : Nat → Int → Nat
  | 0, _ => 1
  | n + 1, col =>
    if matrix_get values width row col = 0 then 0
    else check_row_filled_cols values width row n (col + 1)

def check_row_filled (values : List Nat) (width row : Int) : Nat :=
  check_row_filled_cols values width row width.toNat 0

/-- What `find_lines` leaves behind: its return value and the two arrays it
was given by pointer. -/
structure FindLinesResult where
  count : Int
  linesOut : List Nat
  values : List Nat
deriving DecidableEq, Repr

/-- Loop of `find_lines`, carrying `count` and `linesOut`. -/
def find_lines_rows (values : List Nat) (width : Int) :
    Nat → Int → Int → List Nat → Int × List Nat
  | 0, _, count, linesOut => (count, linesOut)
  | n + 1, row, count, linesOut =>
    let filled := check_row_filled values width row
    find_lines_rows values width n (row + 1) (count + filled) (arrayWrite linesOut row filled)

def find_lines (values : List Nat) (width height : Int) (linesOut : List Nat) :
    FindLinesResult :=
  let r := find_lines_rows values width height.toNat 0 0 linesOut
  { count := r.1, linesOut := r.2, values := values }

/-- Library call `memset(values + start, c, n)`. -/
def memset (values : List Nat) (start : Int) (c : Nat) : Nat → List Nat
  | 0 => values
  | n + 1 => arrayWrite (memset values start c n) (start + n) c

/-- Library call `memcpy(values + dest, source + src, n)`; `source` is the array as
it is when the call starts. -/
def memcpy (values : List Nat) (dest : Int) (source : List Nat) (src : Int) : Nat → List Nat
  | 0 => values
  | n + 1 => arrayWrite (memcpy values dest source src n) (dest + n) (arrayRead source (src + n))

/-- Inner loop `while (srcRow > 0 && lines[srcRow]) srcRow--;` of `clear_lines`;
it stops after at most `srcRow` steps, the fuel it is called with. -/
def clear_lines_skip (lines : List Nat) : Nat → Int → Int
  | 0, srcRow => srcRow
  | n + 1, srcRow =>
    if srcRow > 0 ∧ arrayRead lines srcRow ≠ 0 then clear_lines_skip lines n (srcRow - 1)
    else srcRow

/-- Loop `for (destRow = height - 1; destRow >= 0; destRow--)` of `clear_lines`. -/
def clear_lines_rows (width : Int) (lines : List Nat) :
    Nat → Int → Int → List Nat → List Nat
  | 0, _, _, values => values
  | n + 1, destRow, srcRow, values =>
    let srcRow := clear_lines_skip lines srcRow.toNat srcRow
    if srcRow < 0 then
      clear_lines_rows width lines n (destRow - 1) srcRow
        (memset values (destRow * width) 0 width.toNat)
    else
      clear_lines_rows width lines n (destRow - 1) (srcRow - 1)
        (memcpy values (destRow * width) values (srcRow * width) width.toNat)

def clear_lines (values : List Nat) (width height : Int) (lines : List Nat) : List Nat :=
  clear_lines_rows width lines height.toNat (height - 1) (height - 1) values

/-- Inner loop of `clear_lines` once more, returning the indices `srcRow` at which it
evaluates `lines[srcRow]`: the right operand of `&&` is evaluated only when `srcRow > 0`. -/
def clear_lines_skip_reads (lines : List Nat) : Nat → Int → List Int
  | 0, _ => []
  | n + 1, srcRow =>
    if srcRow > 0 then
      srcRow ::
        (if arrayRead lines srcRow ≠ 0 then clear_lines_skip_reads lines n (srcRow - 1) else [])
    else []

/-- Outer loop of `clear_lines` once more, returning the row indices it reads at: those of
the inner loop's `lines[srcRow]` and the source row `srcRow` of every `memcpy`. -/
def clear_lines_reads (lines : List Nat) : Nat → Int → List Int
  | 0, _ => []
  | n + 1, srcRow =>
    let reads := clear_lines_skip_reads lines srcRow.toNat srcRow
    let srcRow := clear_lines_skip lines srcRow.toNat srcRow
    if srcRow < 0 then reads ++ clear_lines_reads lines n srcRow
    else reads ++ srcRow :: clear_lines_reads lines n (srcRow - 1)

/-! ## Progression -/

def compute_score (level lineCount : Int) : Int :=
  if lineCount = 1 then 40 * (level + 1)
  else if lineCount = 2 then 100 * (level + 1)
  else if lineCount = 3 then 300 * (level + 1)
  else if lineCount = 4 then 1200 * (level + 1)
  else 0

def min (x y : Int) : Int := if x < y then x else y

def max (x y : Int) : Int := if x > y then x else y

def get_lines_for_next_level (startLevel currentLevel : Int) : Int :=
  let firstLevelUpLimit := min (startLevel * 10 + 10) (max 100 (startLevel * 10 - 50))
  if currentLevel = startLevel then firstLevelUpLimit
  else
    let diff := currentLevel - startLevel
    firstLevelUpLimit + diff * 10

/-! ## Phase updates -/

def update_game_start (game : GameState) (input : InputState) (rnd : RandStream) :
    GameState × RandStream :=
  let game := if input.deltaUp > 0 then { game with startLevel := game.startLevel + 1 } else game
  let game :=
    if input.deltaDown > 0 ∧ game.startLevel > 0 then
      { game with startLevel := game.startLevel - 1 }
    else game
  if input.deltaA > 0 then
    let game := { game with board := memset game.board 0 0 (WIDTH * HEIGHT).toNat }
    let game := { game with level := game.startLevel }
    let game := { game with score := 0 }
    let game := { game with lineCount := 0 }
    let spawned := spawn_piece game rnd
    ({ spawned.1 with phase := GAME_PHASE_PLAY }, spawned.2)
  else (game, rnd)

def update_game_gameover (game : GameState) (input : InputState) : GameState :=
  if input.deltaA > 0 then { game with phase := GAME_PHASE_START } else game

def update_game_line (game : GameState) : GameState :=
  if game.time ≥ game.highlightEndTime then
    let game := { game with board := clear_lines game.board WIDTH HEIGHT game.lines }
    let game := { game with lineCount := game.lineCount + game.pendingLineCount }
    let game := { game with score := game.score + compute_score game.level game.pendingLineCount }
    let linesForNextLevel := get_lines_for_next_level game.startLevel game.level
    let game :=
      if game.lineCount ≥ linesForNextLevel then { game with level := game.level + 1 } else game
    { game with phase := GAME_PHASE_PLAY }
  else game

/-- Loop of `check_row_empty`: `0` is the early return at an occupied cell. -/
def check_row_empty_cols (values : List Nat) (width row : Int) : Nat → Int → Nat
  | 0, _ => 1
  | n + 1, col =>
    if matrix_get values width row col ≠ 0 then 0
    else check_row_empty_cols values width row n (col + 1)

def check_row_empty (values : List Nat) (width row : Int) : Nat :=
  check_row_empty_cols values width row width.toNat 0

/-- Hard-drop loop `while (soft_drop(game));` of `update_game_play`.  The first
component lists the values the successive `soft_drop` calls returned. -/
def hard_drop_loop : Nat → GameState → RandStream → Option (List Bool × GameState × RandStream)
  | 0, _, _ => none
  | fuel + 1, game, rnd =>
    let r := soft_drop game rnd
    if r.1 then
      (hard_drop_loop fuel r.2.1 r.2.2).map (fun rest => (true :: rest.1, rest.2))
    else some ([false], r.2)

/-- Gravity loop `while (game->time >= game->nextDropTime) soft_drop(game);` of
`update_game_play`, with times as exact rationals (`gravity_loop_float` is the loop with the
source's `float` sums).  The first component counts the `soft_drop` calls. -/
def gravity_loop : Nat → GameState → RandStream → Option (Nat × GameState × RandStream)
  | 0, _, _ => none
  | fuel + 1, game, rnd =>
    if game.time ≥ game.nextDropTime then
      let r := soft_drop game rnd
      (gravity_loop fuel r.2.1 r.2.2).map (fun rest => (rest.1 + 1, rest.2))
    else some (0, game, rnd)

/-- Lines 449-463 of `update_game_play`: the local copy `piece` after the input edges. -/
def update_game_play_candidate (piece : PieceState) (input : InputState) : PieceState :=
  let piece := if input.deltaLeft > 0 then { piece with offsetCol := piece.offsetCol - 1 } else piece
  let piece :=
    if input.deltaRight > 0 then { piece with offsetCol := piece.offsetCol + 1 } else piece
  let piece :=
    if input.deltaUp > 0 then { piece with rotation := Int.tmod (piece.rotation + 1) 4 }
    else piece
  piece

/-- Lines 449-469 of `update_game_play`: the candidate piece is taken over when it is
valid. -/
def update_game_play_move (game : GameState) (input : InputState) : GameState :=
  let piece := update_game_play_candidate game.piece input
  if check_piece_valid piece game.board WIDTH HEIGHT then { game with piece := piece } else game

/-- Lines 490-502 of `update_game_play`: line detection and the game-over check. -/
def update_game_play_finish (game : GameState) : GameState :=
  let found := find_lines game.board WIDTH HEIGHT game.lines
  let game :=
    { game with board := found.values, lines := found.linesOut, pendingLineCount := found.count }
  let game :=
    if game.pendingLineCount > 0 then
      { game with phase := GAME_PHASE_LINE, highlightEndTime := game.time + 1 / 2 }
    else game
  let gameOverRow : Int := 0
  if check_row_empty game.board WIDTH gameOverRow = 0 then
    { game with phase := GAME_PHASE_GAMEOVER }
  else game

def update_game_play (fuel : Nat) (game : GameState) (input : InputState) (rnd : RandStream) :
    Option (GameState × RandStream) :=
  let game := update_game_play_move game input
  let afterDown : GameState × RandStream :=
    if input.deltaDown > 0 then (soft_drop game rnd).2 else (game, rnd)
  let afterHard : Option (GameState × RandStream) :=
    if input.deltaA > 0 then (hard_drop_loop fuel afterDown.1 afterDown.2).map (fun r => r.2)
    else some afterDown
  afterHard.bind fun s =>
    (gravity_loop fuel s.1 s.2).map fun r => (update_game_play_finish r.2.1, r.2.2)

def update_game (fuel : Nat) (game : GameState) (input : InputState) (rnd : RandStream) :
    Option (GameState × RandStream) :=
  match game.phase with
  | GAME_PHASE_START => some (update_game_start game input rnd)
  | GAME_PHASE_PLAY => update_game_play fuel game input rnd
  | GAME_PHASE_LINE => some (update_game_line game, rnd)
  | GAME_PHASE_GAMEOVER => some (update_game_gameover game input, rnd)

/-! ## The time arithmetic in 32-bit floats

The definitions above take the `float` fields `time`, `nextDropTime` and `highlightEndTime`
as exact rationals.  The source computes the rescheduled drop time `time + interval` in
32-bit floats, where the sum is rounded.  This section models that computation on the finite
float values (no infinity and no NaN; a time read from the 32-bit millisecond clock stays far
below the largest float). -/

/-- The power `2 ^ e` as a rational. -/
def pow2 (e : Int) : ℚ :=
  if 0 ≤ e then ((2 ^ e.toNat : Nat) : ℚ) else 1 / ((2 ^ (-e).toNat : Nat) : ℚ)

/-- Number of halvings that take `n` below 2, at most `fuel` of them. -/
def halvings : Nat → Nat → Nat
  | 0, _ => 0
  | fuel + 1, n => if 2 ≤ n then halvings fuel (n / 2) + 1 else 0

/-- The largest `e` with `2 ^ e ≤ q`, for a rational `q > 0`: the difference of the binary
lengths of numerator and denominator, or one less. -/
def floorLog2 (q : ℚ) : Int :=
  let e : Int := (halvings q.num.toNat q.num.toNat : Int) - (halvings q.den q.den : Int)
  if pow2 e ≤ q then e else e - 1

/-- Rounding to the nearest integer, a tie going to the even one. -/
def roundHalfEven (q : ℚ) : Int :=
  let f : Int := Int.floor q
  let r : ℚ := q - (f : ℚ)
  if r < 1 / 2 then f
  else if 1 / 2 < r then f + 1
  else if f % 2 = 0 then f else f + 1

/-- The value of a binary floating-point format with `p` significand bits and least normal
exponent `emin` that is nearest to `q`, a tie going to the even significand (the default
rounding of IEEE 754 arithmetic and conversions). -/
def roundBinary (p : Nat) (emin : Int) (q : ℚ) : ℚ :=
  if q = 0 then 0
  else
    let a : ℚ := if q < 0 then -q else q
    let e : Int := if floorLog2 a < emin then emin else floorLog2 a
    let ulp : ℚ := pow2 (e - ((p : Int) - 1))
    let m : Int := roundHalfEven (a / ulp)
    if q < 0 then -((m : ℚ) * ulp) else (m : ℚ) * ulp

/-- Rounding to `float` (IEEE 754 binary32). -/
def roundFloat (q : ℚ) : ℚ := roundBinary 24 (-126) q

/-- Rounding to `double` (IEEE 754 binary64). -/
def roundDouble (q : ℚ) : ℚ := roundBinary 53 (-1022) q

/-- The constant `const float TARGET_SECONDS_PER_FRAME = 1.0 / 60.0;`: the `double` quotient
converted to `float`. -/
def TARGET_SECONDS_PER_FRAME_float : ℚ := roundFloat (roundDouble (1 / 60))

/-- The function `get_time_to_next_drop` with its `float` product. -/
def get_time_to_next_drop_float (gameLevel : Int) : ℚ :=
  let gameLevel := if gameLevel > 29 then 29 else gameLevel
  roundFloat ((arrayRead FRAMES_PER_DROP gameLevel : ℚ) * TARGET_SECONDS_PER_FRAME_float)

/-- The function `spawn_piece` with its `float` sum. -/
def spawn_piece_float (game : GameState) (rnd : RandStream) : GameState × RandStream :=
  let index := toUint8 (generate_random_int 0 TETRINOS.length (rnd 0))
  ({ game with
      piece := { tetrinoIndex := index, offsetRow := 0,
                 offsetCol := Int.tdiv WIDTH 2, rotation := 0 }
      nextDropTime := roundFloat (game.time + get_time_to_next_drop_float game.level) },
   fun i => rnd (i + 1))

/-- The function `soft_drop` with its `float` sum. -/
def soft_drop_float (game : GameState) (rnd : RandStream) : Bool × GameState × RandStream :=
  let moved : GameState :=
    { game with piece := { game.piece with offsetRow := game.piece.offsetRow + 1 } }
  if ¬ check_piece_valid moved.piece moved.board WIDTH HEIGHT then
    let back : GameState :=
      { moved with piece := { moved.piece with offsetRow := moved.piece.offsetRow - 1 } }
    let spawned := spawn_piece_float (merge_piece back) rnd
    (false, spawned.1, spawned.2)
  else
    (true,
      { moved with
        nextDropTime := roundFloat (moved.time + get_time_to_next_drop_float moved.level) },
      rnd)

/-- Gravity loop `while (game->time >= game->nextDropTime) soft_drop(game);` of
`update_game_play` with the `float` sums.  The first component counts the `soft_drop`
calls. -/
def gravity_loop_float :
    Nat → GameState → RandStream → Option (Nat × GameState × RandStream)
  | 0, _, _ => none
  | fuel + 1, game, rnd =>
    if game.time ≥ game.nextDropTime then
      let r := soft_drop_float game rnd
      (gravity_loop_float fuel r.2.1 r.2.2).map (fun rest => (rest.1 + 1, rest.2))
    else some (0, game, rnd)

/-! ## Specification-side predicates -/

/-- A nonzero shape cell `(row, col)` of the piece lies on the board and on an empty cell. -/
def cellFits (piece : PieceState) (board : List Nat) (width height row col : Int) : Prop :=
  0 ≤ piece.offsetRow + row ∧ piece.offsetRow + row < height ∧
  0 ≤ piece.offsetCol + col ∧ piece.offsetCol + col < width ∧
  matrix_get board width (piece.offsetRow + row) (piece.offsetCol + col) = 0

/-- The piece moved `k` rows down. -/
def pieceDown (piece : PieceState) (k : Int) : PieceState :=
  { piece with offsetRow := piece.offsetRow + k }

/-- Number of nonzero cells of a board. -/
def countNonzero (board : List Nat) : Nat := board.countP (fun v => v ≠ 0)

/-- Number of nonzero cells of the rotated shape in the `n` columns of `row` from `col` on. -/
def nonzeroInRow (tetrino : Tetrino) (rotation row : Int) : Nat → Int → Nat
  | 0, _ => 0
  | n + 1, col =>
    (if tetrino_get tetrino row col rotation ≠ 0 then 1 else 0) +
      nonzeroInRow tetrino rotation row n (col + 1)

/-- Number of nonzero cells of the rotated shape in the `n` rows from `row` on. -/
def nonzeroInRows (tetrino : Tetrino) (rotation : Int) : Nat → Int → Nat
  | 0, _ => 0
  | n + 1, row =>
    nonzeroInRow tetrino rotation row tetrino.side.toNat 0 +
      nonzeroInRows tetrino rotation n (row + 1)

/-- Number of nonzero cells of the rotated shape. -/
def nonzeroCells (tetrino : Tetrino) (rotation : Int) : Nat :=
  nonzeroInRows tetrino rotation tetrino.side.toNat 0

/-- Shape cell `(row, col)` of the piece maps to a position on the 14 x 22 board. -/
def cellInside (piece : PieceState) (row col : Int) : Prop :=
  0 ≤ piece.offsetRow + row ∧ piece.offsetRow + row < 22 ∧
  0 ≤ piece.offsetCol + col ∧ piece.offsetCol + col < 14

/-- Every cell of `row` is nonzero: the row is completely filled. -/
def rowFilled (values : List Nat) (width row : Int) : Prop :=
  ∀ col : Nat, col < width.toNat → matrix_get values width row col ≠ 0

instance rowFilledDecidable (values : List Nat) (width row : Int) :
    Decidable (rowFilled values width row) := by
  unfold rowFilled; infer_instance

/-- Some cell of `row` is nonzero. -/
def rowOccupied (values : List Nat) (width row : Int) : Prop :=
  ∃ col : Nat, col < width.toNat ∧ matrix_get values width row col ≠ 0

instance rowOccupiedDecidable (values : List Nat) (width row : Int) :
    Decidable (rowOccupied values width row) := by
  unfold rowOccupied; infer_instance

/-- Number of completely filled rows among rows `0 .. height-1`. -/
def filledRowCount (values : List Nat) (width height : Int) : Nat :=
  ((List.range height.toNat).filter
    (fun r : Nat => decide (rowFilled values width (r : Int)))).length

/-- The piece's shape index and rotation lie in the ranges of the data model. -/
def PieceInRange (piece : PieceState) : Prop :=
  piece.tetrinoIndex < 7 ∧ 0 ≤ piece.rotation ∧ piece.rotation ≤ 3

/-- State `g'` differs from `g` at most in board, piece and `nextDropTime`. -/
structure SameFrame (g g' : GameState) : Prop where
  lines : g'.lines = g.lines
  phase : g'.phase = g.phase
  level : g'.level = g.level
  startLevel : g'.startLevel = g.startLevel
  lineCount : g'.lineCount = g.lineCount
  pendingLineCount : g'.pendingLineCount = g.pendingLineCount
  score : g'.score = g.score
  time : g'.time = g.time
  highlightEndTime : g'.highlightEndTime = g.highlightEndTime

/-- Row `row` of a board, as the list of its `width` cells. -/
def boardRow (values : List Nat) (width : Int) (row : Nat) : List Nat :=
  (List.range width.toNat).map (fun col : Nat => matrix_get values width (row : Int) (col : Int))

/-- The rows `0 .. height-1` of a board, from top to bottom. -/
def boardRows (values : List Nat) (width height : Int) : List (List Nat) :=
  (List.range height.toNat).map (boardRow values width)

/-- The unflagged rows among rows `0 .. m-1`, in ascending order. -/
def keptRows (lines : List Nat) (m : Nat) : List Nat :=
  (List.range m).filter (fun row : Nat => arrayRead lines (row : Int) = 0)

/-- The flagged rows among rows `0 .. m-1`, in ascending order. -/
def flaggedRows (lines : List Nat) (m : Nat) : List Nat :=
  (List.range m).filter (fun row : Nat => arrayRead lines (row : Int) ≠ 0)

/-- The rows the specification asks `clear_lines` to leave: as many all-zero rows as there
are flagged rows, followed by the unflagged rows of the input in their original order. -/
def clearedRows (values : List Nat) (width height : Int) (lines : List Nat) :
    List (List Nat) :=
  List.replicate (height.toNat - (keptRows lines height.toNat).length)
      (List.replicate width.toNat 0) ++
    (keptRows lines height.toNat).map (boardRow values width)

/-- Quarter turn clockwise of a position in a square of side `side`: the position of the
stored matrix that a query at `(row, col)` of the turned matrix reads. -/
def quarterTurn (side : Int) (p : Int × Int) : Int × Int :=
  (side - 1 - p.2, p.1)

/-- The candidate piece of a play tick as the specification words it: the column offset
decreased by 1 on a left edge and increased by 1 on a right edge, the rotation advanced by a
quarter turn (remainder of `rotation + 1` by 4, truncating like the source) on a rotate
edge. -/
def movedPiece (piece : PieceState) (input : InputState) : PieceState :=
  { tetrinoIndex := piece.tetrinoIndex
    offsetRow := piece.offsetRow
    offsetCol := piece.offsetCol - (if input.deltaLeft > 0 then 1 else 0) +
      (if input.deltaRight > 0 then 1 else 0)
    rotation := if input.deltaUp > 0 then Int.tmod (piece.rotation + 1) 4 else piece.rotation }

/-- The positions `(row, col)` of a shape's `side x side` box, row by row. -/
def shapeCells (tetrino : Tetrino) : List (Int × Int) :=
  (List.range tetrino.side.toNat).flatMap fun row : Nat =>
    (List.range tetrino.side.toNat).map fun col : Nat => ((row : Int), (col : Int))

/-- Number of positions of the box at which `tetrino_get` reads a nonzero value. -/
def nonzeroCellCount (tetrino : Tetrino) (rotation : Int) : Nat :=
  ((shapeCells tetrino).filter
    (fun p : Int × Int => tetrino_get tetrino p.1 p.2 rotation ≠ 0)).length

/-- All nonzero cells of the shape's matrix hold one and the same value. -/
def singleColour (tetrino : Tetrino) : Prop :=
  ∀ x ∈ tetrino.data, ∀ y ∈ tetrino.data, x ≠ 0 → y ≠ 0 → x = y

instance singleColourDecidable (tetrino : Tetrino) : Decidable (singleColour tetrino) := by
  unfold singleColour; infer_instance

/-- Every cell of the board is 0 or a shape colour id in `1..7`. -/
def cellsAreColours (board : List Nat) : Prop :=
  ∀ x ∈ board, x = 0 ∨ (1 ≤ x ∧ x ≤ 7)

/-- Board `b'` has the size of `b`, and each of its cells holds what it held in `b` or
a colour id in `1..7` written over it. -/
def BoardGrows (b b' : List Nat) : Prop :=
  b'.length = b.length ∧
    ∀ j : Int, arrayRead b' j = arrayRead b j ∨ (arrayRead b' j ≠ 0 ∧ arrayRead b' j ≤ 7)

/-- State `s` comes from `g` by moving, dropping, merging and spawning: the fields named in
`SameFrame` are as in `g`, the board has grown, and a piece in range stays in range. -/
def Evolves (g s : GameState) : Prop :=
  SameFrame g s ∧ BoardGrows g.board s.board ∧ (PieceInRange g.piece → PieceInRange s.piece)

/-- What every state reachable from the initial state satisfies: the array sizes, the cell
values, the piece and level ranges; in phase LINE the flags and the pending count describe
the filled rows of the board, of which there is at least one and none is row 0; in phase PLAY
the board has no filled row. -/
structure GameInv (g : GameState) : Prop where
  board_length : g.board.length = 308
  lines_length : g.lines.length = 22
  cells : cellsAreColours g.board
  piece : PieceInRange g.piece
  startLevel : 0 ≤ g.startLevel
  level : 0 ≤ g.level
  line : g.phase = GAME_PHASE_LINE →
    (∀ row : Int, 0 ≤ row → row < HEIGHT →
      (arrayRead g.lines row = 1 ↔ rowFilled g.board WIDTH row) ∧
      (arrayRead g.lines row = 0 ↔ ¬ rowFilled g.board WIDTH row)) ∧
    ¬ rowOccupied g.board WIDTH 0 ∧
    g.pendingLineCount = filledRowCount g.board WIDTH HEIGHT ∧
    0 < filledRowCount g.board WIDTH HEIGHT
  play : g.phase = GAME_PHASE_PLAY → filledRowCount g.board WIDTH HEIGHT = 0

/-! ## Concrete boards -/

/-- The empty 14 x 22 board. -/
def emptyBoard : List Nat := List.replicate 308 0

/-- Board of the game's size whose row 0 is completely filled, all other rows empty. -/
def topRowFilledBoard : List Nat := List.replicate 14 1 ++ List.replicate 294 0

/-- Board of the game's size whose bottom row 21 is completely filled, all other rows empty. -/
def bottomRowFilledBoard : List Nat := List.replicate 294 0 ++ List.replicate 14 1

/-- A PLAY state on the empty board with the T shape at its spawn position. -/
def spawnedOnEmpty : GameState :=
  { board := emptyBoard, lines := List.replicate 22 0,
    piece := { tetrinoIndex := 2, offsetRow := 0, offsetCol := 7, rotation := 0 },
    phase := GAME_PHASE_PLAY, level := 0, startLevel := 0, lineCount := 0,
    pendingLineCount := 0, score := 0, nextDropTime := 1, time := 0, highlightEndTime := 0 }

/-- A state whose bar piece lies one row above the empty board (its cells map to row -1). -/
def barAboveBoard : GameState :=
  { board := emptyBoard, lines := List.replicate 22 0,
    piece := { tetrinoIndex := 0, offsetRow := -2, offsetCol := 0, rotation := 0 },
    phase := GAME_PHASE_PLAY, level := 0, startLevel := 0, lineCount := 0,
    pendingLineCount := 0, score := 0, nextDropTime := 1, time := 0, highlightEndTime := 0 }

/-- Input with the confirm key newly pressed and nothing else. -/
def confirmInput : InputState :=
  { left := 0, right := 0, up := 0, down := 0, a := 1,
    deltaLeft := 0, deltaRight := 0, deltaUp := 0, deltaDown := 0, deltaA := 1 }

/-- The state `spawnedOnEmpty` in phase GAMEOVER. -/
def gameOverState : GameState := { spawnedOnEmpty with phase := GAME_PHASE_GAMEOVER }

/-- The initial state of `main`: the all-zero `GameState`, phase START. -/
def initialState : GameState :=
  { board := emptyBoard, lines := List.replicate 22 0,
    piece := { tetrinoIndex := 0, offsetRow := 0, offsetCol := 0, rotation := 0 },
    phase := GAME_PHASE_START, level := 0, startLevel := 0, lineCount := 0,
    pendingLineCount := 0, score := 0, nextDropTime := 0, time := 0, highlightEndTime := 0 }

/-- Input with all five keys held since the previous tick: every flag set, no edge. -/
def heldInput : InputState :=
  { left := 1, right := 1, up := 1, down := 1, a := 1,
    deltaLeft := 0, deltaRight := 0, deltaUp := 0, deltaDown := 0, deltaA := 0 }

/-- Input with the left and the rotate key newly pressed. -/
def leftRotateInput : InputState :=
  { left := 1, right := 0, up := 1, down := 0, a := 0,
    deltaLeft := 1, deltaRight := 0, deltaUp := 1, deltaDown := 0, deltaA := 0 }

/-- The state `spawnedOnEmpty` ticked late: nine seconds after the scheduled drop, at level 0
where the drop interval is 48/60 second. -/
def lateState : GameState := { spawnedOnEmpty with time := 10, nextDropTime := 1 }

/-- A PLAY state at level 29 whose drop is due at time 524288 s (about six days): there one
`float` step is 1/16 s, more than the drop interval of 1/60 s. -/
def dayLateState : GameState :=
  { spawnedOnEmpty with level := 29, time := 524288, nextDropTime := 524288 }

/-- The S shape at its spawn position on the empty board. -/
def spawnedS : GameState :=
  { spawnedOnEmpty with
    piece := { tetrinoIndex := 3, offsetRow := 0, offsetCol := 7, rotation := 0 } }

/-- Board whose rows 18..21 are filled except for column 0 and whose row 17 is filled except
for columns 7..10; rows 0..16 are empty. -/
def fiveLineBoard : List Nat :=
  List.replicate 238 0 ++ (List.replicate 7 1 ++ List.replicate 4 0 ++ List.replicate 3 1) ++
    (List.replicate 4 (0 :: List.replicate 13 1)).flatten

/-- A PLAY state on `fiveLineBoard` whose piece is the upright bar resting in column 0, rows
18..21. -/
def fiveLineState : GameState :=
  { board := fiveLineBoard, lines := List.replicate 22 0,
    piece := { tetrinoIndex := 0, offsetRow := 18, offsetCol := -2, rotation := 1 },
    phase := GAME_PHASE_PLAY, level := 0, startLevel := 0, lineCount := 0,
    pendingLineCount := 0, score := 0, nextDropTime := 1, time := 0, highlightEndTime := 0 }

/-- Input with the soft-drop key and the confirm key newly pressed. -/
def dropConfirmInput : InputState :=
  { left := 0, right := 0, up := 0, down := 1, a := 1,
    deltaLeft := 0, deltaRight := 0, deltaUp := 0, deltaDown := 1, deltaA := 1 }

/-! ## Reachable states -/

/-- The state in which `main` enters its loop: the all-zero state after `spawn_piece(&game)`
and `game.piece.tetrinoIndex = 2`. -/
def mainEntryState (rnd : RandStream) : GameState :=
  let game := (spawn_piece initialState rnd).1
  { game with piece := { game.piece with tetrinoIndex := 2 } }

/-- The states reachable from the initial state: every tick the host stores the clock in
`time` and calls `update_game` with the current input. -/
inductive Reachable : GameState → Prop
  | init : Reachable initialState
  | entry (rnd : RandStream) : Reachable (mainEntryState rnd)
  | tick (g : GameState) (time : ℚ) (input : InputState) (rnd : RandStream) (fuel : Nat)
      (g' : GameState) (rnd' : RandStream) :
      Reachable g → update_game fuel { g with time := time } input rnd = some (g', rnd') →
        Reachable g'

/-- The state after the first tick of a game: the confirm edge in phase START. -/
def firstPlayState : GameState :=
  (update_game_start { initialState with time := 0 } confirmInput (fun _ => 0)).1

theorem arrayWrite_length (xs : List Nat) (i : Int) (v : Nat) :
    (arrayWrite xs i v).length = xs.length := by
  unfold arrayWrite; split_ifs <;> simp

theorem arrayRead_arrayWrite_same (xs : List Nat) (i : Int) (v : Nat)
    (h0 : 0 ≤ i) (h1 : i < xs.length) : arrayRead (arrayWrite xs i v) i = v := by
  have h2 : i.toNat < xs.length := by omega
  simp [arrayRead, arrayWrite, not_lt.mpr h0, List.getD_eq_getElem?_getD, List.getElem?_set, h2]

theorem arrayRead_arrayWrite_other (xs : List Nat) (i j : Int) (v : Nat) (h : i ≠ j) :
    arrayRead (arrayWrite xs i v) j = arrayRead xs j := by
  unfold arrayRead arrayWrite
  by_cases hj : j < 0
  · simp [hj]
  · by_cases hi : i < 0
    · simp [hi]
    · have : i.toNat ≠ j.toNat := by omega
      simp [hi, hj, List.getD_eq_getElem?_getD, List.getElem?_set, this]

theorem arrayRead_of_length_le (xs : List Nat) (i : Int) (h : (xs.length : Int) ≤ i) :
    arrayRead xs i = 0 := by
  unfold arrayRead
  have : xs.length ≤ i.toNat := by omega
  simp [List.getD_eq_getElem?_getD, List.getElem?_eq_none this]

/-! ## Piece validity -/

theorem check_piece_valid_cols_iff (tetrino : Tetrino) (piece : PieceState) (board : List Nat)
    (width height row : Int) (n : Nat) (col : Int) :
    check_piece_valid_cols tetrino piece board width height row n col = true ↔
      ∀ c : Int, col ≤ c → c < col + n →
        tetrino_get tetrino row c piece.rotation ≠ 0 →
          cellFits piece board width height row c := by
  induction n generalizing col with
  | zero =>
    simp only [check_piece_valid_cols, true_iff]
    intro c h1 h2
    simp at h2
    omega
  | succ n ih =>
    have split : ∀ P : Int → Prop,
        (∀ c : Int, col ≤ c → c < col + ((n + 1 : Nat) : Int) → P c) ↔
          (P col ∧ ∀ c : Int, col + 1 ≤ c → c < col + 1 + (n : Int) → P c) := by
      intro P
      constructor
      · intro h
        refine ⟨h col (le_refl _) (by push_cast; omega), fun c h1 h2 => h c (by omega) (by push_cast; omega)⟩
      · rintro ⟨h0, h⟩ c h1 h2
        by_cases hc : c = col
        · subst hc; exact h0
        · exact h c (by omega) (by push_cast at h2; omega)
    rw [split]
    unfold check_piece_valid_cols
    simp only [gt_iff_lt, ge_iff_le, ne_eq]
    by_cases hv : tetrino_get tetrino row col piece.rotation = 0
    · simp only [hv, lt_self_iff_false, if_false, ih (col + 1)]
      simp
    · have hpos : 0 < tetrino_get tetrino row col piece.rotation := Nat.pos_of_ne_zero hv
      simp only [hpos, if_true, hv, not_false_eq_true, true_implies, cellFits]
      split_ifs with h1 h2 h3
      · constructor
        · intro h; cases h
        · rintro ⟨⟨a, b, -, -, -⟩, -⟩; omega
      · constructor
        · intro h; cases h
        · rintro ⟨⟨-, -, c, d, -⟩, -⟩; omega
      · rw [ih (col + 1)]
        simp only [cellFits]
        constructor
        · intro h
          exact ⟨⟨by omega, by omega, by omega, by omega, h3⟩, h⟩
        · exact fun h => h.2
      · constructor
        · intro h; cases h
        · rintro ⟨⟨-, -, -, -, e⟩, -⟩; exact absurd e h3

theorem check_piece_valid_rows_iff (tetrino : Tetrino) (piece : PieceState) (board : List Nat)
    (width height : Int) (n : Nat) (row : Int) :
    check_piece_valid_rows tetrino piece board width height n row = true ↔
      ∀ r : Int, row ≤ r → r < row + n → ∀ c : Int, 0 ≤ c → c < tetrino.side.toNat →
        tetrino_get tetrino r c piece.rotation ≠ 0 →
          cellFits piece board width height r c := by
  induction n generalizing row with
  | zero =>
    simp only [check_piece_valid_rows, true_iff]
    intro r h1 h2
    simp at h2
    omega
  | succ n ih =>
    unfold check_piece_valid_rows
    by_cases hc : check_piece_valid_cols tetrino piece board width height row
        tetrino.side.toNat 0 = true
    · rw [if_pos hc, ih (row + 1)]
      rw [check_piece_valid_cols_iff] at hc
      constructor
      · intro h r h1 h2 c hc1 hc2
        by_cases hr : r = row
        · subst hr; exact hc c (by omega) (by omega)
        · exact h r (by omega) (by push_cast at h2; omega) c hc1 hc2
      · intro h r h1 h2
        exact h r (by omega) (by push_cast; omega)
    · rw [if_neg hc]
      constructor
      · intro h; cases h
      · intro h
        exfalso
        apply hc
        rw [check_piece_valid_cols_iff]
        intro c h1 h2
        exact h row (le_refl _) (by push_cast; omega) c (by omega) (by omega)

/-- C1: `check_piece_valid` returns true exactly when every cell of the shape's
side x side box whose rotated value is nonzero maps to a position inside the board
that holds 0; cells whose rotated value is 0 impose nothing, wherever they map.
It holds for every piece, board, width and height. -/
theorem check_piece_valid_iff (piece : PieceState) (board : List Nat) (width height : Int) :
    check_piece_valid piece board width height = true ↔
      ∀ row col : Int, 0 ≤ row → row < (tetrinoAt piece.tetrinoIndex).side →
        0 ≤ col → col < (tetrinoAt piece.tetrinoIndex).side →
        tetrino_get (tetrinoAt piece.tetrinoIndex) row col piece.rotation ≠ 0 →
          (0 ≤ piece.offsetRow + row ∧ piece.offsetRow + row < height ∧
           0 ≤ piece.offsetCol + col ∧ piece.offsetCol + col < width ∧
           matrix_get board width (piece.offsetRow + row) (piece.offsetCol + col) = 0) := by
  unfold check_piece_valid
  simp only []
  rw [check_piece_valid_rows_iff]
  constructor
  · intro h row col h1 h2 h3 h4 h5
    exact h row (by omega) (by omega) col h3 (by omega) h5
  · intro h r h1 h2 c h3 h4 h5
    exact h r c (by omega) (by omega) h3 (by omega) h5


/-! ## Line detection -/

theorem check_row_filled_cols_le_one (values : List Nat) (width row : Int) (n : Nat) (col : Int) :
    check_row_filled_cols values width row n col = 0 ∨
      check_row_filled_cols values width row n col = 1 := by
  induction n generalizing col with
  | zero => right; rfl
  | succ n ih =>
    unfold check_row_filled_cols
    split_ifs
    · left; rfl
    · exact ih (col + 1)

theorem check_row_filled_cols_iff (values : List Nat) (width row : Int) (n : Nat) (col : Int) :
    check_row_filled_cols values width row n col = 1 ↔
      ∀ c : Int, col ≤ c → c < col + n → matrix_get values width row c ≠ 0 := by
  induction n generalizing col with
  | zero =>
    simp only [check_row_filled_cols, true_iff]
    intro c h1 h2
    simp at h2
    omega
  | succ n ih =>
    unfold check_row_filled_cols
    split_ifs with h
    · constructor
      · intro h0; cases h0
      · intro h0; exact absurd h (h0 col (le_refl _) (by push_cast; omega))
    · rw [ih (col + 1)]
      constructor
      · intro h0 c h1 h2
        by_cases hc : c = col
        · subst hc; exact h
        · exact h0 c (by omega) (by push_cast at h2; omega)
      · intro h0 c h1 h2
        exact h0 c (by omega) (by push_cast; omega)

theorem check_row_filled_iff (values : List Nat) (width row : Int) :
    check_row_filled values width row = 1 ↔
      ∀ col : Int, 0 ≤ col → col < width → matrix_get values width row col ≠ 0 := by
  unfold check_row_filled
  rw [check_row_filled_cols_iff]
  constructor
  · intro h c h1 h2; exact h c h1 (by omega)
  · intro h c h1 h2; exact h c h1 (by omega)

theorem check_row_filled_eq_zero_iff (values : List Nat) (width row : Int) :
    check_row_filled values width row = 0 ↔
      ¬ ∀ col : Int, 0 ≤ col → col < width → matrix_get values width row col ≠ 0 := by
  rw [← check_row_filled_iff]
  rcases check_row_filled_cols_le_one values width row width.toNat 0 with h | h <;>
    simp [check_row_filled, h]

theorem find_lines_rows_length (values : List Nat) (width : Int) (n : Nat) (row count : Int)
    (linesOut : List Nat) :
    (find_lines_rows values width n row count linesOut).2.length = linesOut.length := by
  induction n generalizing row count linesOut with
  | zero => rfl
  | succ n ih =>
    unfold find_lines_rows
    simp only []
    rw [ih, arrayWrite_length]

theorem find_lines_rows_before (values : List Nat) (width : Int) (n : Nat) (row count : Int)
    (linesOut : List Nat) (i : Int) (hi : i < row) :
    arrayRead (find_lines_rows values width n row count linesOut).2 i = arrayRead linesOut i := by
  induction n generalizing row count linesOut with
  | zero => rfl
  | succ n ih =>
    unfold find_lines_rows
    simp only []
    rw [ih _ _ _ (by omega), arrayRead_arrayWrite_other _ _ _ _ (by omega)]

theorem find_lines_rows_flags (values : List Nat) (width : Int) (n : Nat) (row count : Int)
    (linesOut : List Nat) (h0 : 0 ≤ row) (hlen : row + n ≤ linesOut.length)
    (i : Int) (h1 : row ≤ i) (h2 : i < row + n) :
    arrayRead (find_lines_rows values width n row count linesOut).2 i =
      check_row_filled values width i := by
  induction n generalizing row count linesOut with
  | zero => simp at h2; omega
  | succ n ih =>
    unfold find_lines_rows
    simp only []
    push_cast at hlen h2
    by_cases hi : i = row
    · subst hi
      rw [find_lines_rows_before _ _ _ _ _ _ _ (by omega),
        arrayRead_arrayWrite_same _ _ _ h0 (by omega)]
    · exact ih _ _ _ (by omega) (by rw [arrayWrite_length]; omega) (by omega) (by omega)

theorem find_lines_rows_count (values : List Nat) (width : Int) (n : Nat) (row count : Int)
    (linesOut : List Nat) :
    (find_lines_rows values width n row count linesOut).1 =
      count + ((List.range n).filter
        (fun k : Nat => check_row_filled values width (row + (k : Int)) = 1)).length := by
  induction n generalizing row count linesOut with
  | zero => simp [find_lines_rows]
  | succ n ih =>
    unfold find_lines_rows
    simp only []
    rw [ih, List.range_succ_eq_map, List.filter_cons, List.filter_map]
    have hfun : ((fun k : Nat => decide (check_row_filled values width (row + (k : Int)) = 1)) ∘
        Nat.succ) = fun k : Nat => decide (check_row_filled values width (row + 1 + (k : Int)) = 1) := by
      funext k
      simp only [Function.comp, Nat.succ_eq_add_one]
      push_cast
      rw [show row + ((k : Int) + 1) = row + 1 + (k : Int) by ring]
    rw [hfun]
    rcases check_row_filled_cols_le_one values width row width.toNat 0 with h | h
    · have h' : check_row_filled values width row = 0 := h
      simp [h']
    · have h' : check_row_filled values width row = 1 := h
      simp [h']
      ring

theorem find_lines_linesOut_read (values : List Nat) (width height : Int) (linesOut : List Nat)
    (hlen : height ≤ linesOut.length) (row : Int) (h0 : 0 ≤ row) (h1 : row < height) :
    arrayRead (find_lines values width height linesOut).linesOut row =
      check_row_filled values width row := by
  unfold find_lines
  simp only []
  exact find_lines_rows_flags values width _ 0 0 linesOut (le_refl _) (by omega) row h0 (by omega)

theorem find_lines_count_eq (values : List Nat) (width height : Int) (linesOut : List Nat) :
    (find_lines values width height linesOut).count =
      ((List.range height.toNat).filter
        (fun k : Nat => check_row_filled values width (k : Int) = 1)).length := by
  unfold find_lines
  simp only []
  rw [find_lines_rows_count]
  simp

/-- C3: `find_lines` writes `1` into `linesOut[row]` when every column of the row is nonzero
and `0` otherwise, for every row `0..height-1`; it returns the number of rows it flagged and
leaves the board array as it was. -/
theorem find_lines_flags_filled_rows (values : List Nat) (width height : Int)
    (linesOut : List Nat) (hlen : height ≤ linesOut.length) :
    (∀ row : Int, 0 ≤ row → row < height →
      ((∀ col : Int, 0 ≤ col → col < width → matrix_get values width row col ≠ 0) →
          arrayRead (find_lines values width height linesOut).linesOut row = 1) ∧
      ((¬ ∀ col : Int, 0 ≤ col → col < width → matrix_get values width row col ≠ 0) →
          arrayRead (find_lines values width height linesOut).linesOut row = 0)) ∧
    (find_lines values width height linesOut).count =
      ((List.range height.toNat).filter
        (fun k : Nat =>
          arrayRead (find_lines values width height linesOut).linesOut (k : Int) = 1)).length ∧
    (find_lines values width height linesOut).values = values := by
  refine ⟨?_, ?_, rfl⟩
  · intro row h0 h1
    rw [find_lines_linesOut_read values width height linesOut hlen row h0 h1]
    exact ⟨(check_row_filled_iff values width row).mpr,
      (check_row_filled_eq_zero_iff values width row).mpr⟩
  · rw [find_lines_count_eq]
    congr 2
    apply List.filter_congr
    intro k hk
    rw [List.mem_range] at hk
    rw [find_lines_linesOut_read values width height linesOut hlen k (by omega) (by omega)]

theorem find_lines_flags_filled_rows_witness :
    ((2 : Int) ≤ ([7, 7] : List Nat).length) ∧
      (find_lines [1, 0, 1, 1] 2 2 [7, 7]).count =
        ((List.range (2 : Int).toNat).filter
          (fun k : Nat => arrayRead (find_lines [1, 0, 1, 1] 2 2 [7, 7]).linesOut (k : Int) = 1)).length :=
  ⟨by decide, (find_lines_flags_filled_rows [1, 0, 1, 1] 2 2 [7, 7] (by decide)).2.1⟩

/-! ## Line clearing -/

set_option maxRecDepth 100000 in
/-- C2: on the board whose row 0 is completely filled, `find_lines` flags row 0 and only
row 0, and `clear_lines` with these flags leaves the board as it was: the flagged row 0 is
kept, so the rows of the result are not the rows the specification describes (one zero row,
then the unflagged rows 1..21).  With the bottom row filled instead, `clear_lines` with the
flags of `find_lines` yields the empty board, as specified. -/
theorem clear_lines_keeps_flagged_row_zero :
    (find_lines topRowFilledBoard WIDTH HEIGHT (List.replicate 22 0)).linesOut =
        1 :: List.replicate 21 0 ∧
      clear_lines topRowFilledBoard WIDTH HEIGHT (1 :: List.replicate 21 0) =
        topRowFilledBoard ∧
      boardRows (clear_lines topRowFilledBoard WIDTH HEIGHT (1 :: List.replicate 21 0))
          WIDTH HEIGHT ≠
        clearedRows topRowFilledBoard WIDTH HEIGHT (1 :: List.replicate 21 0) ∧
      clear_lines bottomRowFilledBoard WIDTH HEIGHT
          (find_lines bottomRowFilledBoard WIDTH HEIGHT (List.replicate 22 0)).linesOut =
        emptyBoard := by
  have hkept : clear_lines topRowFilledBoard WIDTH HEIGHT (1 :: List.replicate 21 0) =
      topRowFilledBoard := by
    decide!
  have hhead : (boardRows topRowFilledBoard WIDTH HEIGHT).head? ≠
      (clearedRows topRowFilledBoard WIDTH HEIGHT (1 :: List.replicate 21 0)).head? := by
    decide!
  refine ⟨?_, hkept, ?_, ?_⟩
  · decide!
  · rw [hkept]
    exact fun h => hhead (congrArg List.head? h)
  · decide!

/-! ## Spawning and dropping -/

theorem toUint8_generate_random_int (r : Nat) :
    toUint8 (generate_random_int 0 TETRINOS.length r) = r % 7 := by
  unfold toUint8 generate_random_int
  have h7 : ((TETRINOS.length : Nat) : Int) = 7 := by decide
  rw [h7]
  simp only [sub_zero, zero_add]
  rw [Int.tmod_eq_emod (by omega) (by omega)]
  omega

theorem spawn_piece_game (g : GameState) (rnd : RandStream) :
    (spawn_piece g rnd).1 =
      { g with
        piece := { tetrinoIndex := rnd 0 % 7, offsetRow := 0, offsetCol := 7, rotation := 0 }
        nextDropTime := g.time + get_time_to_next_drop g.level } := by
  unfold spawn_piece
  simp only [toUint8_generate_random_int]
  have : Int.tdiv WIDTH 2 = 7 := by decide
  rw [this]

theorem soft_drop_of_valid (g : GameState) (rnd : RandStream)
    (h : check_piece_valid (pieceDown g.piece 1) g.board WIDTH HEIGHT = true) :
    soft_drop g rnd =
      (true, { g with piece := pieceDown g.piece 1
                      nextDropTime := g.time + get_time_to_next_drop g.level }, rnd) := by
  unfold soft_drop
  simp only [pieceDown] at h
  simp [h, pieceDown]

theorem soft_drop_of_invalid (g : GameState) (rnd : RandStream)
    (h : check_piece_valid (pieceDown g.piece 1) g.board WIDTH HEIGHT = false) :
    soft_drop g rnd = (false, (spawn_piece (merge_piece g) rnd).1, fun i => rnd (i + 1)) := by
  unfold soft_drop
  simp only [pieceDown] at h
  simp [h, spawn_piece]

/-- C4: `soft_drop` decides on the piece moved one row down.  When the moved piece is valid
it returns true, the piece is one row lower with shape, column and rotation as before, the
board is as before and no random number is drawn; when it is not, it returns false, the board
is the old board with the piece merged at its original position and the active piece is a
fresh spawn at row 0, column 7, rotation 0 with a shape index in `0..6`.  Either way
`nextDropTime = time + get_time_to_next_drop level`, and phase, score, level, lineCount and
time are as before. -/
theorem soft_drop_spec (g : GameState) (rnd : RandStream) :
    (check_piece_valid (pieceDown g.piece 1) g.board WIDTH HEIGHT = true →
      (soft_drop g rnd).1 = true ∧
      (soft_drop g rnd).2.1.piece.offsetRow = g.piece.offsetRow + 1 ∧
      (soft_drop g rnd).2.1.piece.tetrinoIndex = g.piece.tetrinoIndex ∧
      (soft_drop g rnd).2.1.piece.offsetCol = g.piece.offsetCol ∧
      (soft_drop g rnd).2.1.piece.rotation = g.piece.rotation ∧
      (soft_drop g rnd).2.1.board = g.board ∧
      (soft_drop g rnd).2.2 = rnd) ∧
    (check_piece_valid (pieceDown g.piece 1) g.board WIDTH HEIGHT = false →
      (soft_drop g rnd).1 = false ∧
      (soft_drop g rnd).2.1.board = (merge_piece g).board ∧
      (soft_drop g rnd).2.1.piece.offsetRow = 0 ∧
      (soft_drop g rnd).2.1.piece.offsetCol = Int.tdiv WIDTH 2 ∧
      (soft_drop g rnd).2.1.piece.offsetCol = 7 ∧
      (soft_drop g rnd).2.1.piece.rotation = 0 ∧
      (soft_drop g rnd).2.1.piece.tetrinoIndex = rnd 0 % 7 ∧
      (soft_drop g rnd).2.1.piece.tetrinoIndex < 7) ∧
    (soft_drop g rnd).2.1.nextDropTime = g.time + get_time_to_next_drop g.level ∧
    (soft_drop g rnd).2.1.phase = g.phase ∧
    (soft_drop g rnd).2.1.score = g.score ∧
    (soft_drop g rnd).2.1.level = g.level ∧
    (soft_drop g rnd).2.1.lineCount = g.lineCount ∧
    (soft_drop g rnd).2.1.time = g.time := by
  cases h : check_piece_valid (pieceDown g.piece 1) g.board WIDTH HEIGHT
  · rw [soft_drop_of_invalid g rnd h, spawn_piece_game]
    simp [merge_piece]
    exact ⟨by decide, Nat.mod_lt _ (by decide)⟩
  · rw [soft_drop_of_valid g rnd h]
    simp [pieceDown]

/-! ## Merging -/

theorem countNonzero_arrayWrite (board : List Nat) (i : Int) (v : Nat) (h0 : 0 ≤ i)
    (h1 : i < board.length) (hz : arrayRead board i = 0) (hv : v ≠ 0) :
    countNonzero (arrayWrite board i v) = countNonzero board + 1 := by
  have h2 : i.toNat < board.length := by omega
  unfold arrayRead at hz
  rw [if_neg (not_lt.mpr h0), List.getD_eq_getElem?_getD, List.getElem?_eq_getElem h2] at hz
  simp only [Option.getD_some] at hz
  unfold countNonzero arrayWrite
  rw [if_neg (not_lt.mpr h0), List.countP_set _ _ _ _ h2]
  simp [hz, hv]

theorem merge_piece_cols_length (tetrino : Tetrino) (piece : PieceState) (row : Int) (n : Nat)
    (col : Int) (board : List Nat) :
    (merge_piece_cols tetrino piece row n col board).length = board.length := by
  induction n generalizing col board with
  | zero => rfl
  | succ n ih =>
    unfold merge_piece_cols
    simp only []
    split_ifs
    · rw [ih, matrix_set, arrayWrite_length]
    · rw [ih]

theorem merge_piece_cols_read_other (tetrino : Tetrino) (piece : PieceState) (row : Int)
    (n : Nat) (col : Int) (board : List Nat) (j : Int)
    (h : ∀ c : Int, col ≤ c → c < col + n → tetrino_get tetrino row c piece.rotation ≠ 0 →
      (piece.offsetRow + row) * 14 + (piece.offsetCol + c) ≠ j) :
    arrayRead (merge_piece_cols tetrino piece row n col board) j = arrayRead board j := by
  induction n generalizing col board with
  | zero => rfl
  | succ n ih =>
    unfold merge_piece_cols
    simp only []
    have hrest : ∀ c : Int, col + 1 ≤ c → c < col + 1 + n →
        tetrino_get tetrino row c piece.rotation ≠ 0 →
          (piece.offsetRow + row) * 14 + (piece.offsetCol + c) ≠ j :=
      fun c h1 h2 => h c (by omega) (by push_cast; omega)
    split_ifs with hv
    · rw [ih _ _ hrest, matrix_set]
      exact arrayRead_arrayWrite_other _ _ _ _ (h col (le_refl _) (by push_cast; omega) hv)
    · exact ih _ _ hrest

theorem merge_piece_cols_read_written (tetrino : Tetrino) (piece : PieceState) (row : Int)
    (n : Nat) (col : Int) (board : List Nat) (c0 : Int) (h1 : col ≤ c0) (h2 : c0 < col + n)
    (hv : tetrino_get tetrino row c0 piece.rotation ≠ 0)
    (hr0 : 0 ≤ (piece.offsetRow + row) * 14 + (piece.offsetCol + c0))
    (hr1 : (piece.offsetRow + row) * 14 + (piece.offsetCol + c0) < board.length) :
    arrayRead (merge_piece_cols tetrino piece row n col board)
        ((piece.offsetRow + row) * 14 + (piece.offsetCol + c0)) =
      tetrino_get tetrino row c0 piece.rotation := by
  induction n generalizing col board with
  | zero => simp at h2; omega
  | succ n ih =>
    push_cast at h2
    unfold merge_piece_cols
    simp only []
    by_cases hc : c0 = col
    · subst hc
      rw [if_pos hv, merge_piece_cols_read_other _ _ _ _ _ _ _ (fun c h3 _ _ => by omega),
        matrix_set]
      exact arrayRead_arrayWrite_same _ _ _ hr0 hr1
    · split_ifs with hv0
      · exact ih _ _ (by omega) (by omega) (by rw [matrix_set, arrayWrite_length]; exact hr1)
      · exact ih _ _ (by omega) (by omega) hr1

theorem merge_piece_cols_count (tetrino : Tetrino) (piece : PieceState) (row : Int)
    (n : Nat) (col : Int) (board : List Nat)
    (h : ∀ c : Int, col ≤ c → c < col + n → tetrino_get tetrino row c piece.rotation ≠ 0 →
      0 ≤ (piece.offsetRow + row) * 14 + (piece.offsetCol + c) ∧
      (piece.offsetRow + row) * 14 + (piece.offsetCol + c) < board.length ∧
      arrayRead board ((piece.offsetRow + row) * 14 + (piece.offsetCol + c)) = 0) :
    countNonzero (merge_piece_cols tetrino piece row n col board) =
      countNonzero board + nonzeroInRow tetrino piece.rotation row n col := by
  induction n generalizing col board with
  | zero => rfl
  | succ n ih =>
    unfold merge_piece_cols nonzeroInRow
    simp only []
    split_ifs with hv
    · obtain ⟨a0, a1, a2⟩ := h col (le_refl _) (by push_cast; omega) hv
      have hW : WIDTH = 14 := rfl
      rw [ih, matrix_set, hW, countNonzero_arrayWrite _ _ _ a0 a1 a2 hv]
      · omega
      · intro c h1 h2 hc
        obtain ⟨b0, b1, b2⟩ := h c (by omega) (by push_cast; omega) hc
        rw [matrix_set, hW, arrayWrite_length, arrayRead_arrayWrite_other _ _ _ _ (by omega)]
        exact ⟨b0, b1, b2⟩
    · rw [ih]
      · omega
      · exact fun c h1 h2 hc => h c (by omega) (by push_cast; omega) hc

theorem merge_piece_rows_length (tetrino : Tetrino) (piece : PieceState) (n : Nat) (row : Int)
    (board : List Nat) :
    (merge_piece_rows tetrino piece n row board).length = board.length := by
  induction n generalizing row board with
  | zero => rfl
  | succ n ih =>
    unfold merge_piece_rows
    rw [ih, merge_piece_cols_length]

theorem merge_piece_rows_read_other (tetrino : Tetrino) (piece : PieceState) (n : Nat)
    (row : Int) (board : List Nat) (j : Int)
    (h : ∀ r : Int, row ≤ r → r < row + n → ∀ c : Int, 0 ≤ c → c < tetrino.side.toNat →
      tetrino_get tetrino r c piece.rotation ≠ 0 →
        (piece.offsetRow + r) * 14 + (piece.offsetCol + c) ≠ j) :
    arrayRead (merge_piece_rows tetrino piece n row board) j = arrayRead board j := by
  induction n generalizing row board with
  | zero => rfl
  | succ n ih =>
    unfold merge_piece_rows
    rw [ih _ _ (fun r h1 h2 => h r (by omega) (by push_cast; omega))]
    exact merge_piece_cols_read_other _ _ _ _ _ _ _
      (fun c h1 h2 => h row (le_refl _) (by push_cast; omega) c h1 (by omega))

theorem merge_piece_rows_read_written (tetrino : Tetrino) (piece : PieceState) (n : Nat)
    (row : Int) (board : List Nat) (hlen : board.length = 308)
    (h : ∀ r : Int, row ≤ r → r < row + n → ∀ c : Int, 0 ≤ c → c < tetrino.side.toNat →
      tetrino_get tetrino r c piece.rotation ≠ 0 → cellInside piece r c)
    (r0 c0 : Int) (hr0 : row ≤ r0) (hr1 : r0 < row + n) (hc0 : 0 ≤ c0)
    (hc1 : c0 < tetrino.side.toNat) (hv : tetrino_get tetrino r0 c0 piece.rotation ≠ 0) :
    arrayRead (merge_piece_rows tetrino piece n row board)
        ((piece.offsetRow + r0) * 14 + (piece.offsetCol + c0)) =
      tetrino_get tetrino r0 c0 piece.rotation := by
  induction n generalizing row board with
  | zero => simp at hr1; omega
  | succ n ih =>
    push_cast at hr1
    unfold merge_piece_rows
    obtain ⟨i0, i1, i2, i3⟩ := h r0 hr0 (by push_cast; omega) c0 hc0 hc1 hv
    by_cases hr : r0 = row
    · subst hr
      rw [merge_piece_rows_read_other]
      · exact merge_piece_cols_read_written _ _ _ _ _ _ _ hc0 (by omega) hv (by omega)
          (by rw [hlen]; push_cast; omega)
      · intro r h1 h2 c h3 h4 h5
        obtain ⟨k0, k1, k2, k3⟩ := h r (by omega) (by push_cast; omega) c h3 h4 h5
        omega
    · exact ih _ _ (by rw [merge_piece_cols_length]; exact hlen)
        (fun r h1 h2 => h r (by omega) (by push_cast; omega)) (by omega) (by omega)

theorem merge_piece_rows_count (tetrino : Tetrino) (piece : PieceState) (n : Nat)
    (row : Int) (board : List Nat) (hlen : board.length = 308)
    (h : ∀ r : Int, row ≤ r → r < row + n → ∀ c : Int, 0 ≤ c → c < tetrino.side.toNat →
      tetrino_get tetrino r c piece.rotation ≠ 0 →
        cellInside piece r c ∧
          arrayRead board ((piece.offsetRow + r) * 14 + (piece.offsetCol + c)) = 0) :
    countNonzero (merge_piece_rows tetrino piece n row board) =
      countNonzero board + nonzeroInRows tetrino piece.rotation n row := by
  induction n generalizing row board with
  | zero => rfl
  | succ n ih =>
    unfold merge_piece_rows nonzeroInRows
    rw [ih _ _ (by rw [merge_piece_cols_length]; exact hlen), merge_piece_cols_count]
    · omega
    · intro c h1 h2 hc
      obtain ⟨⟨i0, i1, i2, i3⟩, i4⟩ := h row (le_refl _) (by push_cast; omega) c h1 (by omega) hc
      exact ⟨by omega, by rw [hlen]; push_cast; omega, i4⟩
    · intro r h1 h2 c h3 h4 hc
      obtain ⟨⟨i0, i1, i2, i3⟩, i4⟩ := h r (by omega) (by push_cast; omega) c h3 h4 hc
      refine ⟨⟨i0, i1, i2, i3⟩, ?_⟩
      rw [merge_piece_cols_read_other]
      · exact i4
      · intro c' h5 h6 h7
        obtain ⟨⟨k0, k1, k2, k3⟩, -⟩ :=
          h row (le_refl _) (by push_cast; omega) c' h5 (by omega) h7
        omega

theorem nonzeroCells_eq_four (index : Nat) (rotation : Int) (hi : index < 7)
    (h0 : 0 ≤ rotation) (h1 : rotation ≤ 3) :
    nonzeroCells (tetrinoAt index) rotation = 4 := by
  interval_cases index <;> interval_cases rotation <;> rfl

theorem cellFits_of_valid (piece : PieceState) (board : List Nat) (width height : Int)
    (hvalid : check_piece_valid piece board width height = true) (row col : Int)
    (h0 : 0 ≤ row) (h1 : row < (tetrinoAt piece.tetrinoIndex).side.toNat)
    (h2 : 0 ≤ col) (h3 : col < (tetrinoAt piece.tetrinoIndex).side.toNat)
    (hv : tetrino_get (tetrinoAt piece.tetrinoIndex) row col piece.rotation ≠ 0) :
    cellFits piece board width height row col := by
  unfold check_piece_valid at hvalid
  simp only [] at hvalid
  rw [check_piece_valid_rows_iff] at hvalid
  exact hvalid row h0 (by omega) col h2 h3 hv

/-- C6: for a state whose piece (shape `0..6`, rotation `0..3`) is valid on the 14 x 22
board, `merge_piece` stores the shape's value in every board cell covered by a nonzero rotated
cell, keeps every other board cell, keeps the piece and all other fields of the state, and so
raises the number of nonzero board cells by exactly 4. -/
theorem merge_piece_spec (g : GameState) (hidx : g.piece.tetrinoIndex < 7)
    (hrot0 : 0 ≤ g.piece.rotation) (hrot1 : g.piece.rotation ≤ 3)
    (hlen : g.board.length = 308)
    (hvalid : check_piece_valid g.piece g.board WIDTH HEIGHT = true) :
    (∀ row col : Int, 0 ≤ row → row < (tetrinoAt g.piece.tetrinoIndex).side →
      0 ≤ col → col < (tetrinoAt g.piece.tetrinoIndex).side →
      tetrino_get (tetrinoAt g.piece.tetrinoIndex) row col g.piece.rotation ≠ 0 →
        matrix_get (merge_piece g).board WIDTH (g.piece.offsetRow + row)
            (g.piece.offsetCol + col) =
          tetrino_get (tetrinoAt g.piece.tetrinoIndex) row col g.piece.rotation) ∧
    (∀ r c : Int, 0 ≤ c → c < WIDTH →
      (¬ ∃ row col : Int, 0 ≤ row ∧ row < (tetrinoAt g.piece.tetrinoIndex).side ∧
          0 ≤ col ∧ col < (tetrinoAt g.piece.tetrinoIndex).side ∧
          tetrino_get (tetrinoAt g.piece.tetrinoIndex) row col g.piece.rotation ≠ 0 ∧
          g.piece.offsetRow + row = r ∧ g.piece.offsetCol + col = c) →
        matrix_get (merge_piece g).board WIDTH r c = matrix_get g.board WIDTH r c) ∧
    (merge_piece g).board.length = g.board.length ∧
    merge_piece g = { g with board := (merge_piece g).board } ∧
    countNonzero (merge_piece g).board = countNonzero g.board + 4 := by
  have hfit := cellFits_of_valid g.piece g.board WIDTH HEIGHT hvalid
  have hin : ∀ r : Int, (0 : Int) ≤ r →
      r < 0 + ((tetrinoAt g.piece.tetrinoIndex).side.toNat : Int) →
      ∀ c : Int, 0 ≤ c → c < (tetrinoAt g.piece.tetrinoIndex).side.toNat →
      tetrino_get (tetrinoAt g.piece.tetrinoIndex) r c g.piece.rotation ≠ 0 →
        cellInside g.piece r c := by
    intro r h1 h2 c h3 h4 hv
    obtain ⟨a, b, c', d, -⟩ := hfit r c h1 (by omega) h3 h4 hv
    exact ⟨a, b, c', d⟩
  refine ⟨?_, ?_, ?_, rfl, ?_⟩
  · intro row col h0 h1 h2 h3 hv
    unfold merge_piece matrix_get
    simp only []
    exact merge_piece_rows_read_written _ _ _ _ _ hlen hin row col h0 (by omega) h2
      (by omega) hv
  · intro r c hc0 hc1 hno
    unfold merge_piece matrix_get
    simp only []
    apply merge_piece_rows_read_other
    intro row h1 h2 col h3 h4 hv heq
    obtain ⟨a, b, c', d⟩ := hin row h1 h2 col h3 h4 hv
    apply hno
    refine ⟨row, col, h1, by omega, h3, by omega, hv, ?_, ?_⟩
    · have hW : WIDTH = 14 := rfl
      rw [hW] at heq hc1
      omega
    · have hW : WIDTH = 14 := rfl
      rw [hW] at heq hc1
      omega
  · unfold merge_piece
    simp only []
    exact merge_piece_rows_length _ _ _ _ _
  · unfold merge_piece
    simp only []
    rw [merge_piece_rows_count _ _ _ _ _ hlen]
    · have := nonzeroCells_eq_four g.piece.tetrinoIndex g.piece.rotation hidx hrot0 hrot1
      unfold nonzeroCells at this
      rw [this]
    · intro r h1 h2 c h3 h4 hv
      obtain ⟨a, b, c', d, e⟩ := hfit r c h1 (by omega) h3 h4 hv
      exact ⟨⟨a, b, c', d⟩, e⟩

set_option maxRecDepth 100000 in
theorem merge_piece_spec_witness :
    spawnedOnEmpty.piece.tetrinoIndex < 7 ∧ 0 ≤ spawnedOnEmpty.piece.rotation ∧
      spawnedOnEmpty.piece.rotation ≤ 3 ∧ spawnedOnEmpty.board.length = 308 ∧
      check_piece_valid spawnedOnEmpty.piece spawnedOnEmpty.board WIDTH HEIGHT = true ∧
      countNonzero (merge_piece spawnedOnEmpty).board = countNonzero spawnedOnEmpty.board + 4 :=
  ⟨by decide, by decide, by decide, by decide, by decide,
    (merge_piece_spec spawnedOnEmpty (by decide) (by decide) (by decide) (by decide)
      (by decide)).2.2.2.2⟩

/-! ## Hard drop -/

theorem pieceDown_zero (piece : PieceState) : pieceDown piece 0 = piece := by
  simp [pieceDown]

theorem pieceDown_pieceDown (piece : PieceState) (a b : Int) :
    pieceDown (pieceDown piece a) b = pieceDown piece (a + b) := by
  simp [pieceDown, add_assoc]

theorem hard_drop_loop_unroll (k : Nat) :
    ∀ (g : GameState) (rnd : RandStream) (fuel : Nat), k + 1 ≤ fuel →
      (∀ j : Nat, j < k →
        check_piece_valid (pieceDown g.piece ((j : Int) + 1)) g.board WIDTH HEIGHT = true) →
      check_piece_valid (pieceDown g.piece ((k : Int) + 1)) g.board WIDTH HEIGHT = false →
      hard_drop_loop fuel g rnd =
        some (List.replicate k true ++ [false],
          { g with
            board := (merge_piece { g with piece := pieceDown g.piece k }).board
            piece := { tetrinoIndex := rnd 0 % 7, offsetRow := 0, offsetCol := 7, rotation := 0 }
            nextDropTime := g.time + get_time_to_next_drop g.level },
          fun i => rnd (i + 1)) := by
  induction k with
  | zero =>
    intro g rnd fuel hf _ hinv
    obtain ⟨f, rfl⟩ : ∃ f, fuel = f + 1 := ⟨fuel - 1, by omega⟩
    simp only [Nat.cast_zero, zero_add] at hinv
    unfold hard_drop_loop
    simp only [soft_drop_of_invalid g rnd hinv, spawn_piece_game]
    simp [pieceDown_zero, merge_piece]
  | succ k ih =>
    intro g rnd fuel hf hval hinv
    obtain ⟨f, rfl⟩ : ∃ f, fuel = f + 1 := ⟨fuel - 1, by omega⟩
    have h0 : check_piece_valid (pieceDown g.piece 1) g.board WIDTH HEIGHT = true := by
      simpa using hval 0 (by omega)
    unfold hard_drop_loop
    simp only [soft_drop_of_valid g rnd h0]
    rw [ih _ rnd f (by omega)]
    · simp [pieceDown_pieceDown, merge_piece, List.replicate_succ, add_comm]
    · intro j hj
      have := hval (j + 1) (by omega)
      simp only [pieceDown_pieceDown]
      push_cast at this
      rw [show (1 : Int) + ((j : Int) + 1) = (j : Int) + 1 + 1 by ring]
      exact this
    · simp only [pieceDown_pieceDown]
      push_cast at hinv
      rw [show (1 : Int) + ((k : Int) + 1) = (k : Int) + 1 + 1 by ring]
      exact hinv

theorem exists_nonzero_cell (index : Nat) (rotation : Int) (hi : index < 7)
    (h0 : 0 ≤ rotation) (h1 : rotation ≤ 3) :
    ∃ r : Nat, r < 4 ∧ ∃ c : Nat, c < 4 ∧ (r : Int) < (tetrinoAt index).side.toNat ∧
      (c : Int) < (tetrinoAt index).side.toNat ∧
      tetrino_get (tetrinoAt index) r c rotation ≠ 0 := by
  interval_cases index <;> interval_cases rotation <;> decide

theorem pieceDown_rows_of_valid (piece : PieceState) (board : List Nat) (k : Int)
    (hvalid : check_piece_valid (pieceDown piece k) board WIDTH HEIGHT = true) (r c : Nat)
    (hr : (r : Int) < (tetrinoAt piece.tetrinoIndex).side.toNat)
    (hc : (c : Int) < (tetrinoAt piece.tetrinoIndex).side.toNat)
    (hv : tetrino_get (tetrinoAt piece.tetrinoIndex) r c piece.rotation ≠ 0) :
    0 ≤ piece.offsetRow + k + r ∧ piece.offsetRow + k + r < 22 := by
  have h := cellFits_of_valid (pieceDown piece k) board WIDTH HEIGHT hvalid r c (by omega)
    (by simpa [pieceDown] using hr) (by omega) (by simpa [pieceDown] using hc)
    (by simpa [pieceDown] using hv)
  obtain ⟨a, b, -, -, -⟩ := h
  simp only [pieceDown] at a b
  exact ⟨a, b⟩

theorem exists_landing_row (g : GameState) (hidx : g.piece.tetrinoIndex < 7)
    (hrot0 : 0 ≤ g.piece.rotation) (hrot1 : g.piece.rotation ≤ 3) :
    ∃ k : Nat, k ≤ 22 ∧
      check_piece_valid (pieceDown g.piece ((k : Int) + 1)) g.board WIDTH HEIGHT = false ∧
      (∀ j : Nat, j < k →
        check_piece_valid (pieceDown g.piece ((j : Int) + 1)) g.board WIDTH HEIGHT = true) ∧
      (check_piece_valid g.piece g.board WIDTH HEIGHT = true → k + 1 ≤ 22) ∧
      (0 ≤ g.piece.offsetRow → k + 1 ≤ 22) := by
  obtain ⟨r, -, c, -, hr, hc, hv⟩ :=
    exists_nonzero_cell g.piece.tetrinoIndex g.piece.rotation hidx hrot0 hrot1
  have hex : ∃ m : Nat,
      check_piece_valid (pieceDown g.piece ((m : Int) + 1)) g.board WIDTH HEIGHT = false := by
    by_contra hno
    push_neg at hno
    have h22 := pieceDown_rows_of_valid g.piece g.board (((22 : Nat) : Int) + 1)
      (by simpa using hno 22) r c hr hc hv
    have h0 := pieceDown_rows_of_valid g.piece g.board (((0 : Nat) : Int) + 1)
      (by simpa using hno 0) r c hr hc hv
    push_cast at h22 h0
    omega
  have hbelow : ∀ j : Nat, j < Nat.find hex →
      check_piece_valid (pieceDown g.piece ((j : Int) + 1)) g.board WIDTH HEIGHT = true := by
    intro j hj
    simpa using Nat.find_min hex hj
  have hrows : ∀ j : Nat, j < Nat.find hex →
      0 ≤ g.piece.offsetRow + ((j : Int) + 1) + r ∧
        g.piece.offsetRow + ((j : Int) + 1) + r < 22 :=
    fun j hj => pieceDown_rows_of_valid g.piece g.board _ (hbelow j hj) r c hr hc hv
  refine ⟨Nat.find hex, ?_, Nat.find_spec hex, hbelow, ?_, ?_⟩
  · by_contra hgt
    have h1 := hrows 0 (by omega)
    have h2 := hrows 22 (by omega)
    push_cast at h1 h2
    omega
  · intro hvalid
    by_contra hgt
    have h1 := pieceDown_rows_of_valid g.piece g.board 0
      (by rw [pieceDown_zero]; exact hvalid) r c hr hc hv
    have h2 := hrows 21 (by omega)
    push_cast at h2
    omega
  · intro hrow
    by_contra hgt
    have h2 := hrows 21 (by omega)
    push_cast at h2
    omega

/-- C5: for a state whose piece has shape index `0..6` and rotation `0..3`, the
hard-drop loop ends: with `k` the least number such that the piece moved `k + 1` rows down is
invalid, `soft_drop` returns true exactly `k` times and then false once, and the board is then
the original board with the piece merged `k` rows down.  There are at most `HEIGHT + 1` calls,
and at most `HEIGHT` calls when the piece is valid or its row offset is not negative. -/
theorem hard_drop_loop_lands (g : GameState) (rnd : RandStream)
    (hidx : g.piece.tetrinoIndex < 7) (hrot0 : 0 ≤ g.piece.rotation)
    (hrot1 : g.piece.rotation ≤ 3) :
    ∃ k : Nat, ((k : Int) + 1 ≤ HEIGHT + 1) ∧
      (check_piece_valid g.piece g.board WIDTH HEIGHT = true → (k : Int) + 1 ≤ HEIGHT) ∧
      (0 ≤ g.piece.offsetRow → (k : Int) + 1 ≤ HEIGHT) ∧
      check_piece_valid (pieceDown g.piece ((k : Int) + 1)) g.board WIDTH HEIGHT = false ∧
      (∀ j : Nat, j < k →
        check_piece_valid (pieceDown g.piece ((j : Int) + 1)) g.board WIDTH HEIGHT = true) ∧
      ∀ fuel : Nat, k + 1 ≤ fuel →
        ∃ (g' : GameState) (rnd' : RandStream),
          hard_drop_loop fuel g rnd = some (List.replicate k true ++ [false], g', rnd') ∧
          g'.board = (merge_piece { g with piece := pieceDown g.piece k }).board := by
  obtain ⟨k, hk, hinv, hval, hv1, hv2⟩ := exists_landing_row g hidx hrot0 hrot1
  refine ⟨k, ?_, ?_, ?_, hinv, hval, ?_⟩
  · have hH : HEIGHT = 22 := rfl
    rw [hH]; omega
  · intro h
    have := hv1 h
    have hH : HEIGHT = 22 := rfl
    rw [hH]; omega
  · intro h
    have := hv2 h
    have hH : HEIGHT = 22 := rfl
    rw [hH]; omega
  · intro fuel hf
    exact ⟨_, _, hard_drop_loop_unroll k g rnd fuel hf hval hinv, rfl⟩

set_option maxRecDepth 100000 in
theorem hard_drop_loop_lands_witness :
    spawnedOnEmpty.piece.tetrinoIndex < 7 ∧ 0 ≤ spawnedOnEmpty.piece.rotation ∧
      spawnedOnEmpty.piece.rotation ≤ 3 ∧
      ∃ k : Nat, ((k : Int) + 1 ≤ HEIGHT + 1) ∧
        check_piece_valid (pieceDown spawnedOnEmpty.piece ((k : Int) + 1))
          spawnedOnEmpty.board WIDTH HEIGHT = false :=
  ⟨by decide, by decide, by decide,
    (hard_drop_loop_lands spawnedOnEmpty (fun _ => 0) (by decide) (by decide) (by decide)).imp
      (fun _ h => ⟨h.1, h.2.2.2.1⟩)⟩

set_option maxRecDepth 100000 in
/-- C5, the bound of `HEIGHT` calls: the bar lying one row above the empty board has shape
index 0 and rotation 0, and its hard-drop loop calls `soft_drop` 23 times, one more than
`HEIGHT`: 22 calls return true and the 23rd returns false. -/
theorem hard_drop_loop_exceeds_height :
    barAboveBoard.piece.tetrinoIndex < 7 ∧ 0 ≤ barAboveBoard.piece.rotation ∧
      barAboveBoard.piece.rotation ≤ 3 ∧ HEIGHT = 22 ∧
      (hard_drop_loop 23 barAboveBoard (fun _ => 0)).map (fun r => r.1) =
        some (List.replicate 22 true ++ [false]) := by
  refine ⟨by decide, by decide, by decide, rfl, ?_⟩
  decide!

/-! ## Play tick -/

theorem SameFrame.rfl (g : GameState) : SameFrame g g :=
  ⟨Eq.refl _, Eq.refl _, Eq.refl _, Eq.refl _, Eq.refl _, Eq.refl _, Eq.refl _, Eq.refl _,
    Eq.refl _⟩

theorem SameFrame.trans {a b c : GameState} (h1 : SameFrame a b) (h2 : SameFrame b c) :
    SameFrame a c :=
  ⟨h2.lines.trans h1.lines, h2.phase.trans h1.phase, h2.level.trans h1.level,
    h2.startLevel.trans h1.startLevel, h2.lineCount.trans h1.lineCount,
    h2.pendingLineCount.trans h1.pendingLineCount, h2.score.trans h1.score,
    h2.time.trans h1.time, h2.highlightEndTime.trans h1.highlightEndTime⟩

theorem update_game_play_candidate_range (piece : PieceState) (input : InputState)
    (hp : PieceInRange piece) : PieceInRange (update_game_play_candidate piece input) := by
  obtain ⟨h1, h2, h3⟩ := hp
  have hmod : 0 ≤ Int.tmod (piece.rotation + 1) 4 ∧ Int.tmod (piece.rotation + 1) 4 ≤ 3 := by
    rw [Int.tmod_eq_emod (by omega) (by omega)]; omega
  unfold update_game_play_candidate PieceInRange
  split_ifs <;> simp only [] <;> exact ⟨h1, by first | exact h2 | exact hmod.1,
    by first | exact h3 | exact hmod.2⟩

theorem get_time_to_next_drop_pos (level : Int) (h : 0 ≤ level) :
    0 < get_time_to_next_drop level := by
  unfold get_time_to_next_drop TARGET_SECONDS_PER_FRAME
  have hframes : 0 < arrayRead FRAMES_PER_DROP (if level > 29 then 29 else level) := by
    split_ifs with h29
    · decide
    · have h30 : level ≤ 29 := by omega
      interval_cases level <;> decide
  have hq : (0 : ℚ) < (arrayRead FRAMES_PER_DROP (if level > 29 then 29 else level) : ℚ) := by
    exact_mod_cast hframes
  positivity

theorem check_row_filled_iff_rowFilled (values : List Nat) (width row : Int) :
    check_row_filled values width row = 1 ↔ rowFilled values width row := by
  rw [check_row_filled_iff]
  unfold rowFilled
  constructor
  · intro h col hc
    exact h col (by omega) (by omega)
  · intro h col h0 h1
    have := h col.toNat (by omega)
    rwa [Int.toNat_of_nonneg h0] at this

theorem check_row_filled_zero_iff_not_rowFilled (values : List Nat) (width row : Int) :
    check_row_filled values width row = 0 ↔ ¬ rowFilled values width row := by
  rw [← check_row_filled_iff_rowFilled]
  rcases check_row_filled_cols_le_one values width row width.toNat 0 with h | h <;>
    simp [check_row_filled, h]

theorem check_row_empty_cols_zero_iff (values : List Nat) (width row : Int) (n : Nat)
    (col : Int) :
    check_row_empty_cols values width row n col = 0 ↔
      ∃ c : Int, col ≤ c ∧ c < col + n ∧ matrix_get values width row c ≠ 0 := by
  induction n generalizing col with
  | zero =>
    simp only [check_row_empty_cols]
    constructor
    · intro h; cases h
    · rintro ⟨c, h1, h2, -⟩
      simp at h2
      omega
  | succ n ih =>
    unfold check_row_empty_cols
    split_ifs with h
    · simp only [true_iff]
      exact ⟨col, le_refl _, by push_cast; omega, h⟩
    · rw [ih (col + 1)]
      constructor
      · rintro ⟨c, h1, h2, h3⟩
        exact ⟨c, by omega, by push_cast; omega, h3⟩
      · rintro ⟨c, h1, h2, h3⟩
        have hc : c ≠ col := fun e => h (e ▸ h3)
        exact ⟨c, by omega, by push_cast at h2; omega, h3⟩

theorem check_row_empty_zero_iff_rowOccupied (values : List Nat) (width row : Int) :
    check_row_empty values width row = 0 ↔ rowOccupied values width row := by
  unfold check_row_empty rowOccupied
  rw [check_row_empty_cols_zero_iff]
  constructor
  · rintro ⟨c, h1, h2, h3⟩
    refine ⟨c.toNat, by omega, ?_⟩
    rwa [Int.toNat_of_nonneg h1]
  · rintro ⟨c, h1, h2⟩
    exact ⟨c, by omega, by omega, h2⟩

theorem find_lines_count_filledRowCount (values : List Nat) (width height : Int)
    (linesOut : List Nat) :
    (find_lines values width height linesOut).count = filledRowCount values width height := by
  rw [find_lines_count_eq]
  unfold filledRowCount
  congr 2
  apply List.filter_congr
  intro k _
  simp only [check_row_filled_iff_rowFilled]

theorem find_lines_values (values : List Nat) (width height : Int) (linesOut : List Nat) :
    (find_lines values width height linesOut).values = values := rfl

theorem update_game_play_finish_spec (g : GameState) (hlines : g.lines.length = 22) :
    (update_game_play_finish g).board = g.board ∧
    (update_game_play_finish g).pendingLineCount = filledRowCount g.board WIDTH HEIGHT ∧
    (∀ row : Int, 0 ≤ row → row < HEIGHT →
      (arrayRead (update_game_play_finish g).lines row = 1 ↔ rowFilled g.board WIDTH row) ∧
      (arrayRead (update_game_play_finish g).lines row = 0 ↔ ¬ rowFilled g.board WIDTH row)) ∧
    (rowOccupied g.board WIDTH 0 → (update_game_play_finish g).phase = GAME_PHASE_GAMEOVER) ∧
    (¬ rowOccupied g.board WIDTH 0 → 0 < filledRowCount g.board WIDTH HEIGHT →
      (update_game_play_finish g).phase = GAME_PHASE_LINE) ∧
    (0 < filledRowCount g.board WIDTH HEIGHT →
      (update_game_play_finish g).highlightEndTime = g.time + 1 / 2) ∧
    (¬ rowOccupied g.board WIDTH 0 → filledRowCount g.board WIDTH HEIGHT = 0 →
      (update_game_play_finish g).phase = g.phase) ∧
    (filledRowCount g.board WIDTH HEIGHT = 0 →
      (update_game_play_finish g).highlightEndTime = g.highlightEndTime) ∧
    (update_game_play_finish g).piece = g.piece ∧
    (update_game_play_finish g).time = g.time ∧
    (update_game_play_finish g).nextDropTime = g.nextDropTime ∧
    (update_game_play_finish g).level = g.level ∧
    (update_game_play_finish g).startLevel = g.startLevel ∧
    (update_game_play_finish g).score = g.score ∧
    (update_game_play_finish g).lineCount = g.lineCount := by
  have hcount := find_lines_count_filledRowCount g.board WIDTH HEIGHT g.lines
  have hocc := check_row_empty_zero_iff_rowOccupied g.board WIDTH 0
  have hflags : ∀ row : Int, 0 ≤ row → row < HEIGHT →
      (arrayRead (find_lines g.board WIDTH HEIGHT g.lines).linesOut row = 1 ↔
          rowFilled g.board WIDTH row) ∧
        (arrayRead (find_lines g.board WIDTH HEIGHT g.lines).linesOut row = 0 ↔
          ¬ rowFilled g.board WIDTH row) := by
    intro row h0 h1
    rw [find_lines_linesOut_read g.board WIDTH HEIGHT g.lines (by rw [hlines]; decide) row h0 h1]
    exact ⟨check_row_filled_iff_rowFilled _ _ _, check_row_filled_zero_iff_not_rowFilled _ _ _⟩
  have hvalues : (find_lines g.board WIDTH HEIGHT g.lines).values = g.board :=
    find_lines_values _ _ _ _
  unfold update_game_play_finish
  generalize find_lines g.board WIDTH HEIGHT g.lines = found at hcount hflags hvalues ⊢
  obtain ⟨fc, fl, fv⟩ := found
  simp only [] at hcount hvalues hflags ⊢
  subst hvalues
  generalize filledRowCount g.board WIDTH HEIGHT = cnt at hcount ⊢
  subst hcount
  by_cases hpos : 0 < cnt
  · have hpos' : (cnt : Int) > 0 := by exact_mod_cast hpos
    have hne : cnt ≠ 0 := by omega
    by_cases hocc0 : rowOccupied g.board WIDTH 0
    · have he : check_row_empty g.board WIDTH 0 = 0 := hocc.mpr hocc0
      simp only [hpos', if_true, he]
      simpa [hocc0, hpos, hne] using hflags
    · have he : ¬ check_row_empty g.board WIDTH 0 = 0 := fun h => hocc0 (hocc.mp h)
      simp only [hpos', if_true, he, if_false]
      simpa [hocc0, hpos, hne] using hflags
  · have hpos' : ¬ (cnt : Int) > 0 := by
      intro h; exact hpos (by exact_mod_cast h)
    have hz : cnt = 0 := by omega
    by_cases hocc0 : rowOccupied g.board WIDTH 0
    · have he : check_row_empty g.board WIDTH 0 = 0 := hocc.mpr hocc0
      simp only [hpos', if_false, he, if_true]
      simpa [hocc0, hz] using hflags
    · have he : ¬ check_row_empty g.board WIDTH 0 = 0 := fun h => hocc0 (hocc.mp h)
      simp only [hpos', if_false, he]
      simpa [hocc0, hz] using hflags

/-- C8: `update_game_line` returns the state unchanged while `time < highlightEndTime`.
From `time >= highlightEndTime` on, the board becomes `clear_lines board lines`, `lineCount`
grows by `pendingLineCount`, `score` grows by `compute_score level pendingLineCount` taken at
the level before any increment, the level grows by exactly 1 when the new `lineCount` reaches
`get_lines_for_next_level startLevel level` and stays otherwise, the phase becomes PLAY, and
piece, startLevel, nextDropTime, lines, pendingLineCount and the times are unchanged. -/
theorem update_game_line_spec (g : GameState) :
    (g.time < g.highlightEndTime → update_game_line g = g) ∧
    (g.highlightEndTime ≤ g.time →
      (update_game_line g).board = clear_lines g.board WIDTH HEIGHT g.lines ∧
      (update_game_line g).lineCount = g.lineCount + g.pendingLineCount ∧
      (update_game_line g).score = g.score + compute_score g.level g.pendingLineCount ∧
      (g.lineCount + g.pendingLineCount ≥ get_lines_for_next_level g.startLevel g.level →
        (update_game_line g).level = g.level + 1) ∧
      (g.lineCount + g.pendingLineCount < get_lines_for_next_level g.startLevel g.level →
        (update_game_line g).level = g.level) ∧
      (update_game_line g).phase = GAME_PHASE_PLAY ∧
      (update_game_line g).piece = g.piece ∧
      (update_game_line g).startLevel = g.startLevel ∧
      (update_game_line g).nextDropTime = g.nextDropTime ∧
      (update_game_line g).lines = g.lines ∧
      (update_game_line g).pendingLineCount = g.pendingLineCount ∧
      (update_game_line g).time = g.time ∧
      (update_game_line g).highlightEndTime = g.highlightEndTime) := by
  constructor
  · intro h
    unfold update_game_line
    rw [if_neg (not_le.mpr h)]
  · intro h
    unfold update_game_line
    rw [if_pos h]
    by_cases hl : g.lineCount + g.pendingLineCount ≥ get_lines_for_next_level g.startLevel g.level
    · have hl' : ¬ (g.lineCount + g.pendingLineCount <
          get_lines_for_next_level g.startLevel g.level) := not_lt.mpr hl
      simp [hl, hl']
    · have hl' : g.lineCount + g.pendingLineCount <
          get_lines_for_next_level g.startLevel g.level := not_le.mp hl
      simp [hl, hl']

/-! ## Start phase -/

theorem memset_zero_upto (values : List Nat) (n : Nat) (hn : n ≤ values.length) :
    memset values 0 0 n = List.replicate n 0 ++ values.drop n := by
  induction n with
  | zero => simp [memset]
  | succ n ih =>
    have hlt : n < values.length := by omega
    unfold memset
    rw [ih (by omega)]
    unfold arrayWrite
    have h0 : ¬ ((0 : Int) + (n : Int) < 0) := by omega
    rw [if_neg h0]
    have hidx : ((0 : Int) + (n : Int)).toNat = n := by omega
    rw [hidx, List.set_append]
    simp only [List.length_replicate, lt_self_iff_false, if_false, Nat.sub_self]
    rw [List.drop_eq_getElem_cons hlt, List.set_cons_zero, List.replicate_succ',
      List.append_assoc]
    rfl

theorem memset_zero_all (values : List Nat) (n : Nat) (hn : values.length = n) :
    memset values 0 0 n = List.replicate n 0 := by
  rw [memset_zero_upto values n (by omega), List.drop_of_length_le (by omega),
    List.append_nil]

theorem board_size_toNat : (WIDTH * HEIGHT).toNat = 308 := by decide

theorem memset_board (b : List Nat) (hb : b.length = 308) :
    memset b 0 0 (WIDTH * HEIGHT).toNat = emptyBoard :=
  (congrArg (memset b 0 0) board_size_toNat).trans (memset_zero_all b 308 hb)

theorem update_game_start_confirm (g : GameState) (input : InputState) (rnd : RandStream)
    (ha : input.deltaA > 0) :
    update_game_start g input rnd =
      ({ g with
          board := memset g.board 0 0 (WIDTH * HEIGHT).toNat
          level := (if input.deltaDown > 0 ∧
                (if input.deltaUp > 0 then g.startLevel + 1 else g.startLevel) > 0 then
              (if input.deltaUp > 0 then g.startLevel + 1 else g.startLevel) - 1
            else (if input.deltaUp > 0 then g.startLevel + 1 else g.startLevel))
          startLevel := (if input.deltaDown > 0 ∧
                (if input.deltaUp > 0 then g.startLevel + 1 else g.startLevel) > 0 then
              (if input.deltaUp > 0 then g.startLevel + 1 else g.startLevel) - 1
            else (if input.deltaUp > 0 then g.startLevel + 1 else g.startLevel))
          score := 0
          lineCount := 0
          piece := { tetrinoIndex := rnd 0 % 7, offsetRow := 0, offsetCol := 7, rotation := 0 }
          nextDropTime := g.time + get_time_to_next_drop
            (if input.deltaDown > 0 ∧
                (if input.deltaUp > 0 then g.startLevel + 1 else g.startLevel) > 0 then
              (if input.deltaUp > 0 then g.startLevel + 1 else g.startLevel) - 1
            else (if input.deltaUp > 0 then g.startLevel + 1 else g.startLevel))
          phase := GAME_PHASE_PLAY },
        fun i => rnd (i + 1)) := by
  unfold update_game_start
  dsimp only
  rw [if_pos ha, spawn_piece_game]
  by_cases hu : input.deltaUp > 0 <;> by_cases hd : input.deltaDown > 0 <;>
    simp only [hu, hd, if_true, if_false, true_and, false_and] <;>
    (try split_ifs) <;>
    (generalize memset g.board 0 0 (WIDTH * HEIGHT).toNat = cleared; rfl)

theorem update_game_start_idle (g : GameState) (input : InputState) (rnd : RandStream)
    (ha : ¬ input.deltaA > 0) :
    update_game_start g input rnd =
      ({ g with
          startLevel := (if input.deltaDown > 0 ∧
                (if input.deltaUp > 0 then g.startLevel + 1 else g.startLevel) > 0 then
              (if input.deltaUp > 0 then g.startLevel + 1 else g.startLevel) - 1
            else (if input.deltaUp > 0 then g.startLevel + 1 else g.startLevel)) },
        rnd) := by
  unfold update_game_start
  dsimp only
  rw [if_neg ha]
  by_cases hu : input.deltaUp > 0 <;> by_cases hd : input.deltaDown > 0 <;>
    simp only [hu, hd, if_true, if_false, true_and, false_and] <;>
    first | rfl | (split_ifs <;> rfl)

/-- C9: for a state with `startLevel >= 0` (and the 308-cell board), `update_game_start`
adds 1 to `startLevel` on an up edge and then subtracts 1 on a down edge only when the value
is positive, so `startLevel` is not negative afterwards.  With a confirm edge the board is
all zero, `level` is the adjusted `startLevel`, score and lineCount are 0, the piece is a fresh
spawn (row 0, column 7, rotation 0, shape index in `0..6`), `nextDropTime` is rescheduled and
the phase is PLAY; without one, board, level, score, lineCount, piece, phase and
`nextDropTime` are unchanged and no random number is drawn. -/
theorem update_game_start_spec (g : GameState) (input : InputState) (rnd : RandStream)
    (hstart : 0 ≤ g.startLevel) (hlen : g.board.length = 308) :
    (update_game_start g input rnd).1.startLevel =
      (if input.deltaDown > 0 ∧
            (if input.deltaUp > 0 then g.startLevel + 1 else g.startLevel) > 0 then
          (if input.deltaUp > 0 then g.startLevel + 1 else g.startLevel) - 1
        else (if input.deltaUp > 0 then g.startLevel + 1 else g.startLevel)) ∧
    0 ≤ (update_game_start g input rnd).1.startLevel ∧
    (input.deltaA > 0 →
      (update_game_start g input rnd).1.board = emptyBoard ∧
      (update_game_start g input rnd).1.level = (update_game_start g input rnd).1.startLevel ∧
      (update_game_start g input rnd).1.score = 0 ∧
      (update_game_start g input rnd).1.lineCount = 0 ∧
      (update_game_start g input rnd).1.piece =
        { tetrinoIndex := rnd 0 % 7, offsetRow := 0, offsetCol := 7, rotation := 0 } ∧
      (update_game_start g input rnd).1.piece.tetrinoIndex < 7 ∧
      (update_game_start g input rnd).1.nextDropTime =
        g.time + get_time_to_next_drop (update_game_start g input rnd).1.startLevel ∧
      (update_game_start g input rnd).1.phase = GAME_PHASE_PLAY) ∧
    (¬ input.deltaA > 0 →
      (update_game_start g input rnd).1.board = g.board ∧
      (update_game_start g input rnd).1.level = g.level ∧
      (update_game_start g input rnd).1.score = g.score ∧
      (update_game_start g input rnd).1.lineCount = g.lineCount ∧
      (update_game_start g input rnd).1.piece = g.piece ∧
      (update_game_start g input rnd).1.phase = g.phase ∧
      (update_game_start g input rnd).1.nextDropTime = g.nextDropTime ∧
      (update_game_start g input rnd).2 = rnd) := by
  have hmem := memset_board g.board hlen
  have hmod : rnd 0 % 7 < 7 := Nat.mod_lt _ (by decide)
  have hadj : 0 ≤ (if input.deltaDown > 0 ∧
        (if input.deltaUp > 0 then g.startLevel + 1 else g.startLevel) > 0 then
      (if input.deltaUp > 0 then g.startLevel + 1 else g.startLevel) - 1
    else (if input.deltaUp > 0 then g.startLevel + 1 else g.startLevel)) := by
    split_ifs <;> omega
  by_cases ha : input.deltaA > 0
  · rw [update_game_start_confirm g input rnd ha]
    generalize memset g.board 0 0 (WIDTH * HEIGHT).toNat = cleared at hmem ⊢
    exact ⟨rfl, hadj, fun _ => ⟨hmem, rfl, rfl, rfl, rfl, hmod, rfl, rfl⟩,
      fun h => absurd ha h⟩
  · rw [update_game_start_idle g input rnd ha]
    exact ⟨rfl, hadj, fun h => absurd h ha, fun _ => ⟨rfl, rfl, rfl, rfl, rfl, rfl, rfl, rfl⟩⟩

set_option maxRecDepth 100000 in
theorem update_game_start_spec_witness :
    0 ≤ initialState.startLevel ∧ initialState.board.length = 308 ∧
      0 ≤ (update_game_start initialState confirmInput (fun _ => 0)).1.startLevel :=
  ⟨by decide, by decide,
    (update_game_start_spec initialState confirmInput (fun _ => 0) (by decide) (by decide)).2.1⟩

/-! ## Game-over phase -/

/-- C10: in phase GAMEOVER `update_game` returns for every fuel, input and time; with a
confirm edge (`deltaA > 0`) the result is the state with the phase set to START and every
other field (board, piece, score, level, startLevel, lineCount, lines, times) as before;
without one the state is returned unchanged.  No random number is drawn. -/
theorem update_game_gameover_spec (fuel : Nat) (g : GameState) (input : InputState)
    (rnd : RandStream) (hphase : g.phase = GAME_PHASE_GAMEOVER) :
    (input.deltaA > 0 →
      update_game fuel g input rnd = some ({ g with phase := GAME_PHASE_START }, rnd)) ∧
    (¬ input.deltaA > 0 → update_game fuel g input rnd = some (g, rnd)) := by
  unfold update_game update_game_gameover
  rw [hphase]
  constructor
  · intro ha
    simp only [if_pos ha]
  · intro ha
    simp only [if_neg ha]

theorem update_game_gameover_spec_witness :
    gameOverState.phase = GAME_PHASE_GAMEOVER ∧
      update_game 0 gameOverState confirmInput (fun _ => 0) =
        some ({ gameOverState with phase := GAME_PHASE_START }, fun _ => 0) :=
  ⟨rfl, (update_game_gameover_spec 0 gameOverState confirmInput (fun _ => 0) rfl).1
    (by decide)⟩

/-! ## Line clearing: the loop -/

theorem memset_length (values : List Nat) (start : Int) (c : Nat) (n : Nat) :
    (memset values start c n).length = values.length := by
  induction n with
  | zero => rfl
  | succ n ih => rw [memset, arrayWrite_length, ih]

theorem memcpy_length (values : List Nat) (dest : Int) (source : List Nat) (src : Int)
    (n : Nat) : (memcpy values dest source src n).length = values.length := by
  induction n with
  | zero => rfl
  | succ n ih => rw [memcpy, arrayWrite_length, ih]

theorem memset_read (values : List Nat) (start : Int) (c : Nat) (n : Nat) (j : Int)
    (h0 : 0 ≤ start) (h1 : start + n ≤ values.length) :
    arrayRead (memset values start c n) j =
      if start ≤ j ∧ j < start + n then c else arrayRead values j := by
  induction n with
  | zero =>
    have : ¬ (start ≤ j ∧ j < start + ((0 : Nat) : Int)) := by push_cast; omega
    rw [if_neg this]; rfl
  | succ n ih =>
    push_cast at h1
    rw [memset]
    by_cases hj : j = start + n
    · subst hj
      rw [arrayRead_arrayWrite_same _ _ _ (by omega) (by rw [memset_length]; omega)]
      rw [if_pos ⟨by omega, by push_cast; omega⟩]
    · rw [arrayRead_arrayWrite_other _ _ _ _ (fun e => hj e.symm), ih (by omega)]
      by_cases hin : start ≤ j ∧ j < start + n
      · rw [if_pos hin, if_pos ⟨hin.1, by push_cast; omega⟩]
      · rw [if_neg hin, if_neg (by push_cast; omega)]

theorem memcpy_read (values : List Nat) (dest : Int) (source : List Nat) (src : Int) (n : Nat)
    (j : Int) (h0 : 0 ≤ dest) (h1 : dest + n ≤ values.length) :
    arrayRead (memcpy values dest source src n) j =
      if dest ≤ j ∧ j < dest + n then arrayRead source (src + (j - dest))
      else arrayRead values j := by
  induction n with
  | zero =>
    have : ¬ (dest ≤ j ∧ j < dest + ((0 : Nat) : Int)) := by push_cast; omega
    rw [if_neg this]; rfl
  | succ n ih =>
    push_cast at h1
    rw [memcpy]
    by_cases hj : j = dest + n
    · subst hj
      rw [arrayRead_arrayWrite_same _ _ _ (by omega) (by rw [memcpy_length]; omega)]
      rw [if_pos ⟨by omega, by push_cast; omega⟩]
      congr 1
      omega
    · rw [arrayRead_arrayWrite_other _ _ _ _ (fun e => hj e.symm), ih (by omega)]
      by_cases hin : dest ≤ j ∧ j < dest + n
      · rw [if_pos hin, if_pos ⟨hin.1, by push_cast; omega⟩]
      · rw [if_neg hin, if_neg (by push_cast; omega)]

theorem row_index_iff (width r d c : Int) (hc0 : 0 ≤ c) (hc1 : c < width) :
    (d * width ≤ r * width + c ∧ r * width + c < d * width + width) ↔ r = d := by
  constructor
  · rintro ⟨h1, h2⟩
    by_contra hne
    rcases lt_or_gt_of_ne hne with hlt | hgt
    · have : (r + 1) * width ≤ d * width :=
        mul_le_mul_of_nonneg_right (by omega) (by omega)
      rw [add_mul, one_mul] at this
      omega
    · have : (d + 1) * width ≤ r * width :=
        mul_le_mul_of_nonneg_right (by omega) (by omega)
      rw [add_mul, one_mul] at this
      omega
  · rintro rfl
    exact ⟨by omega, by omega⟩

theorem row_bounds (width height d : Int) (hw : 0 ≤ width) (hd0 : 0 ≤ d) (hd1 : d < height) :
    0 ≤ d * width ∧ d * width + width ≤ width * height := by
  constructor
  · exact mul_nonneg hd0 hw
  · have : (d + 1) * width ≤ height * width :=
      mul_le_mul_of_nonneg_right (by omega) hw
    rw [add_mul, one_mul] at this
    rw [mul_comm width height]
    exact this

theorem matrix_get_memset_row (values : List Nat) (width height d r c : Int)
    (hw : 0 ≤ width) (hlen : (values.length : Int) = width * height)
    (hd0 : 0 ≤ d) (hd1 : d < height) (hc0 : 0 ≤ c) (hc1 : c < width) :
    matrix_get (memset values (d * width) 0 width.toNat) width r c =
      if r = d then 0 else matrix_get values width r c := by
  obtain ⟨b0, b1⟩ := row_bounds width height d hw hd0 hd1
  unfold matrix_get
  simp only []
  rw [memset_read _ _ _ _ _ b0 (by rw [Int.toNat_of_nonneg hw, hlen]; exact b1),
    Int.toNat_of_nonneg hw]
  simp only [row_index_iff width r d c hc0 hc1]

theorem matrix_get_memcpy_row (values : List Nat) (width height d s r c : Int)
    (hw : 0 ≤ width) (hlen : (values.length : Int) = width * height)
    (hd0 : 0 ≤ d) (hd1 : d < height) (hc0 : 0 ≤ c) (hc1 : c < width) :
    matrix_get (memcpy values (d * width) values (s * width) width.toNat) width r c =
      if r = d then matrix_get values width s c else matrix_get values width r c := by
  obtain ⟨b0, b1⟩ := row_bounds width height d hw hd0 hd1
  unfold matrix_get
  simp only []
  rw [memcpy_read _ _ _ _ _ _ b0 (by rw [Int.toNat_of_nonneg hw, hlen]; exact b1),
    Int.toNat_of_nonneg hw]
  simp only [row_index_iff width r d c hc0 hc1]
  split_ifs with h
  · subst h
    congr 1
    ring
  · rfl

theorem clear_lines_skip_of_nonpos (lines : List Nat) (fuel : Nat) (s : Int) (hs : s ≤ 0) :
    clear_lines_skip lines fuel s = s := by
  cases fuel with
  | zero => rfl
  | succ n =>
    rw [clear_lines_skip, if_neg]
    rintro ⟨h, -⟩
    omega

theorem clear_lines_skip_spec (lines : List Nat) (hzero : arrayRead lines 0 = 0) (fuel : Nat) :
    ∀ s : Int, 0 ≤ s → s.toNat ≤ fuel →
      0 ≤ clear_lines_skip lines fuel s ∧ clear_lines_skip lines fuel s ≤ s ∧
      arrayRead lines (clear_lines_skip lines fuel s) = 0 ∧
      ∀ t : Int, clear_lines_skip lines fuel s < t → t ≤ s → arrayRead lines t ≠ 0 := by
  induction fuel with
  | zero =>
    intro s h0 hf
    have hs : s = 0 := by omega
    subst hs
    exact ⟨le_refl _, le_refl _, hzero, fun t h1 h2 => absurd h2 (not_le.mpr h1)⟩
  | succ n ih =>
    intro s h0 hf
    rw [clear_lines_skip]
    by_cases hc : s > 0 ∧ arrayRead lines s ≠ 0
    · rw [if_pos hc]
      obtain ⟨a, b, c, d⟩ := ih (s - 1) (by omega) (by omega)
      refine ⟨a, by omega, c, ?_⟩
      intro t h1 h2
      by_cases ht : t = s
      · subst ht; exact hc.2
      · exact d t h1 (by omega)
    · rw [if_neg hc]
      refine ⟨h0, le_refl _, ?_, fun t h1 h2 => absurd h2 (not_le.mpr h1)⟩
      by_cases hs : s = 0
      · subst hs; exact hzero
      · by_contra hne
        exact hc ⟨by omega, hne⟩

theorem keptRows_succ (lines : List Nat) (m : Nat) :
    keptRows lines (m + 1) =
      keptRows lines m ++ (if arrayRead lines (m : Int) = 0 then [m] else []) := by
  unfold keptRows
  rw [List.range_succ, List.filter_append]
  congr 1
  by_cases h : arrayRead lines (m : Int) = 0 <;> simp [h]

theorem keptRows_length_le (lines : List Nat) (m : Nat) : (keptRows lines m).length ≤ m := by
  unfold keptRows
  calc ((List.range m).filter _).length ≤ (List.range m).length := List.length_filter_le _ _
    _ = m := List.length_range m

theorem keptRows_lt (lines : List Nat) (m : Nat) (r : Nat) (hr : r ∈ keptRows lines m) :
    r < m := by
  unfold keptRows at hr
  exact List.mem_range.mp (List.mem_filter.mp hr).1

theorem keptRows_skip (lines : List Nat) (r : Nat) (k : Nat)
    (hflag : ∀ t : Nat, r < t → t ≤ r + k → arrayRead lines (t : Int) ≠ 0) :
    keptRows lines (r + k + 1) = keptRows lines (r + 1) := by
  induction k with
  | zero => rfl
  | succ k ih =>
    rw [show r + (k + 1) + 1 = (r + k + 1) + 1 by omega, keptRows_succ,
      ih (fun t h1 h2 => hflag t h1 (by omega))]
    have := hflag (r + k + 1) (by omega) (by omega)
    rw [if_neg this, List.append_nil]

theorem clear_lines_rows_length (width : Int) (lines : List Nat) (n : Nat) :
    ∀ (cur : List Nat) (d s : Int),
      (clear_lines_rows width lines n d s cur).length = cur.length := by
  induction n with
  | zero => intro cur d s; rfl
  | succ n ih =>
    intro cur d s
    rw [clear_lines_rows]
    split_ifs
    · rw [ih, memset_length]
    · rw [ih, memcpy_length]

theorem clear_lines_rows_spec (width height : Int) (lines : List Nat) (hw : 0 ≤ width)
    (hzero : arrayRead lines 0 = 0) (n : Nat) :
    ∀ (cur : List Nat) (s : Int), -1 ≤ s → s < n → (n : Int) ≤ height →
      (cur.length : Int) = width * height →
      ∀ (d : Nat) (c : Int), (d : Int) < height → 0 ≤ c → c < width →
        matrix_get (clear_lines_rows width lines n ((n : Int) - 1) s cur) width d c =
          if n ≤ d then matrix_get cur width d c
          else if d + (keptRows lines (s + 1).toNat).length < n then 0
          else matrix_get cur width
            (((keptRows lines (s + 1).toNat).getD
              (d + (keptRows lines (s + 1).toNat).length - n) 0 : Nat) : Int) c := by
  induction n with
  | zero =>
    intro cur s _ _ _ _ d c _ _ _
    rw [clear_lines_rows, if_pos (Nat.zero_le d)]
  | succ n ih =>
    intro cur s hs0 hs1 hn hlen d c hd hc0 hc1
    push_cast at hs1 hn
    rw [clear_lines_rows]
    have hdest : ((n + 1 : Nat) : Int) - 1 - 1 = (n : Int) - 1 := by push_cast; ring
    have hrow : ((n + 1 : Nat) : Int) - 1 = (n : Int) := by push_cast; ring
    rw [hdest, hrow]
    by_cases hneg : s = -1
    · subst hneg
      rw [clear_lines_skip_of_nonpos lines _ (-1) (by omega)]
      rw [if_pos (by omega : (-1 : Int) < 0)]
      have hlen' : ((memset cur ((n : Int) * width) 0 width.toNat).length : Int) =
          width * height := by rw [memset_length]; exact hlen
      rw [ih _ (-1) (le_refl _) (by omega) (by omega) hlen' d c hd hc0 hc1]
      have hk : keptRows lines ((-1 : Int) + 1).toNat = [] := rfl
      rw [hk]
      simp only [List.length_nil, add_zero]
      rw [matrix_get_memset_row cur width height n d c hw hlen (by omega) (by omega) hc0 hc1]
      split_ifs <;> first | rfl | (exfalso; omega)
    · have hs : 0 ≤ s := by omega
      obtain ⟨a0, a1, a2, a3⟩ := clear_lines_skip_spec lines hzero s.toNat s hs (le_refl _)
      generalize clear_lines_skip lines s.toNat s = s' at a0 a1 a2 a3 ⊢
      rw [if_neg (by omega : ¬ s' < 0)]
      have hlen' : ((memcpy cur ((n : Int) * width) cur (s' * width) width.toNat).length : Int) =
          width * height := by rw [memcpy_length]; exact hlen
      rw [ih _ (s' - 1) (by omega) (by omega) (by omega) hlen' d c hd hc0 hc1]
      obtain ⟨m, rfl⟩ : ∃ m : Nat, s' = (m : Int) := ⟨s'.toNat, by omega⟩
      have hsk : (s + 1).toNat = m + (s.toNat - m) + 1 := by omega
      have hkept : keptRows lines (s + 1).toNat = keptRows lines m ++ [m] := by
        rw [hsk, keptRows_skip lines m (s.toNat - m)
          (fun t h1 h2 => a3 t (by omega) (by omega)), keptRows_succ, if_pos a2]
      have hm : ((m : Int) - 1 + 1).toNat = m := by omega
      rw [hkept, hm]
      simp only [List.length_append, List.length_singleton]
      have hle := keptRows_length_le lines m
      by_cases h1 : n + 1 ≤ d
      · rw [if_pos h1, if_pos (by omega),
          matrix_get_memcpy_row cur width height n m d c hw hlen (by omega) (by omega) hc0 hc1,
          if_neg (by omega)]
      · rw [if_neg h1]
        by_cases h2 : n ≤ d
        · have hdn : d = n := by omega
          subst hdn
          rw [if_pos (le_refl _),
            matrix_get_memcpy_row cur width height d m d c hw hlen (by omega) (by omega) hc0
              hc1, if_pos rfl, if_neg (by omega)]
          have hidx : d + ((keptRows lines m).length + 1) - (d + 1) =
              (keptRows lines m).length := by omega
          rw [hidx, List.getD_eq_getElem?_getD, List.getElem?_append_right (le_refl _)]
          simp
        · rw [if_neg h2]
          by_cases h3 : d + (keptRows lines m).length < n
          · rw [if_pos h3, if_pos (by omega)]
          · rw [if_neg h3, if_neg (by omega)]
            have hidx : d + ((keptRows lines m).length + 1) - (n + 1) =
                d + (keptRows lines m).length - n := by omega
            have hin : d + (keptRows lines m).length - n < (keptRows lines m).length := by
              omega
            rw [hidx, List.getD_eq_getElem?_getD, List.getD_eq_getElem?_getD,
              List.getElem?_append_left hin, List.getElem?_eq_getElem hin]
            simp only [Option.getD_some]
            have hmem := keptRows_lt lines m _ (List.getElem_mem hin)
            rw [matrix_get_memcpy_row cur width height n m _ c hw hlen (by omega) (by omega)
              hc0 hc1, if_neg (by omega)]

theorem clear_lines_cleared (values : List Nat) (width height : Int) (lines : List Nat)
    (hw : 0 ≤ width) (hlen : (values.length : Int) = width * height)
    (hzero : arrayRead lines 0 = 0) :
    boardRows (clear_lines values width height lines) width height =
      clearedRows values width height lines := by
  have hK := keptRows_length_le lines height.toNat
  by_cases hh : height ≤ 0
  · have h0 : height.toNat = 0 := by omega
    unfold boardRows clearedRows
    rw [h0]
    rfl
  · obtain ⟨n, rfl⟩ : ∃ n : Nat, height = (n : Int) := ⟨height.toNat, by omega⟩
    have hn : ((n : Int)).toNat = n := by omega
    rw [hn] at hK
    unfold boardRows clearedRows clear_lines
    rw [hn]
    have hspec := clear_lines_rows_spec width n lines hw hzero n values ((n : Int) - 1)
      (by omega) (by omega) (le_refl _) hlen
    have hs : ((n : Int) - 1 + 1).toNat = n := by omega
    rw [hs] at hspec
    apply List.ext_getElem
    · simp only [List.length_map, List.length_range, List.length_append, List.length_replicate]
      omega
    · intro d h1 h2
      have hd : d < n := by simpa using h1
      rw [List.getElem_map, List.getElem_range]
      unfold boardRow
      by_cases hz : d + (keptRows lines n).length < n
      · rw [List.getElem_append_left (by simp; omega), List.getElem_replicate]
        apply List.ext_getElem
        · simp
        · intro c hc1 hc2
          have hc : c < width.toNat := by simpa using hc1
          rw [List.getElem_map, List.getElem_range, List.getElem_replicate,
            hspec d c (by omega) (by omega) (by omega), if_neg (by omega), if_pos hz]
      · have hidx : d - (n - (keptRows lines n).length) < (keptRows lines n).length := by omega
        rw [List.getElem_append_right (by simp; omega)]
        simp only [List.length_replicate, List.getElem_map]
        apply List.ext_getElem
        · simp
        · intro c hc1 hc2
          have hc : c < width.toNat := by simpa using hc1
          rw [List.getElem_map, List.getElem_range, List.getElem_map, List.getElem_range,
            hspec d c (by omega) (by omega) (by omega), if_neg (by omega), if_neg hz,
            List.getD_eq_getElem?_getD,
            List.getElem?_eq_getElem (by omega : d + (keptRows lines n).length - n <
              (keptRows lines n).length)]
          simp only [Option.getD_some]
          congr 3
          omega

/-! ## Progression -/

/-- C11: `compute_score` pays `40 * (level + 1)` for 1 line, `100 * (level + 1)` for 2,
`300 * (level + 1)` for 3, `1200 * (level + 1)` for 4, and 0 for every other line count
(0, negative, or greater than 4), for every level. -/
theorem compute_score_table (level lineCount : Int) :
    compute_score level 1 = 40 * (level + 1) ∧
    compute_score level 2 = 100 * (level + 1) ∧
    compute_score level 3 = 300 * (level + 1) ∧
    compute_score level 4 = 1200 * (level + 1) ∧
    (lineCount ≤ 0 ∨ lineCount > 4 → compute_score level lineCount = 0) ∧
    (compute_score level lineCount =
      if lineCount = 1 then 40 * (level + 1)
      else if lineCount = 2 then 100 * (level + 1)
      else if lineCount = 3 then 300 * (level + 1)
      else if lineCount = 4 then 1200 * (level + 1)
      else 0) := by
  refine ⟨by simp [compute_score], by simp [compute_score], by simp [compute_score],
    by simp [compute_score], ?_, rfl⟩
  intro h
  unfold compute_score
  rw [if_neg (by omega), if_neg (by omega), if_neg (by omega), if_neg (by omega)]

theorem first_level_up_limit (startLevel : Int) :
    min (startLevel * 10 + 10) (max 100 (startLevel * 10 - 50)) =
      if startLevel ≤ 9 then 10 * startLevel + 10
      else if startLevel ≤ 15 then 100
      else 10 * startLevel - 50 := by
  unfold min max
  split_ifs <;> omega

/-- C12: `get_lines_for_next_level startLevel currentLevel` is `F + 10 * (currentLevel -
startLevel)` with `F = min (startLevel * 10 + 10) (max 100 (startLevel * 10 - 50))`; `F` is
`10 * startLevel + 10` for `startLevel` in `0..9`, `100` for `10..15` and
`10 * startLevel - 50` from 16 on; and `get_lines_for_next_level 0 0 = 10`. -/
theorem get_lines_for_next_level_spec (startLevel currentLevel : Int) :
    get_lines_for_next_level startLevel currentLevel =
      min (startLevel * 10 + 10) (max 100 (startLevel * 10 - 50)) +
        10 * (currentLevel - startLevel) ∧
    (0 ≤ startLevel ∧ startLevel ≤ 9 →
      min (startLevel * 10 + 10) (max 100 (startLevel * 10 - 50)) = 10 * startLevel + 10) ∧
    (10 ≤ startLevel ∧ startLevel ≤ 15 →
      min (startLevel * 10 + 10) (max 100 (startLevel * 10 - 50)) = 100) ∧
    (16 ≤ startLevel →
      min (startLevel * 10 + 10) (max 100 (startLevel * 10 - 50)) = 10 * startLevel - 50) ∧
    get_lines_for_next_level 0 0 = 10 := by
  refine ⟨?_, ?_, ?_, ?_, ?_⟩
  · unfold get_lines_for_next_level
    simp only []
    split_ifs with h
    · subst h; simp
    · ring
  · rintro ⟨h0, h1⟩
    rw [first_level_up_limit, if_pos h1]
  · rintro ⟨h0, h1⟩
    rw [first_level_up_limit, if_neg (by omega), if_pos h1]
  · intro h
    rw [first_level_up_limit, if_neg (by omega), if_neg (by omega)]
  · decide

theorem frames_per_drop_antitone :
    ∀ j : Nat, j < 30 → ∀ i : Nat, i ≤ j →
      FRAMES_PER_DROP.getD j 0 ≤ FRAMES_PER_DROP.getD i 0 := by
  decide

theorem arrayRead_frames (level : Int) (h0 : 0 ≤ level) :
    arrayRead FRAMES_PER_DROP level = FRAMES_PER_DROP.getD level.toNat 0 := by
  unfold arrayRead
  rw [if_neg (by omega)]

theorem get_time_to_next_drop_eq (level : Int) :
    get_time_to_next_drop level = (arrayRead FRAMES_PER_DROP (min level 29) : ℚ) / 60 := by
  unfold get_time_to_next_drop TARGET_SECONDS_PER_FRAME min
  have : (if level > 29 then (29 : Int) else level) = if level < 29 then level else 29 := by
    split_ifs <;> omega
  simp only [this]
  ring

/-- C13: with times as exact rationals, `get_time_to_next_drop level` is
`FRAMES_PER_DROP[min level 29] / 60` for every `level >= 0`; the table has exactly 30
entries; every level from 29 on gives the last entry, 1/60 second; for `level >= 0` the value
is strictly positive, and it does not increase with the level. -/
theorem get_time_to_next_drop_spec (level other : Int) :
    (0 ≤ level →
      get_time_to_next_drop level = (arrayRead FRAMES_PER_DROP (min level 29) : ℚ) / 60) ∧
    FRAMES_PER_DROP.length = 30 ∧
    (29 ≤ level → get_time_to_next_drop level = 1 / 60) ∧
    (0 ≤ level → 0 < get_time_to_next_drop level) ∧
    (0 ≤ level → level ≤ other →
      get_time_to_next_drop other ≤ get_time_to_next_drop level) := by
  refine ⟨fun _ => get_time_to_next_drop_eq level, rfl, ?_, get_time_to_next_drop_pos level, ?_⟩
  · intro h
    rw [get_time_to_next_drop_eq]
    have hm : min level 29 = 29 := by unfold min; split_ifs <;> omega
    rw [hm]
    have h29 : arrayRead FRAMES_PER_DROP 29 = 1 := by decide
    rw [h29]
    norm_num
  · intro h0 hle
    rw [get_time_to_next_drop_eq, get_time_to_next_drop_eq]
    have hmo : 0 ≤ min other 29 ∧ min other 29 ≤ 29 := by unfold min; split_ifs <;> omega
    have hml : 0 ≤ min level 29 ∧ min level 29 ≤ min other 29 := by
      unfold min; split_ifs <;> omega
    rw [arrayRead_frames _ hmo.1, arrayRead_frames _ hml.1]
    have := frames_per_drop_antitone (min other 29).toNat (by omega) (min level 29).toNat
      (by omega)
    have hq : ((FRAMES_PER_DROP.getD (min other 29).toNat 0 : Nat) : ℚ) ≤
        ((FRAMES_PER_DROP.getD (min level 29).toNat 0 : Nat) : ℚ) := by exact_mod_cast this
    linarith

/-! ## Rotation -/

theorem tetrino_get_quarter (tetrino : Tetrino) (r row col : Int) (h0 : 0 ≤ r) (h1 : r ≤ 3) :
    tetrino_get tetrino row col ((r + 1) % 4) =
      tetrino_get tetrino (tetrino.side - 1 - col) row r := by
  interval_cases r <;> simp [tetrino_get] <;> congr 1 <;> ring

theorem quarterTurn_four (side : Int) (p : Int × Int) :
    Nat.iterate (quarterTurn side) 4 p = p := by
  obtain ⟨a, b⟩ := p
  simp only [Nat.iterate, quarterTurn]
  ext <;> simp

/-- C14: for each of the 7 shapes, stored as a `side * side` array, every rotation `r` in
`0..3` and every row and column in `0..side-1`, `tetrino_get` at rotation `(r + 1) mod 4` and position `(row, col)` equals `tetrino_get` at
rotation `r` and position `(side - 1 - col, row)`, the quarter turn with the shape's own side;
so rotation `r` reads the stored matrix at the `r`-fold quarter turn of the position, a
position inside the matrix stays inside under a quarter turn, and four quarter turns lead back
to the same position, hence the same cell value. -/
theorem tetrino_get_rotation (index : Nat) (r row col : Int) (hi : index < 7)
    (h0 : 0 ≤ r) (h1 : r ≤ 3) (hr0 : 0 ≤ row) (hr1 : row < (tetrinoAt index).side)
    (hc0 : 0 ≤ col) (hc1 : col < (tetrinoAt index).side) :
    ((tetrinoAt index).data.length : Int) = (tetrinoAt index).side * (tetrinoAt index).side ∧
    tetrino_get (tetrinoAt index) row col ((r + 1) % 4) =
      tetrino_get (tetrinoAt index) ((tetrinoAt index).side - 1 - col) row r ∧
    tetrino_get (tetrinoAt index) row col r =
      tetrino_get (tetrinoAt index)
        (Nat.iterate (quarterTurn (tetrinoAt index).side) r.toNat (row, col)).1
        (Nat.iterate (quarterTurn (tetrinoAt index).side) r.toNat (row, col)).2 0 ∧
    (0 ≤ (quarterTurn (tetrinoAt index).side (row, col)).1 ∧
      (quarterTurn (tetrinoAt index).side (row, col)).1 < (tetrinoAt index).side ∧
      0 ≤ (quarterTurn (tetrinoAt index).side (row, col)).2 ∧
      (quarterTurn (tetrinoAt index).side (row, col)).2 < (tetrinoAt index).side) ∧
    Nat.iterate (quarterTurn (tetrinoAt index).side) 4 (row, col) = (row, col) ∧
    tetrino_get (tetrinoAt index)
        (Nat.iterate (quarterTurn (tetrinoAt index).side) 4 (row, col)).1
        (Nat.iterate (quarterTurn (tetrinoAt index).side) 4 (row, col)).2 r =
      tetrino_get (tetrinoAt index) row col r := by
  refine ⟨?_, tetrino_get_quarter _ r row col h0 h1, ?_, ?_, quarterTurn_four _ _, ?_⟩
  · interval_cases index <;> decide
  · interval_cases r <;> simp [tetrino_get, Nat.iterate, quarterTurn] <;> congr 1 <;> ring
  · simp only [quarterTurn]
    omega
  · rw [quarterTurn_four]

theorem tetrino_get_rotation_witness :
    (2 : Nat) < 7 ∧ (0 : Int) ≤ 3 ∧ (3 : Int) ≤ 3 ∧ (0 : Int) ≤ 1 ∧
      (1 : Int) < (tetrinoAt 2).side ∧ (0 : Int) ≤ 2 ∧ (2 : Int) < (tetrinoAt 2).side ∧
      tetrino_get (tetrinoAt 2) 1 2 ((3 + 1) % 4) =
        tetrino_get (tetrinoAt 2) ((tetrinoAt 2).side - 1 - 2) 1 3 :=
  ⟨by decide, by decide, by decide, by decide, by decide, by decide, by decide,
    (tetrino_get_rotation 2 3 1 2 (by decide) (by decide) (by decide) (by decide) (by decide)
      (by decide) (by decide)).2.1⟩

/-! ## Spawning -/

set_option maxRecDepth 100000 in
/-- C15: `spawn_piece` sets the active piece to shape index `rand() % 7`, which lies in
`0..6` whatever `rand()` returns, with rotation 0, row offset 0 and column offset
`WIDTH / 2 = 7`; it sets `nextDropTime = time + get_time_to_next_drop level` and leaves board,
lines, phase, score, level, startLevel, lineCount and time as they were; and for each of the
7 shapes the spawned piece is valid on the empty 14 x 22 board. -/
theorem spawn_piece_spec (g : GameState) (rnd : RandStream) :
    (spawn_piece g rnd).1.piece.tetrinoIndex = rnd 0 % 7 ∧
    (spawn_piece g rnd).1.piece.tetrinoIndex < 7 ∧
    (spawn_piece g rnd).1.piece.rotation = 0 ∧
    (spawn_piece g rnd).1.piece.offsetRow = 0 ∧
    (spawn_piece g rnd).1.piece.offsetCol = Int.tdiv WIDTH 2 ∧
    Int.tdiv WIDTH 2 = 7 ∧
    (spawn_piece g rnd).1.nextDropTime = g.time + get_time_to_next_drop g.level ∧
    (spawn_piece g rnd).1.board = g.board ∧
    (spawn_piece g rnd).1.lines = g.lines ∧
    (spawn_piece g rnd).1.phase = g.phase ∧
    (spawn_piece g rnd).1.score = g.score ∧
    (spawn_piece g rnd).1.level = g.level ∧
    (spawn_piece g rnd).1.startLevel = g.startLevel ∧
    (spawn_piece g rnd).1.lineCount = g.lineCount ∧
    (spawn_piece g rnd).1.time = g.time ∧
    (∀ index : Nat, index < 7 →
      check_piece_valid { tetrinoIndex := index, offsetRow := 0, offsetCol := 7, rotation := 0 }
        emptyBoard WIDTH HEIGHT = true) := by
  have hmod : rnd 0 % 7 < 7 := Nat.mod_lt _ (by decide)
  have hcol : Int.tdiv WIDTH 2 = 7 := by decide
  rw [spawn_piece_game]
  refine ⟨rfl, hmod, rfl, rfl, hcol.symm, hcol, rfl, rfl, rfl, rfl, rfl, rfl, rfl, rfl, rfl, ?_⟩
  intro index hi
  interval_cases index <;> decide

/-! ## Input edges -/

theorem update_game_play_finish_frame (g : GameState) :
    (update_game_play_finish g).board = g.board ∧
    (update_game_play_finish g).piece = g.piece ∧
    (update_game_play_finish g).time = g.time ∧
    (update_game_play_finish g).nextDropTime = g.nextDropTime ∧
    (update_game_play_finish g).level = g.level ∧
    (update_game_play_finish g).startLevel = g.startLevel ∧
    (update_game_play_finish g).score = g.score ∧
    (update_game_play_finish g).lineCount = g.lineCount := by
  have hvalues : (find_lines g.board WIDTH HEIGHT g.lines).values = g.board :=
    find_lines_values _ _ _ _
  unfold update_game_play_finish
  generalize find_lines g.board WIDTH HEIGHT g.lines = found at hvalues ⊢
  obtain ⟨fc, fl, fv⟩ := found
  simp only [] at hvalues ⊢
  subst hvalues
  by_cases hpos : fc > 0
  · simp only [hpos, if_true]
    generalize check_row_empty g.board WIDTH 0 = e
    split_ifs <;> simp
  · simp only [hpos, if_false]
    generalize check_row_empty g.board WIDTH 0 = e
    split_ifs <;> simp

theorem update_game_play_move_fields (g : GameState) (input : InputState) :
    (update_game_play_move g input).board = g.board ∧
    (update_game_play_move g input).time = g.time ∧
    (update_game_play_move g input).nextDropTime = g.nextDropTime ∧
    (update_game_play_move g input).piece =
      (if check_piece_valid (update_game_play_candidate g.piece input) g.board WIDTH HEIGHT
        then update_game_play_candidate g.piece input else g.piece) := by
  unfold update_game_play_move
  simp only []
  split_ifs <;> exact ⟨rfl, rfl, rfl, rfl⟩

theorem update_game_play_quiet (fuel : Nat) (g : GameState) (input : InputState)
    (rnd : RandStream) (hf : 1 ≤ fuel) (hd : ¬ input.deltaDown > 0) (ha : ¬ input.deltaA > 0)
    (ht : g.time < g.nextDropTime) :
    update_game_play fuel g input rnd =
      some (update_game_play_finish (update_game_play_move g input), rnd) := by
  obtain ⟨f, rfl⟩ : ∃ f, fuel = f + 1 := ⟨fuel - 1, by omega⟩
  obtain ⟨-, h1, h2, -⟩ := update_game_play_move_fields g input
  unfold update_game_play
  simp only [hd, ha, if_false, Option.some_bind]
  rw [gravity_loop, if_neg (by rw [h1, h2]; exact not_le.mpr ht)]
  rfl

theorem update_game_play_candidate_no_edge (piece : PieceState) (input : InputState)
    (hl : input.deltaLeft ≤ 0) (hr : input.deltaRight ≤ 0) (hu : input.deltaUp ≤ 0) :
    update_game_play_candidate piece input = piece := by
  have h1 : ¬ input.deltaLeft > 0 := not_lt.mpr hl
  have h2 : ¬ input.deltaRight > 0 := not_lt.mpr hr
  have h3 : ¬ input.deltaUp > 0 := not_lt.mpr hu
  unfold update_game_play_candidate
  simp only [h1, h2, h3, if_false]

/-- C16: for an input whose five delta fields are all `<= 0`, whatever its held flags,
`update_game` in phase PLAY with `time < nextDropTime` returns (fuel 1 is enough) a state with
the board and the active piece unchanged and draws no random number; in phase START and in
phase GAMEOVER it returns the state unchanged, so startLevel, board and phase stay. -/
theorem update_game_no_edge (fuel : Nat) (g : GameState) (input : InputState)
    (rnd : RandStream) (hl : input.deltaLeft ≤ 0) (hr : input.deltaRight ≤ 0)
    (hu : input.deltaUp ≤ 0) (hd : input.deltaDown ≤ 0) (ha : input.deltaA ≤ 0) :
    (g.phase = GAME_PHASE_PLAY → g.time < g.nextDropTime → 1 ≤ fuel →
      ∃ g' : GameState, update_game fuel g input rnd = some (g', rnd) ∧
        g'.board = g.board ∧ g'.piece = g.piece) ∧
    (g.phase = GAME_PHASE_START →
      update_game fuel g input rnd = some (g, rnd)) ∧
    (g.phase = GAME_PHASE_GAMEOVER →
      update_game fuel g input rnd = some (g, rnd)) := by
  refine ⟨?_, ?_, ?_⟩
  · intro hphase ht hf
    obtain ⟨hb, -, -, hp⟩ := update_game_play_move_fields g input
    obtain ⟨fb, fp, -⟩ := update_game_play_finish_frame (update_game_play_move g input)
    refine ⟨update_game_play_finish (update_game_play_move g input), ?_, ?_, ?_⟩
    · unfold update_game
      rw [hphase]
      exact update_game_play_quiet fuel g input rnd hf (not_lt.mpr hd) (not_lt.mpr ha) ht
    · rw [fb, hb]
    · rw [fp, hp, update_game_play_candidate_no_edge g.piece input hl hr hu]
      split_ifs <;> rfl
  · intro hphase
    unfold update_game
    rw [hphase]
    simp only []
    rw [update_game_start_idle g input rnd (not_lt.mpr ha)]
    rw [if_neg (by rintro ⟨h, -⟩; omega), if_neg (not_lt.mpr hu)]
  · intro hphase
    unfold update_game update_game_gameover
    rw [hphase]
    simp only [if_neg (not_lt.mpr ha)]

theorem update_game_no_edge_witness :
    heldInput.deltaLeft ≤ 0 ∧ heldInput.deltaRight ≤ 0 ∧ heldInput.deltaUp ≤ 0 ∧
      heldInput.deltaDown ≤ 0 ∧ heldInput.deltaA ≤ 0 ∧
      update_game 1 initialState heldInput (fun _ => 0) = some (initialState, fun _ => 0) ∧
      ∃ g' : GameState, update_game 1 spawnedOnEmpty heldInput (fun _ => 0) =
          some (g', fun _ => 0) ∧
        g'.board = spawnedOnEmpty.board ∧ g'.piece = spawnedOnEmpty.piece :=
  ⟨by decide, by decide, by decide, by decide, by decide,
    (update_game_no_edge 1 initialState heldInput (fun _ => 0) (by decide) (by decide)
      (by decide) (by decide) (by decide)).2.1 rfl,
    (update_game_no_edge 1 spawnedOnEmpty heldInput (fun _ => 0) (by decide) (by decide)
      (by decide) (by decide) (by decide)).1 rfl (by norm_num [spawnedOnEmpty]) (le_refl 1)⟩

/-! ## Moves and rotation -/

theorem update_game_play_candidate_eq (piece : PieceState) (input : InputState) :
    update_game_play_candidate piece input = movedPiece piece input := by
  unfold update_game_play_candidate movedPiece
  by_cases h1 : input.deltaLeft > 0 <;> by_cases h2 : input.deltaRight > 0 <;>
    by_cases h3 : input.deltaUp > 0 <;>
    simp [h1, h2, h3]

/-- C17: in a play tick with no soft-drop edge, no confirm edge and `time < nextDropTime`
(fuel 1 is enough) the candidate piece is the current piece with the column offset decreased
by 1 on a left edge, increased by 1 on a right edge, and the rotation replaced by
`(rotation + 1) mod 4` on a rotate edge.  When the candidate is valid on the board the active
piece becomes the candidate, otherwise the active piece is unchanged; the board is unchanged
either way and no random number is drawn.  So a valid piece stays valid, its column changes by
at most 1, its rotation by at most one quarter turn, and shape and row stay. -/
theorem update_game_play_move_only (fuel : Nat) (g : GameState) (input : InputState)
    (rnd : RandStream) (hf : 1 ≤ fuel) (hd : ¬ input.deltaDown > 0) (ha : ¬ input.deltaA > 0)
    (ht : g.time < g.nextDropTime) :
    ∃ g' : GameState, update_game_play fuel g input rnd = some (g', rnd) ∧
      g'.board = g.board ∧
      (check_piece_valid (movedPiece g.piece input) g.board WIDTH HEIGHT = true →
        g'.piece = movedPiece g.piece input) ∧
      (check_piece_valid (movedPiece g.piece input) g.board WIDTH HEIGHT = false →
        g'.piece = g.piece) ∧
      (check_piece_valid g.piece g.board WIDTH HEIGHT = true →
        check_piece_valid g'.piece g'.board WIDTH HEIGHT = true) ∧
      (g.piece.offsetCol - 1 ≤ g'.piece.offsetCol ∧
        g'.piece.offsetCol ≤ g.piece.offsetCol + 1) ∧
      (g'.piece.rotation = g.piece.rotation ∨
        g'.piece.rotation = Int.tmod (g.piece.rotation + 1) 4) ∧
      (0 ≤ g.piece.rotation →
        Int.tmod (g.piece.rotation + 1) 4 = (g.piece.rotation + 1) % 4) ∧
      g'.piece.tetrinoIndex = g.piece.tetrinoIndex ∧
      g'.piece.offsetRow = g.piece.offsetRow := by
  obtain ⟨hb, -, -, hp⟩ := update_game_play_move_fields g input
  obtain ⟨fb, fp, -⟩ := update_game_play_finish_frame (update_game_play_move g input)
  rw [update_game_play_candidate_eq] at hp
  refine ⟨update_game_play_finish (update_game_play_move g input),
    update_game_play_quiet fuel g input rnd hf hd ha ht, ?_⟩
  rw [fb, fp, hb, hp]
  refine ⟨rfl, fun h => by rw [if_pos h], fun h => by rw [if_neg (by simp [h])], ?_, ?_, ?_,
    fun h => Int.tmod_eq_emod (by omega) (by omega), ?_, ?_⟩
  · intro hv
    split_ifs with h
    · exact h
    · exact hv
  · split_ifs
    · unfold movedPiece
      simp only []
      split_ifs <;> omega
    · omega
  · split_ifs
    · unfold movedPiece
      simp only []
      split_ifs
      · right; rfl
      · left; rfl
    · left; rfl
  · split_ifs <;> rfl
  · split_ifs <;> rfl

theorem update_game_play_move_only_witness :
    1 ≤ 1 ∧ ¬ leftRotateInput.deltaDown > 0 ∧ ¬ leftRotateInput.deltaA > 0 ∧
      spawnedOnEmpty.time < spawnedOnEmpty.nextDropTime ∧
      ∃ g' : GameState, update_game_play 1 spawnedOnEmpty leftRotateInput (fun _ => 0) =
          some (g', fun _ => 0) ∧
        g'.board = spawnedOnEmpty.board ∧
        (spawnedOnEmpty.piece.offsetCol - 1 ≤ g'.piece.offsetCol ∧
          g'.piece.offsetCol ≤ spawnedOnEmpty.piece.offsetCol + 1) :=
  ⟨le_refl 1, by decide, by decide, by norm_num [spawnedOnEmpty],
    (update_game_play_move_only 1 spawnedOnEmpty leftRotateInput (fun _ => 0) (le_refl 1)
      (by decide) (by decide) (by norm_num [spawnedOnEmpty])).imp
      fun _ h => ⟨h.1, h.2.1, h.2.2.2.2.2.1⟩⟩

/-! ## Clearing no line -/

theorem list_set_getElem_self (xs : List Nat) (n : Nat) (h : n < xs.length) :
    xs.set n (xs.get ⟨n, h⟩) = xs := by
  induction xs generalizing n with
  | nil => simp at h
  | cons x xs ih =>
    cases n with
    | zero => rfl
    | succ n =>
      simp only [List.set_cons_succ, List.get_cons_succ]
      rw [ih n (by simpa using h)]

theorem arrayWrite_arrayRead_self (xs : List Nat) (i : Int) :
    arrayWrite xs i (arrayRead xs i) = xs := by
  unfold arrayWrite arrayRead
  by_cases hi : i < 0
  · rw [if_pos hi]
  · rw [if_neg hi, if_neg hi]
    by_cases hlt : i.toNat < xs.length
    · rw [List.getD_eq_getElem?_getD, List.getElem?_eq_getElem hlt]
      exact list_set_getElem_self xs i.toNat hlt
    · rw [List.set_eq_of_length_le (by omega)]

theorem memcpy_self (values : List Nat) (d : Int) (n : Nat) :
    memcpy values d values d n = values := by
  induction n with
  | zero => rfl
  | succ n ih => rw [memcpy, ih, arrayWrite_arrayRead_self]

theorem clear_lines_skip_of_unflagged (lines : List Nat) (fuel : Nat) (s : Int)
    (h : arrayRead lines s = 0) : clear_lines_skip lines fuel s = s := by
  cases fuel with
  | zero => rfl
  | succ n =>
    rw [clear_lines_skip, if_neg]
    rintro ⟨-, h2⟩
    exact h2 h

theorem clear_lines_rows_unflagged (width : Int) (lines : List Nat) (n : Nat)
    (h : ∀ r : Int, 0 ≤ r → r < n → arrayRead lines r = 0) (values : List Nat) :
    clear_lines_rows width lines n ((n : Int) - 1) ((n : Int) - 1) values = values := by
  induction n with
  | zero => rfl
  | succ n ih =>
    have hrow : ((n + 1 : Nat) : Int) - 1 = (n : Int) := by push_cast; ring
    rw [clear_lines_rows, hrow,
      clear_lines_skip_of_unflagged lines _ (n : Int) (h n (by omega) (by push_cast; omega)),
      if_neg (by omega), memcpy_self]
    exact ih (fun r h0 h1 => h r h0 (by push_cast; omega))

/-- C18: when no row `0 .. height-1` is flagged, `clear_lines` leaves the board exactly as
it was, for every board, width and height; so applying it twice equals applying it once. -/
theorem clear_lines_no_flag (values : List Nat) (width height : Int) (lines : List Nat)
    (h : ∀ r : Int, 0 ≤ r → r < height → arrayRead lines r = 0) :
    clear_lines values width height lines = values ∧
    clear_lines (clear_lines values width height lines) width height lines =
      clear_lines values width height lines := by
  have key : ∀ v : List Nat, clear_lines v width height lines = v := by
    intro v
    unfold clear_lines
    by_cases hh : height ≤ 0
    · have h0 : height.toNat = 0 := by omega
      rw [h0]
      rfl
    · obtain ⟨n, rfl⟩ : ∃ n : Nat, height = (n : Int) := ⟨height.toNat, by omega⟩
      rw [Int.toNat_ofNat]
      exact clear_lines_rows_unflagged width lines n h v
  exact ⟨key values, by rw [key, key]⟩

theorem clear_lines_no_flag_witness :
    (∀ r : Int, 0 ≤ r → r < 2 → arrayRead [0, 0] r = 0) ∧
      clear_lines [1, 0, 2, 3] 2 2 [0, 0] = [1, 0, 2, 3] :=
  have h : ∀ r : Int, 0 ≤ r → r < 2 → arrayRead [0, 0] r = 0 := by
    intro r h0 h1
    interval_cases r <;> rfl
  ⟨h, (clear_lines_no_flag [1, 0, 2, 3] 2 2 [0, 0] h).1⟩

/-! ## Reads outside the shape matrix -/

theorem tetrino_get_bad_rotation (tetrino : Tetrino) (row col rotation : Int)
    (h : rotation < 0 ∨ 3 < rotation) : tetrino_get tetrino row col rotation = 0 := by
  unfold tetrino_get
  simp only []
  rw [if_neg (by omega), if_neg (by omega), if_neg (by omega), if_neg (by omega)]

/-- C19: for a rotation outside `0..3`, `tetrino_get` returns 0 for every shape, row and
column.  For a rotation in `0..3` it makes no bounds check and returns the array entry at the
index computed from the position: for each of the 7 shapes and `row`, `col` in `0..side-1`
that index, `r * side + c` with `(r, c)` the position turned `rotation` quarter turns, lies
inside the shape's `side * side` array. -/
theorem tetrino_get_reads (index : Nat) (row col rotation : Int) :
    (rotation < 0 ∨ 3 < rotation → tetrino_get (tetrinoAt index) row col rotation = 0) ∧
    (index < 7 → 0 ≤ rotation → rotation ≤ 3 →
      0 ≤ row → row < (tetrinoAt index).side → 0 ≤ col → col < (tetrinoAt index).side →
      tetrino_get (tetrinoAt index) row col rotation =
        arrayRead (tetrinoAt index).data
          ((Nat.iterate (quarterTurn (tetrinoAt index).side) rotation.toNat (row, col)).1 *
              (tetrinoAt index).side +
            (Nat.iterate (quarterTurn (tetrinoAt index).side) rotation.toNat (row, col)).2) ∧
      0 ≤ (Nat.iterate (quarterTurn (tetrinoAt index).side) rotation.toNat (row, col)).1 *
              (tetrinoAt index).side +
            (Nat.iterate (quarterTurn (tetrinoAt index).side) rotation.toNat (row, col)).2 ∧
      (Nat.iterate (quarterTurn (tetrinoAt index).side) rotation.toNat (row, col)).1 *
              (tetrinoAt index).side +
            (Nat.iterate (quarterTurn (tetrinoAt index).side) rotation.toNat (row, col)).2 <
        (tetrinoAt index).data.length) := by
  refine ⟨tetrino_get_bad_rotation _ row col rotation, ?_⟩
  intro hi h0 h1 hr0 hr1 hc0 hc1
  have hside : (tetrinoAt index).side = 4 ∨ (tetrinoAt index).side = 2 ∨
      (tetrinoAt index).side = 3 := by
    interval_cases index <;> decide
  have hlen : ((tetrinoAt index).data.length : Int) =
      (tetrinoAt index).side * (tetrinoAt index).side := by
    interval_cases index <;> decide
  generalize tetrinoAt index = t at hside hlen hr1 hc1 ⊢
  obtain ⟨data, side⟩ := t
  simp only [] at hside hlen hr1 hc1 ⊢
  refine ⟨?_, ?_, ?_⟩
  · interval_cases rotation <;> simp [tetrino_get, Nat.iterate, quarterTurn] <;>
      first | rfl | (congr 1; ring)
  · rcases hside with rfl | rfl | rfl <;> interval_cases rotation <;>
      simp [Nat.iterate, quarterTurn] <;> omega
  · rw [hlen]
    rcases hside with rfl | rfl | rfl <;> interval_cases rotation <;>
      simp [Nat.iterate, quarterTurn] <;> omega

/-- C19, a read outside the matrix: the bar has side 4, and at rotation 0 the query at row 0,
column 4 (outside the matrix, inside the 16-entry array at index 4) returns the cell 1 stored
at row 1, column 0, not 0. -/
theorem tetrino_get_outside_matrix :
    (tetrinoAt 0).side = 4 ∧ (tetrinoAt 0).data.length = 16 ∧
      tetrino_get (tetrinoAt 0) 0 4 0 = 1 ∧
      tetrino_get (tetrinoAt 0) 0 4 0 = tetrino_get (tetrinoAt 0) 1 0 0 := by
  decide

/-! ## Gravity -/

theorem update_game_play_move_no_edge (g : GameState) (input : InputState)
    (hl : input.deltaLeft ≤ 0) (hr : input.deltaRight ≤ 0) (hu : input.deltaUp ≤ 0) :
    update_game_play_move g input = g := by
  unfold update_game_play_move
  rw [update_game_play_candidate_no_edge _ _ hl hr hu]
  dsimp only
  split_ifs <;> rfl

theorem soft_drop_reschedules (g : GameState) (rnd : RandStream) :
    (soft_drop g rnd).2.1.time = g.time ∧
      (soft_drop g rnd).2.1.nextDropTime = g.time + get_time_to_next_drop g.level := by
  cases h : check_piece_valid (pieceDown g.piece 1) g.board WIDTH HEIGHT
  · rw [soft_drop_of_invalid g rnd h, spawn_piece_game]
    exact ⟨rfl, rfl⟩
  · rw [soft_drop_of_valid g rnd h]
    exact ⟨rfl, rfl⟩

theorem gravity_loop_once (fuel : Nat) (g : GameState) (rnd : RandStream)
    (hlevel : 0 ≤ g.level) (hf : 2 ≤ fuel) (ht : g.time ≥ g.nextDropTime) :
    gravity_loop fuel g rnd = some (1, (soft_drop g rnd).2.1, (soft_drop g rnd).2.2) := by
  obtain ⟨f, rfl⟩ : ∃ f, fuel = f + 1 + 1 := ⟨fuel - 2, by omega⟩
  obtain ⟨h1, h2⟩ := soft_drop_reschedules g rnd
  have hpos := get_time_to_next_drop_pos g.level hlevel
  have hstop : ¬ (soft_drop g rnd).2.1.time ≥ (soft_drop g rnd).2.1.nextDropTime := by
    rw [h1, h2]
    intro hge
    have : g.time + get_time_to_next_drop g.level ≤ g.time := hge
    linarith
  rw [gravity_loop, if_pos ht]
  simp only []
  rw [gravity_loop, if_neg hstop]
  rfl

theorem gravity_loop_idle (fuel : Nat) (g : GameState) (rnd : RandStream)
    (hf : 1 ≤ fuel) (ht : g.time < g.nextDropTime) :
    gravity_loop fuel g rnd = some (0, g, rnd) := by
  obtain ⟨f, rfl⟩ : ∃ f, fuel = f + 1 := ⟨fuel - 1, by omega⟩
  rw [gravity_loop, if_neg (not_le.mpr ht)]

theorem soft_drop_float_eq (g : GameState) (rnd : RandStream) :
    soft_drop_float g rnd =
      ((soft_drop g rnd).1,
        { (soft_drop g rnd).2.1 with
          nextDropTime := roundFloat (g.time + get_time_to_next_drop_float g.level) },
        (soft_drop g rnd).2.2) := by
  unfold soft_drop_float soft_drop spawn_piece_float spawn_piece merge_piece
  simp only []
  split_ifs <;> rfl

theorem soft_drop_float_fields (g : GameState) (rnd : RandStream) :
    (soft_drop_float g rnd).2.1.time = g.time ∧
      (soft_drop_float g rnd).2.1.level = g.level ∧
      (soft_drop_float g rnd).2.1.nextDropTime =
        roundFloat (g.time + get_time_to_next_drop_float g.level) := by
  obtain ⟨h1, -⟩ := soft_drop_reschedules g rnd
  have h2 : (soft_drop g rnd).2.1.level = g.level := by
    cases h : check_piece_valid (pieceDown g.piece 1) g.board WIDTH HEIGHT
    · rw [soft_drop_of_invalid g rnd h, spawn_piece_game]
      rfl
    · rw [soft_drop_of_valid g rnd h]
  rw [soft_drop_float_eq]
  exact ⟨h1, h2, rfl⟩

theorem gravity_loop_float_idle (fuel : Nat) (g : GameState) (rnd : RandStream)
    (hf : 1 ≤ fuel) (ht : g.time < g.nextDropTime) :
    gravity_loop_float fuel g rnd = some (0, g, rnd) := by
  obtain ⟨f, rfl⟩ : ∃ f, fuel = f + 1 := ⟨fuel - 1, by omega⟩
  rw [gravity_loop_float, if_neg (not_le.mpr ht)]

theorem gravity_loop_float_once (fuel : Nat) (g : GameState) (rnd : RandStream)
    (hf : 2 ≤ fuel) (ht : g.time ≥ g.nextDropTime)
    (hsum : g.time < roundFloat (g.time + get_time_to_next_drop_float g.level)) :
    gravity_loop_float fuel g rnd =
      some (1, (soft_drop_float g rnd).2.1, (soft_drop_float g rnd).2.2) := by
  obtain ⟨f, rfl⟩ : ∃ f, fuel = f + 1 + 1 := ⟨fuel - 2, by omega⟩
  obtain ⟨h1, -, h3⟩ := soft_drop_float_fields g rnd
  rw [gravity_loop_float, if_pos ht]
  simp only []
  rw [gravity_loop_float, if_neg (by rw [h1, h3]; exact not_le.mpr hsum)]
  rfl

theorem gravity_loop_float_stuck (fuel : Nat) :
    ∀ (g : GameState) (rnd : RandStream), g.time ≥ g.nextDropTime →
      roundFloat (g.time + get_time_to_next_drop_float g.level) ≤ g.time →
      gravity_loop_float fuel g rnd = none := by
  induction fuel with
  | zero => intro g rnd _ _; rfl
  | succ fuel ih =>
    intro g rnd ht hsum
    obtain ⟨h1, h2, h3⟩ := soft_drop_float_fields g rnd
    rw [gravity_loop_float, if_pos ht]
    simp only []
    rw [ih _ _ (by rw [h1, h3]; exact hsum) (by rw [h1, h2]; exact hsum)]
    rfl

theorem dayLateState_sum :
    roundFloat (dayLateState.time + get_time_to_next_drop_float dayLateState.level) =
      dayLateState.time := by
  decide!

theorem lateState_sum :
    lateState.time < roundFloat (lateState.time + get_time_to_next_drop_float lateState.level) := by
  decide!

/-- C20: the gravity loop of a play tick, with the `float` sums of the source, does not catch
up on missed drops.  It calls `soft_drop` not at all when `time < nextDropTime`.  When
`time >= nextDropTime` the first call reschedules `nextDropTime` to the float sum
`time + interval`, taken from the current time and not from the missed `nextDropTime`: if
that sum is greater than `time` the loop ends after this one call (fuel 2 is enough), however
late the tick is; if the sum rounds back to `time` the loop does not end (no fuel suffices).
So whenever the loop returns it has made at most one call and `nextDropTime > time`.  The call
it makes is the `soft_drop` of the exact model up to `nextDropTime`.  In `lateState` (time 10,
`nextDropTime = 1`, level 0) the loop makes exactly one call; in `dayLateState` (time 524288,
level 29) the sum rounds back to 524288 and the loop does not end. -/
theorem gravity_drop_at_most_once (g : GameState) (rnd : RandStream) :
    (g.time < g.nextDropTime →
      ∀ fuel : Nat, 1 ≤ fuel → gravity_loop_float fuel g rnd = some (0, g, rnd)) ∧
    (g.time ≥ g.nextDropTime →
      g.time < roundFloat (g.time + get_time_to_next_drop_float g.level) →
      ∀ fuel : Nat, 2 ≤ fuel →
        gravity_loop_float fuel g rnd =
          some (1, (soft_drop_float g rnd).2.1, (soft_drop_float g rnd).2.2)) ∧
    (g.time ≥ g.nextDropTime →
      roundFloat (g.time + get_time_to_next_drop_float g.level) ≤ g.time →
      ∀ fuel : Nat, gravity_loop_float fuel g rnd = none) ∧
    (∀ (fuel : Nat) (r : Nat × GameState × RandStream),
      gravity_loop_float fuel g rnd = some r →
        r.1 ≤ 1 ∧ r.2.1.time = g.time ∧ r.2.1.time < r.2.1.nextDropTime) ∧
    (soft_drop_float g rnd).2.1.nextDropTime =
      roundFloat (g.time + get_time_to_next_drop_float g.level) ∧
    (soft_drop_float g rnd).1 = (soft_drop g rnd).1 ∧
    (soft_drop_float g rnd).2.1.board = (soft_drop g rnd).2.1.board ∧
    (soft_drop_float g rnd).2.1.piece = (soft_drop g rnd).2.1.piece ∧
    (gravity_loop_float 2 lateState (fun _ => 0)).map (fun r => r.1) = some 1 ∧
    roundFloat (dayLateState.time + get_time_to_next_drop_float dayLateState.level) =
      dayLateState.time ∧
    (∀ fuel : Nat, gravity_loop_float fuel dayLateState (fun _ => 0) = none) := by
  obtain ⟨h1, -, h3⟩ := soft_drop_float_fields g rnd
  refine ⟨fun ht fuel hf => gravity_loop_float_idle fuel g rnd hf ht,
    fun ht hsum fuel hf => gravity_loop_float_once fuel g rnd hf ht hsum,
    fun ht hsum fuel => gravity_loop_float_stuck fuel g rnd ht hsum, ?_, h3,
    by rw [soft_drop_float_eq], by rw [soft_drop_float_eq], by rw [soft_drop_float_eq], ?_,
    dayLateState_sum, ?_⟩
  · intro fuel r hr
    by_cases ht : g.time ≥ g.nextDropTime
    · by_cases hsum : g.time < roundFloat (g.time + get_time_to_next_drop_float g.level)
      · by_cases hf : 2 ≤ fuel
        · rw [gravity_loop_float_once fuel g rnd hf ht hsum] at hr
          rw [← Option.some.inj hr]
          exact ⟨le_refl _, h1, by rw [h1, h3]; exact hsum⟩
        · exfalso
          have hcases : fuel = 0 ∨ fuel = 1 := by omega
          rcases hcases with rfl | rfl
          · rw [gravity_loop_float] at hr
            cases hr
          · rw [gravity_loop_float, if_pos ht] at hr
            simp only [gravity_loop_float, Option.map_none'] at hr
            cases hr
      · rw [gravity_loop_float_stuck fuel g rnd ht (not_lt.mp hsum)] at hr
        cases hr
    · have hlt := not_le.mp ht
      by_cases hf : 1 ≤ fuel
      · rw [gravity_loop_float_idle fuel g rnd hf hlt] at hr
        rw [← Option.some.inj hr]
        exact ⟨Nat.zero_le _, rfl, hlt⟩
      · have h0 : fuel = 0 := by omega
        subst h0
        rw [gravity_loop_float] at hr
        cases hr
  · rw [gravity_loop_float_once 2 lateState _ (le_refl 2) (by norm_num [lateState])
      lateState_sum]
    rfl
  · intro fuel
    exact gravity_loop_float_stuck fuel dayLateState _ (le_refl _)
      (le_of_eq dayLateState_sum)

set_option maxRecDepth 100000 in
/-- C20, a late tick: `lateState` is ticked at time 10 with `nextDropTime = 1`, more than
eleven drop intervals (48/60 second at level 0) late.  Its gravity loop applies exactly one
`soft_drop`, and the play tick without input edges leaves the piece exactly one row lower,
on the unchanged board. -/
theorem late_tick_drops_once :
    lateState.time - lateState.nextDropTime > 11 * get_time_to_next_drop lateState.level ∧
      (gravity_loop 23 lateState (fun _ => 0)).map (fun r => r.1) = some 1 ∧
      (update_game_play 23 lateState heldInput (fun _ => 0)).map
          (fun r => (r.1.piece, r.1.board)) =
        some (pieceDown lateState.piece 1, lateState.board) := by
  have hlate : lateState.time ≥ lateState.nextDropTime := by norm_num [lateState]
  have hvalid : check_piece_valid (pieceDown lateState.piece 1) lateState.board WIDTH HEIGHT =
      true := by
    decide
  have hmove : update_game_play_move lateState heldInput = lateState :=
    update_game_play_move_no_edge _ _ (by decide) (by decide) (by decide)
  refine ⟨?_, ?_, ?_⟩
  · have h : get_time_to_next_drop lateState.level = 48 / 60 := by
      rw [get_time_to_next_drop_eq]
      have : arrayRead FRAMES_PER_DROP (min lateState.level 29) = 48 := by decide
      rw [this]
      norm_num
    rw [h]
    norm_num [lateState]
  · rw [gravity_loop_once 23 lateState _ (by decide) (by omega) hlate]
    rfl
  · have hd : ¬ heldInput.deltaDown > 0 := by decide
    have ha : ¬ heldInput.deltaA > 0 := by decide
    unfold update_game_play
    simp only [hd, ha, if_false, Option.some_bind, hmove]
    rw [gravity_loop_once 23 lateState _ (by decide) (by omega) hlate,
      soft_drop_of_valid lateState _ hvalid]
    simp only [Option.map_some']
    obtain ⟨hb, hp, -⟩ := update_game_play_finish_frame
      { lateState with piece := pieceDown lateState.piece 1
                       nextDropTime := lateState.time + get_time_to_next_drop lateState.level }
    rw [hb, hp]

/-! ## The catalog -/

/-- C22: the catalog has exactly 7 shapes, with side lengths 4, 2, 3, 3, 3, 3, 3, and for
every shape and every rotation `0..3` exactly 4 of the `side x side` positions read through
`tetrino_get` are nonzero. -/
theorem catalog_shapes :
    TETRINOS.length = 7 ∧
    TETRINOS.map (fun t => t.side) = [4, 2, 3, 3, 3, 3, 3] ∧
    (∀ index : Nat, index < 7 → ∀ rotation : Int, 0 ≤ rotation → rotation ≤ 3 →
      nonzeroCellCount (tetrinoAt index) rotation = 4) := by
  refine ⟨rfl, rfl, ?_⟩
  intro index hi rotation h0 h1
  interval_cases index <;> interval_cases rotation <;> decide

set_option maxRecDepth 100000 in
/-- C24: every shape but the S shape (index 3) holds a single value in its nonzero cells.
The S shape holds two: 4 in its top row and 2 in its second row, and merging it at the spawn
position writes 4 into board cell (0, 8) and 2 into board cell (1, 7). -/
theorem s_shape_two_colours :
    (∀ index : Nat, index < 7 → index ≠ 3 → singleColour (tetrinoAt index)) ∧
    ¬ singleColour (tetrinoAt 3) ∧
    (tetrinoAt 3).data = [0, 4, 4, 2, 2, 0, 0, 0, 0] ∧
    tetrino_get (tetrinoAt 3) 0 1 0 = 4 ∧
    tetrino_get (tetrinoAt 3) 1 0 0 = 2 ∧
    matrix_get (merge_piece spawnedS).board WIDTH 0 8 = 4 ∧
    matrix_get (merge_piece spawnedS).board WIDTH 1 7 = 2 := by
  refine ⟨?_, by decide, rfl, by decide, by decide, by decide, by decide⟩
  intro index hi hne
  interval_cases index <;> first | decide | exact absurd rfl hne

/-! ## Gravity loop -/

/-- C27: with times as exact rationals and `level >= 0` the gravity loop of
`update_game_play` terminates (fuel 2 is enough, and more fuel gives the same result): it
calls `soft_drop` exactly once when `time >= nextDropTime` holds on entry and not at all
otherwise, and afterwards `nextDropTime > time`. -/
theorem gravity_loop_terminates (g : GameState) (rnd : RandStream) (hlevel : 0 ≤ g.level) :
    ∃ (n : Nat) (g' : GameState) (rnd' : RandStream),
      (∀ fuel : Nat, 2 ≤ fuel → gravity_loop fuel g rnd = some (n, g', rnd')) ∧
      (g.time ≥ g.nextDropTime → n = 1 ∧ g' = (soft_drop g rnd).2.1) ∧
      (g.time < g.nextDropTime → n = 0 ∧ g' = g) ∧
      g'.time = g.time ∧ g'.nextDropTime > g'.time := by
  by_cases ht : g.time ≥ g.nextDropTime
  · obtain ⟨h1, h2⟩ := soft_drop_reschedules g rnd
    have hpos := get_time_to_next_drop_pos g.level hlevel
    refine ⟨1, (soft_drop g rnd).2.1, (soft_drop g rnd).2.2,
      fun fuel hf => gravity_loop_once fuel g rnd hlevel hf ht, fun _ => ⟨rfl, rfl⟩,
      fun h => absurd ht (not_le.mpr h), h1, ?_⟩
    rw [h1, h2]
    linarith
  · refine ⟨0, g, rnd, fun fuel hf => gravity_loop_idle fuel g rnd (by omega) (not_le.mp ht),
      fun h => absurd h ht, fun _ => ⟨rfl, rfl⟩, rfl, not_le.mp ht⟩

theorem gravity_loop_terminates_witness :
    0 ≤ lateState.level ∧
      ∃ (n : Nat) (g' : GameState) (rnd' : RandStream),
        gravity_loop 2 lateState (fun _ => 0) = some (n, g', rnd') ∧
          g'.nextDropTime > g'.time :=
  ⟨by decide,
    (gravity_loop_terminates lateState (fun _ => 0) (by decide)).imp fun _ h =>
      h.imp fun _ h' => h'.imp fun _ h'' => ⟨h''.1 2 (le_refl 2), h''.2.2.2.2⟩⟩

/-! ## Row indices read by `clear_lines` -/

theorem clear_lines_skip_reads_pos (lines : List Nat) (n : Nat) (srcRow : Int) :
    ∀ i ∈ clear_lines_skip_reads lines n srcRow, 0 < i := by
  induction n generalizing srcRow with
  | zero => intro i hi; simp [clear_lines_skip_reads] at hi
  | succ n ih =>
    intro i hi
    unfold clear_lines_skip_reads at hi
    split_ifs at hi with h1 h2
    · rcases List.mem_cons.mp hi with h | h
      · omega
      · exact ih _ i h
    · simp at hi; omega
    · simp at hi

theorem clear_lines_reads_nonneg (lines : List Nat) (n : Nat) (srcRow : Int) :
    ∀ i ∈ clear_lines_reads lines n srcRow, 0 ≤ i := by
  induction n generalizing srcRow with
  | zero => intro i hi; simp [clear_lines_reads] at hi
  | succ n ih =>
    intro i hi
    unfold clear_lines_reads at hi
    simp only at hi
    split_ifs at hi with h1
    · rcases List.mem_append.mp hi with h | h
      · exact le_of_lt (clear_lines_skip_reads_pos lines _ _ i h)
      · exact ih _ i h
    · rcases List.mem_append.mp hi with h | h
      · exact le_of_lt (clear_lines_skip_reads_pos lines _ _ i h)
      · rcases List.mem_cons.mp h with h | h
        · omega
        · exact ih _ i h

theorem flaggedRows_length (lines : List Nat) (m : Nat) :
    (flaggedRows lines m).length = m - (keptRows lines m).length := by
  have h := List.length_eq_length_filter_add (l := List.range m)
    (fun row : Nat => decide (arrayRead lines (row : Int) = 0))
  have h2 : (flaggedRows lines m) =
      (List.range m).filter (fun row : Nat => !decide (arrayRead lines (row : Int) = 0)) := by
    unfold flaggedRows
    congr 1
    funext row
    simp
  rw [h2]
  unfold keptRows
  simp only [List.length_range] at h
  omega

/-- C26: for every board of `width * height` cells and every flag array with
`lines[0] = 0`, `clear_lines` leaves `k` all-zero rows on top followed by the unflagged rows
of the input in their original order, where `k` is the number of flagged rows; and every row
index at which the loop reads `lines[]` or the board is non-negative. -/
theorem clear_lines_compacts (values : List Nat) (width height : Int) (lines : List Nat)
    (hw : 0 ≤ width) (hlen : (values.length : Int) = width * height)
    (hzero : arrayRead lines 0 = 0) :
    boardRows (clear_lines values width height lines) width height =
        List.replicate (flaggedRows lines height.toNat).length (List.replicate width.toNat 0) ++
          (keptRows lines height.toNat).map (boardRow values width) ∧
      (∀ i ∈ clear_lines_reads lines height.toNat (height - 1), 0 ≤ i) := by
  refine ⟨?_, clear_lines_reads_nonneg lines _ _⟩
  rw [clear_lines_cleared values width height lines hw hlen hzero, flaggedRows_length]
  rfl

set_option maxRecDepth 100000 in
theorem clear_lines_compacts_witness :
    (0 : Int) ≤ WIDTH ∧ (bottomRowFilledBoard.length : Int) = WIDTH * HEIGHT ∧
      arrayRead (List.replicate 21 0 ++ [1]) 0 = 0 ∧
      boardRows (clear_lines bottomRowFilledBoard WIDTH HEIGHT (List.replicate 21 0 ++ [1]))
          WIDTH HEIGHT =
        List.replicate (flaggedRows (List.replicate 21 0 ++ [1]) HEIGHT.toNat).length
            (List.replicate WIDTH.toNat 0) ++
          (keptRows (List.replicate 21 0 ++ [1]) HEIGHT.toNat).map
            (boardRow bottomRowFilledBoard WIDTH) :=
  ⟨by decide, by decide, by decide,
    (clear_lines_compacts bottomRowFilledBoard WIDTH HEIGHT (List.replicate 21 0 ++ [1])
      (by decide) (by decide) (by decide)).1⟩

/-! ## What a play tick does to the board -/

theorem arrayRead_arrayWrite_cases (xs : List Nat) (i j : Int) (v : Nat) :
    arrayRead (arrayWrite xs i v) j = arrayRead xs j ∨ arrayRead (arrayWrite xs i v) j = v := by
  by_cases hij : i = j
  · subst hij
    by_cases h0 : 0 ≤ i
    · by_cases h1 : i < xs.length
      · exact Or.inr (arrayRead_arrayWrite_same xs i v h0 h1)
      · left
        rw [arrayRead_of_length_le _ _ (by rw [arrayWrite_length]; omega),
          arrayRead_of_length_le _ _ (by omega)]
    · left
      unfold arrayWrite
      rw [if_pos (by omega)]
  · exact Or.inl (arrayRead_arrayWrite_other xs i j v hij)

theorem arrayRead_mem (xs : List Nat) (i : Int) : arrayRead xs i = 0 ∨ arrayRead xs i ∈ xs := by
  unfold arrayRead
  split_ifs with h
  · exact Or.inl rfl
  · by_cases hi : i.toNat < xs.length
    · right
      rw [List.getD_eq_getElem?_getD, List.getElem?_eq_getElem hi]
      exact List.getElem_mem hi
    · left
      rw [List.getD_eq_getElem?_getD, List.getElem?_eq_none (by omega)]
      rfl

theorem cellsAreColours_iff (board : List Nat) :
    cellsAreColours board ↔ ∀ j : Int, arrayRead board j ≤ 7 := by
  unfold cellsAreColours
  constructor
  · intro h j
    rcases arrayRead_mem board j with h0 | hm
    · omega
    · rcases h _ hm with h1 | h1 <;> omega
  · intro h x hx
    obtain ⟨n, hn, rfl⟩ := List.getElem_of_mem hx
    have := h (n : Int)
    unfold arrayRead at this
    rw [if_neg (by omega), List.getD_eq_getElem?_getD] at this
    simp only [Int.toNat_ofNat, List.getElem?_eq_getElem hn, Option.getD_some] at this
    omega

theorem tetrino_get_le_seven (index : Nat) (row col rotation : Int) :
    tetrino_get (tetrinoAt index) row col rotation ≤ 7 := by
  have hdata : ∀ x ∈ (tetrinoAt index).data, x ≤ 7 := by
    by_cases hi : index < 7
    · interval_cases index <;> decide
    · have : tetrinoAt index = ⟨[], 0⟩ := by
        unfold tetrinoAt
        rw [List.getD_eq_getElem?_getD, List.getElem?_eq_none (by simp [TETRINOS]; omega)]
        rfl
      rw [this]
      simp
  have hread : ∀ i : Int, arrayRead (tetrinoAt index).data i ≤ 7 := by
    intro i
    rcases arrayRead_mem (tetrinoAt index).data i with h | h
    · omega
    · exact hdata _ h
  unfold tetrino_get
  simp only []
  split_ifs <;> first | exact hread _ | exact Nat.zero_le _

theorem BoardGrows.same (b : List Nat) : BoardGrows b b := ⟨Eq.refl _, fun _ => Or.inl (Eq.refl _)⟩

theorem BoardGrows.compose {a b c : List Nat} (h1 : BoardGrows a b) (h2 : BoardGrows b c) :
    BoardGrows a c := by
  refine ⟨h2.1.trans h1.1, fun j => ?_⟩
  rcases h2.2 j with h | h
  · rcases h1.2 j with h' | h'
    · exact Or.inl (h.trans h')
    · right; rw [h]; exact h'
  · exact Or.inr h

theorem BoardGrows.cells {b b' : List Nat} (h : BoardGrows b b') (hb : cellsAreColours b) :
    cellsAreColours b' := by
  rw [cellsAreColours_iff] at hb ⊢
  intro j
  rcases h.2 j with h1 | h1
  · rw [h1]; exact hb j
  · exact h1.2

theorem BoardGrows.nonzero {b b' : List Nat} (h : BoardGrows b b') (j : Int)
    (hj : arrayRead b j ≠ 0) : arrayRead b' j ≠ 0 := by
  rcases h.2 j with h1 | h1
  · rw [h1]; exact hj
  · exact h1.1

theorem merge_piece_cols_grows (index : Nat) (piece : PieceState) (row : Int) (n : Nat)
    (col : Int) (board : List Nat) :
    BoardGrows board (merge_piece_cols (tetrinoAt index) piece row n col board) := by
  induction n generalizing col board with
  | zero => exact BoardGrows.same board
  | succ n ih =>
    unfold merge_piece_cols
    simp only []
    split_ifs with hv
    · refine BoardGrows.compose ⟨?_, fun j => ?_⟩ (ih _ _)
      · rw [matrix_set, arrayWrite_length]
      · rw [matrix_set]
        rcases arrayRead_arrayWrite_cases board
          ((piece.offsetRow + row) * WIDTH + (piece.offsetCol + col)) j
          (tetrino_get (tetrinoAt index) row col piece.rotation) with h | h
        · exact Or.inl h
        · right; rw [h]; exact ⟨hv, tetrino_get_le_seven _ _ _ _⟩
    · exact ih _ _

theorem merge_piece_rows_grows (index : Nat) (piece : PieceState) (n : Nat) (row : Int)
    (board : List Nat) :
    BoardGrows board (merge_piece_rows (tetrinoAt index) piece n row board) := by
  induction n generalizing row board with
  | zero => exact BoardGrows.same board
  | succ n ih =>
    unfold merge_piece_rows
    exact (merge_piece_cols_grows index piece row _ _ board).compose (ih _ _)

theorem merge_piece_grows (g : GameState) : BoardGrows g.board (merge_piece g).board := by
  unfold merge_piece
  exact merge_piece_rows_grows _ _ _ _ _

theorem Evolves.stay (g : GameState) : Evolves g g :=
  ⟨SameFrame.rfl g, BoardGrows.same _, fun h => h⟩

theorem Evolves.andThen {a b c : GameState} (h1 : Evolves a b) (h2 : Evolves b c) :
    Evolves a c :=
  ⟨h1.1.trans h2.1, h1.2.1.compose h2.2.1, fun h => h2.2.2 (h1.2.2 h)⟩

theorem update_game_play_move_evolves (g : GameState) (input : InputState) :
    Evolves g (update_game_play_move g input) := by
  unfold update_game_play_move
  simp only []
  split_ifs with hv
  · exact ⟨⟨rfl, rfl, rfl, rfl, rfl, rfl, rfl, rfl, rfl⟩, BoardGrows.same _,
      update_game_play_candidate_range g.piece input⟩
  · exact Evolves.stay g

theorem soft_drop_evolves (g : GameState) (rnd : RandStream) :
    Evolves g (soft_drop g rnd).2.1 := by
  cases h : check_piece_valid (pieceDown g.piece 1) g.board WIDTH HEIGHT
  · rw [soft_drop_of_invalid g rnd h, spawn_piece_game]
    refine ⟨⟨rfl, rfl, rfl, rfl, rfl, rfl, rfl, rfl, rfl⟩, merge_piece_grows g, fun _ => ?_⟩
    exact ⟨Nat.mod_lt _ (by decide), le_refl (0 : Int), (by decide : (0 : Int) ≤ 3)⟩
  · rw [soft_drop_of_valid g rnd h]
    exact ⟨⟨rfl, rfl, rfl, rfl, rfl, rfl, rfl, rfl, rfl⟩, BoardGrows.same _, fun hp => hp⟩

theorem hard_drop_loop_evolves (fuel : Nat) :
    ∀ (g : GameState) (rnd : RandStream) (r : List Bool × GameState × RandStream),
      hard_drop_loop fuel g rnd = some r → Evolves g r.2.1 := by
  induction fuel with
  | zero => intro g rnd r h; cases h
  | succ fuel ih =>
    intro g rnd r h
    rw [hard_drop_loop] at h
    split_ifs at h with hc
    · cases hrec : hard_drop_loop fuel (soft_drop g rnd).2.1 (soft_drop g rnd).2.2 with
      | none => rw [hrec] at h; cases h
      | some r' =>
        rw [hrec] at h
        cases h
        exact (soft_drop_evolves g rnd).andThen (ih _ _ r' hrec)
    · cases h
      exact soft_drop_evolves g rnd

theorem gravity_loop_evolves (fuel : Nat) :
    ∀ (g : GameState) (rnd : RandStream) (r : Nat × GameState × RandStream),
      gravity_loop fuel g rnd = some r → Evolves g r.2.1 := by
  induction fuel with
  | zero => intro g rnd r h; cases h
  | succ fuel ih =>
    intro g rnd r h
    rw [gravity_loop] at h
    split_ifs at h with hc
    · simp only [] at h
      cases hrec : gravity_loop fuel (soft_drop g rnd).2.1 (soft_drop g rnd).2.2 with
      | none => rw [hrec] at h; cases h
      | some r' =>
        rw [hrec] at h
        cases h
        exact (soft_drop_evolves g rnd).andThen (ih _ _ r' hrec)
    · cases h
      exact Evolves.stay g

theorem update_game_play_some (fuel : Nat) (g : GameState) (input : InputState)
    (rnd : RandStream) (g' : GameState) (rnd' : RandStream)
    (h : update_game_play fuel g input rnd = some (g', rnd')) :
    ∃ s : GameState, g' = update_game_play_finish s ∧ Evolves g s := by
  have hm := update_game_play_move_evolves g input
  unfold update_game_play at h
  simp only [] at h
  have tail : ∀ (s : GameState) (r : RandStream), Evolves g s →
      (gravity_loop fuel s r).map (fun x => (update_game_play_finish x.2.1, x.2.2)) =
        some (g', rnd') → ∃ s' : GameState, g' = update_game_play_finish s' ∧ Evolves g s' := by
    intro s r hs hrun
    cases hg : gravity_loop fuel s r with
    | none => rw [hg] at hrun; cases hrun
    | some x =>
      rw [hg] at hrun
      cases hrun
      exact ⟨x.2.1, rfl, hs.andThen (gravity_loop_evolves fuel s r x hg)⟩
  by_cases hd : input.deltaDown > 0
  · have hs := hm.andThen (soft_drop_evolves (update_game_play_move g input) rnd)
    simp only [hd, if_true] at h
    by_cases ha : input.deltaA > 0
    · simp only [ha, if_true] at h
      cases hh : hard_drop_loop fuel (soft_drop (update_game_play_move g input) rnd).2.1
          (soft_drop (update_game_play_move g input) rnd).2.2 with
      | none => rw [hh] at h; cases h
      | some x =>
        rw [hh] at h
        exact tail x.2.1 x.2.2 (hs.andThen (hard_drop_loop_evolves fuel _ _ x hh)) h
    · simp only [ha, if_false, Option.some_bind] at h
      exact tail _ _ hs h
  · simp only [hd, if_false] at h
    by_cases ha : input.deltaA > 0
    · simp only [ha, if_true] at h
      cases hh : hard_drop_loop fuel (update_game_play_move g input) rnd with
      | none => rw [hh] at h; cases h
      | some x =>
        rw [hh] at h
        exact tail x.2.1 x.2.2 (hm.andThen (hard_drop_loop_evolves fuel _ _ x hh)) h
    · simp only [ha, if_false, Option.some_bind] at h
      exact tail _ _ hm h

/-! ## The game-over check -/

theorem update_game_play_finish_phase (g : GameState) :
    (update_game_play_finish g).phase =
      if rowOccupied g.board WIDTH 0 then GAME_PHASE_GAMEOVER
      else if 0 < filledRowCount g.board WIDTH HEIGHT then GAME_PHASE_LINE
      else g.phase := by
  have hcount := find_lines_count_filledRowCount g.board WIDTH HEIGHT g.lines
  have hocc := check_row_empty_zero_iff_rowOccupied g.board WIDTH 0
  have hvalues : (find_lines g.board WIDTH HEIGHT g.lines).values = g.board :=
    find_lines_values _ _ _ _
  unfold update_game_play_finish
  generalize find_lines g.board WIDTH HEIGHT g.lines = found at hcount hvalues ⊢
  obtain ⟨fc, fl, fv⟩ := found
  simp only [] at hcount hvalues ⊢
  subst hvalues
  generalize filledRowCount g.board WIDTH HEIGHT = cnt at hcount ⊢
  subst hcount
  by_cases hpos : 0 < cnt
  · have hpos' : (cnt : Int) > 0 := by exact_mod_cast hpos
    by_cases hocc0 : rowOccupied g.board WIDTH 0
    · have he : check_row_empty g.board WIDTH 0 = 0 := hocc.mpr hocc0
      simp only [hpos', if_true, he, hocc0]
    · have he : ¬ check_row_empty g.board WIDTH 0 = 0 := fun h => hocc0 (hocc.mp h)
      simp only [hpos', if_true, he, if_false, hocc0, hpos]
  · have hpos' : ¬ (cnt : Int) > 0 := by
      intro h; exact hpos (by exact_mod_cast h)
    by_cases hocc0 : rowOccupied g.board WIDTH 0
    · have he : check_row_empty g.board WIDTH 0 = 0 := hocc.mpr hocc0
      simp only [hpos', if_false, he, if_true, hocc0]
    · have he : ¬ check_row_empty g.board WIDTH 0 = 0 := fun h => hocc0 (hocc.mp h)
      simp only [hpos', if_false, he, hocc0, hpos]

theorem BoardGrows.rowOccupied {b b' : List Nat} (h : BoardGrows b b') (row : Int)
    (hocc : rowOccupied b WIDTH row) : rowOccupied b' WIDTH row := by
  obtain ⟨col, hc, hv⟩ := hocc
  exact ⟨col, hc, h.nonzero _ hv⟩

theorem update_game_play_double_drop (g : GameState) (input : InputState) (rnd : RandStream)
    (fuel k : Nat) (hl : input.deltaLeft ≤ 0) (hr : input.deltaRight ≤ 0)
    (hu : input.deltaUp ≤ 0) (hd : input.deltaDown > 0) (ha : input.deltaA > 0)
    (hlevel : 0 ≤ g.level) (hfuel : k + 1 ≤ fuel)
    (hrest : check_piece_valid (pieceDown g.piece 1) g.board WIDTH HEIGHT = false)
    (hfall : ∀ j : Nat, j < k →
      check_piece_valid
        (pieceDown { tetrinoIndex := rnd 0 % 7, offsetRow := 0, offsetCol := 7, rotation := 0 }
          ((j : Int) + 1)) (merge_piece g).board WIDTH HEIGHT = true)
    (hland : check_piece_valid
        (pieceDown { tetrinoIndex := rnd 0 % 7, offsetRow := 0, offsetCol := 7, rotation := 0 }
          ((k : Int) + 1)) (merge_piece g).board WIDTH HEIGHT = false) :
    update_game_play fuel g input rnd =
      some (update_game_play_finish
        { g with
          board := (merge_piece
            { merge_piece g with
              piece := { tetrinoIndex := rnd 0 % 7, offsetRow := k, offsetCol := 7,
                         rotation := 0 } }).board
          piece := { tetrinoIndex := rnd 1 % 7, offsetRow := 0, offsetCol := 7, rotation := 0 }
          nextDropTime := g.time + get_time_to_next_drop g.level },
        fun i => rnd (i + 1 + 1)) := by
  have hpos := get_time_to_next_drop_pos g.level hlevel
  unfold update_game_play
  simp only [hd, ha, if_true]
  rw [update_game_play_move_no_edge g input hl hr hu, soft_drop_of_invalid g rnd hrest,
    spawn_piece_game]
  simp only []
  rw [hard_drop_loop_unroll k _ _ fuel hfuel hfall hland]
  simp only [Option.map_some', Option.some_bind]
  rw [gravity_loop_idle fuel _ _ (by omega) (by
    show g.time < g.time + get_time_to_next_drop g.level
    linarith)]
  simp only [Option.map_some', pieceDown, zero_add]
  rfl

theorem update_game_line_due (g : GameState) (h : g.highlightEndTime ≤ g.time) :
    (update_game_line g).score = g.score + compute_score g.level g.pendingLineCount ∧
      (update_game_line g).lineCount = g.lineCount + g.pendingLineCount ∧
      (update_game_line g).board = clear_lines g.board WIDTH HEIGHT g.lines ∧
      (update_game_line g).phase = GAME_PHASE_PLAY ∧
      (update_game_line g).lines = g.lines ∧
      (update_game_line g).piece = g.piece ∧
      (update_game_line g).startLevel = g.startLevel ∧
      g.level ≤ (update_game_line g).level := by
  unfold update_game_line
  rw [if_pos h]
  by_cases hl : g.lineCount + g.pendingLineCount ≥ get_lines_for_next_level g.startLevel g.level
  · simp [hl]
  · simp [hl]

theorem compute_score_five (level : Int) : compute_score level 5 = 0 := by
  unfold compute_score
  norm_num

theorem finish_five_lines (s : GameState) (hl : s.lines.length = 22)
    (hcount : filledRowCount s.board WIDTH HEIGHT = 5) (hocc : ¬ rowOccupied s.board WIDTH 0) :
    (update_game_play_finish s).pendingLineCount = 5 ∧
      (update_game_play_finish s).phase = GAME_PHASE_LINE ∧
      compute_score (update_game_play_finish s).level
        (update_game_play_finish s).pendingLineCount = 0 ∧
      (update_game_line { update_game_play_finish s with
          time := (update_game_play_finish s).highlightEndTime }).score =
        (update_game_play_finish s).score ∧
      (update_game_line { update_game_play_finish s with
          time := (update_game_play_finish s).highlightEndTime }).lineCount =
        (update_game_play_finish s).lineCount + 5 := by
  have hpend : (update_game_play_finish s).pendingLineCount = 5 := by
    rw [(update_game_play_finish_spec s hl).2.1, hcount]; rfl
  have hphase : (update_game_play_finish s).phase = GAME_PHASE_LINE := by
    rw [update_game_play_finish_phase, if_neg hocc, hcount, if_pos (by decide)]
  have hdue := update_game_line_due
    { update_game_play_finish s with time := (update_game_play_finish s).highlightEndTime }
    (le_refl _)
  refine ⟨hpend, hphase, by rw [hpend]; exact compute_score_five _, ?_, ?_⟩
  · rw [hdue.1]
    show _ + compute_score (update_game_play_finish s).level
      (update_game_play_finish s).pendingLineCount = _
    rw [hpend, compute_score_five, add_zero]
  · rw [hdue.2.1]
    show (update_game_play_finish s).lineCount + (update_game_play_finish s).pendingLineCount = _
    rw [hpend]

set_option maxRecDepth 100000 in
/-- C28: there is a PLAY state whose board has no completely filled row and whose piece is
valid, an input with the soft-drop edge and the confirm edge both set, and a random stream
choosing the bar as spawned shape, such that a single `update_game_play` call merges two
pieces (the resting piece through `soft_drop`, the spawned bar through the hard drop, 8 cells
in all), leaves `pendingLineCount = 5 > 4` with phase LINE, and the following
`update_game_line` adds `compute_score level pendingLineCount = 0` to the score while adding
5 to `lineCount`. -/
theorem double_merge_scores_nothing :
    ∃ (g : GameState) (input : InputState) (rnd : RandStream) (g' : GameState)
        (rnd' : RandStream),
      g.phase = GAME_PHASE_PLAY ∧ filledRowCount g.board WIDTH HEIGHT = 0 ∧
      check_piece_valid g.piece g.board WIDTH HEIGHT = true ∧
      input.deltaDown > 0 ∧ input.deltaA > 0 ∧
      update_game_play 23 g input rnd = some (g', rnd') ∧
      (soft_drop g rnd).1 = false ∧
      g'.board =
        (merge_piece
          { merge_piece g with
            piece := { tetrinoIndex := rnd 0 % 7, offsetRow := 16, offsetCol := 7,
                       rotation := 0 } }).board ∧
      countNonzero g'.board = countNonzero g.board + 8 ∧
      g'.pendingLineCount = 5 ∧ g'.phase = GAME_PHASE_LINE ∧
      compute_score g'.level g'.pendingLineCount = 0 ∧
      (update_game_line { g' with time := g'.highlightEndTime }).score = g'.score ∧
      (update_game_line { g' with time := g'.highlightEndTime }).lineCount =
        g'.lineCount + 5 := by
  have hrest : check_piece_valid (pieceDown fiveLineState.piece 1) fiveLineState.board
      WIDTH HEIGHT = false := by
    decide!
  have hfall : ∀ j : Nat, j < 16 →
      check_piece_valid
        (pieceDown { tetrinoIndex := (fun _ : Nat => 0) 0 % 7, offsetRow := 0, offsetCol := 7,
                     rotation := 0 }
          ((j : Int) + 1)) (merge_piece fiveLineState).board WIDTH HEIGHT = true := by
    decide!
  have hland : check_piece_valid
        (pieceDown { tetrinoIndex := (fun _ : Nat => 0) 0 % 7, offsetRow := 0, offsetCol := 7,
                     rotation := 0 }
          (((16 : Nat) : Int) + 1)) (merge_piece fiveLineState).board WIDTH HEIGHT = false := by
    decide!
  obtain ⟨s2, hrun, hs2, hlen⟩ : ∃ s2 : GameState,
      update_game_play 23 fiveLineState dropConfirmInput (fun _ => 0) =
        some (update_game_play_finish s2, fun i => (fun _ : Nat => 0) (i + 1 + 1)) ∧
      s2.board = (merge_piece
        { merge_piece fiveLineState with
          piece := { tetrinoIndex := (fun _ : Nat => 0) 0 % 7, offsetRow := ((16 : Nat) : Int),
                     offsetCol := 7, rotation := 0 } }).board ∧
      s2.lines.length = 22 :=
    ⟨_, update_game_play_double_drop fiveLineState dropConfirmInput (fun _ => 0) 23 16
      (by decide) (by decide) (by decide) (by decide) (by decide) (by decide) (by decide)
      hrest hfall hland, rfl, rfl⟩
  have hcount : filledRowCount
      (merge_piece
        { merge_piece fiveLineState with
          piece := { tetrinoIndex := (fun _ : Nat => 0) 0 % 7, offsetRow := ((16 : Nat) : Int),
                     offsetCol := 7, rotation := 0 } }).board WIDTH HEIGHT = 5 := by
    decide!
  have hocc : ¬ rowOccupied
      (merge_piece
        { merge_piece fiveLineState with
          piece := { tetrinoIndex := (fun _ : Nat => 0) 0 % 7, offsetRow := ((16 : Nat) : Int),
                     offsetCol := 7, rotation := 0 } }).board WIDTH 0 := by
    decide!
  have hcells : countNonzero
      (merge_piece
        { merge_piece fiveLineState with
          piece := { tetrinoIndex := (fun _ : Nat => 0) 0 % 7, offsetRow := ((16 : Nat) : Int),
                     offsetCol := 7, rotation := 0 } }).board =
        countNonzero fiveLineState.board + 8 := by
    decide!
  have hfree : filledRowCount fiveLineState.board WIDTH HEIGHT = 0 := by
    decide!
  have hvalid : check_piece_valid fiveLineState.piece fiveLineState.board WIDTH HEIGHT
      = true := by
    decide!
  rw [← hs2] at hcount hocc hcells
  obtain ⟨f1, f2, f3, f4, f5⟩ := finish_five_lines s2 hlen hcount hocc
  exact ⟨fiveLineState, dropConfirmInput, fun _ => 0, _, _, rfl, hfree, hvalid, by decide,
    by decide, hrun, by rw [soft_drop_of_invalid _ _ hrest],
    ((update_game_play_finish_frame s2).1).trans hs2,
    ((update_game_play_finish_frame s2).1).symm ▸ hcells, f1, f2, f3, f4, f5⟩

/-! ## Invariants of the reachable states -/

theorem arrayWrite_le_seven (xs : List Nat) (i : Int) (v : Nat) (hv : v ≤ 7)
    (h : ∀ j : Int, arrayRead xs j ≤ 7) : ∀ j : Int, arrayRead (arrayWrite xs i v) j ≤ 7 := by
  intro j
  rcases arrayRead_arrayWrite_cases xs i j v with h1 | h1
  · rw [h1]; exact h j
  · rw [h1]; exact hv

theorem memset_le_seven (values : List Nat) (start : Int) (n : Nat)
    (h : ∀ j : Int, arrayRead values j ≤ 7) :
    ∀ j : Int, arrayRead (memset values start 0 n) j ≤ 7 := by
  induction n with
  | zero => exact h
  | succ n ih => rw [memset]; exact arrayWrite_le_seven _ _ _ (by omega) ih

theorem memcpy_le_seven (values : List Nat) (dest : Int) (source : List Nat) (src : Int)
    (n : Nat) (h : ∀ j : Int, arrayRead values j ≤ 7) (hs : ∀ j : Int, arrayRead source j ≤ 7) :
    ∀ j : Int, arrayRead (memcpy values dest source src n) j ≤ 7 := by
  induction n with
  | zero => exact h
  | succ n ih => rw [memcpy]; exact arrayWrite_le_seven _ _ _ (hs _) ih

theorem clear_lines_rows_le_seven (width : Int) (lines : List Nat) (n : Nat) :
    ∀ (cur : List Nat) (d s : Int), (∀ j : Int, arrayRead cur j ≤ 7) →
      ∀ j : Int, arrayRead (clear_lines_rows width lines n d s cur) j ≤ 7 := by
  induction n with
  | zero => intro cur d s h; exact h
  | succ n ih =>
    intro cur d s h
    rw [clear_lines_rows]
    split_ifs
    · exact ih _ _ _ (memset_le_seven _ _ _ h)
    · exact ih _ _ _ (memcpy_le_seven _ _ _ _ _ h h)

theorem clear_lines_cells (values : List Nat) (width height : Int) (lines : List Nat)
    (h : cellsAreColours values) : cellsAreColours (clear_lines values width height lines) := by
  rw [cellsAreColours_iff] at h ⊢
  exact clear_lines_rows_le_seven _ _ _ _ _ _ h

theorem memset_cells (values : List Nat) (start : Int) (n : Nat) (h : cellsAreColours values) :
    cellsAreColours (memset values start 0 n) := by
  rw [cellsAreColours_iff] at h ⊢
  exact memset_le_seven _ _ _ h

theorem merge_piece_cells (g : GameState) (h : cellsAreColours g.board) :
    cellsAreColours (merge_piece g).board :=
  (merge_piece_grows g).cells h

theorem clear_lines_length (values : List Nat) (width height : Int) (lines : List Nat) :
    (clear_lines values width height lines).length = values.length :=
  clear_lines_rows_length _ _ _ _ _ _

theorem rowFilled_iff_boardRow (values : List Nat) (width : Int) (row : Nat) :
    rowFilled values width (row : Int) ↔ ∀ x ∈ boardRow values width row, x ≠ 0 := by
  unfold rowFilled boardRow
  constructor
  · intro h x hx
    obtain ⟨col, hc, rfl⟩ := List.mem_map.mp hx
    exact h col (List.mem_range.mp hc)
  · intro h col hc
    exact h _ (List.mem_map.mpr ⟨col, List.mem_range.mpr hc, rfl⟩)

theorem filledRowCount_eq_zero_iff (values : List Nat) (width height : Int) :
    filledRowCount values width height = 0 ↔
      ∀ row : Int, 0 ≤ row → row < height → ¬ rowFilled values width row := by
  unfold filledRowCount
  rw [List.length_eq_zero, List.filter_eq_nil_iff]
  constructor
  · intro h row h0 h1
    have := h row.toNat (List.mem_range.mpr (by omega))
    rw [Int.toNat_of_nonneg h0] at this
    simpa using this
  · intro h r hr
    have := h (r : Int) (by omega) (by have := List.mem_range.mp hr; omega)
    simpa using this

theorem clear_lines_no_filled_row (board lines : List Nat) (hlen : board.length = 308)
    (hzero : arrayRead lines 0 = 0)
    (hflags : ∀ row : Int, 0 ≤ row → row < HEIGHT →
      arrayRead lines row = 0 → ¬ rowFilled board WIDTH row) :
    filledRowCount (clear_lines board WIDTH HEIGHT lines) WIDTH HEIGHT = 0 := by
  rw [filledRowCount_eq_zero_iff]
  intro row h0 h1 hfilled
  obtain ⟨r, rfl⟩ : ∃ r : Nat, row = (r : Int) := ⟨row.toNat, by omega⟩
  have hr : r < 22 := by
    have hH : HEIGHT = 22 := rfl
    rw [hH] at h1
    omega
  have hrows := clear_lines_cleared board WIDTH HEIGHT lines (by decide)
    (by rw [hlen]; rfl) hzero
  have hmem : boardRow (clear_lines board WIDTH HEIGHT lines) WIDTH r ∈
      boardRows (clear_lines board WIDTH HEIGHT lines) WIDTH HEIGHT := by
    unfold boardRows
    exact List.mem_map.mpr ⟨r, List.mem_range.mpr hr, rfl⟩
  rw [hrows] at hmem
  rw [rowFilled_iff_boardRow] at hfilled
  unfold clearedRows at hmem
  rcases List.mem_append.mp hmem with hm | hm
  · have := (List.mem_replicate.mp hm).2
    rw [this] at hfilled
    exact hfilled 0 (by decide) rfl
  · obtain ⟨k, hk, hkrow⟩ := List.mem_map.mp hm
    have hklt := keptRows_lt lines _ k hk
    have hk0 : arrayRead lines (k : Int) = 0 := by
      unfold keptRows at hk
      simpa using (List.mem_filter.mp hk).2
    rw [← hkrow, ← rowFilled_iff_boardRow] at hfilled
    exact hflags (k : Int) (by omega) (by
      have hH : HEIGHT.toNat = 22 := rfl
      have hH2 : HEIGHT = 22 := rfl
      rw [hH] at hklt
      rw [hH2]
      omega) hk0 hfilled

theorem find_lines_linesOut_length (values : List Nat) (width height : Int)
    (linesOut : List Nat) :
    (find_lines values width height linesOut).linesOut.length = linesOut.length := by
  unfold find_lines
  simp only []
  exact find_lines_rows_length _ _ _ _ _ _

theorem update_game_play_finish_lines_length (g : GameState) :
    (update_game_play_finish g).lines.length = g.lines.length := by
  have hlen : (find_lines g.board WIDTH HEIGHT g.lines).linesOut.length = g.lines.length :=
    find_lines_linesOut_length _ _ _ _
  unfold update_game_play_finish
  generalize find_lines g.board WIDTH HEIGHT g.lines = found at hlen ⊢
  obtain ⟨fc, fl, fv⟩ := found
  simp only [] at hlen ⊢
  split_ifs <;> exact hlen

theorem GameInv.set_time {g : GameState} (h : GameInv g) (time : ℚ) :
    GameInv { g with time := time } :=
  ⟨h.board_length, h.lines_length, h.cells, h.piece, h.startLevel, h.level, h.line, h.play⟩

theorem emptyBoard_cells : cellsAreColours emptyBoard :=
  fun _ hx => Or.inl (List.eq_of_mem_replicate hx)

set_option maxRecDepth 100000 in
theorem emptyBoard_no_filled_row : filledRowCount emptyBoard WIDTH HEIGHT = 0 := by
  decide!

theorem initialState_inv : GameInv initialState :=
  { board_length := List.length_replicate _ _
    lines_length := List.length_replicate _ _
    cells := emptyBoard_cells
    piece := ⟨by decide, by decide, by decide⟩
    startLevel := le_refl _
    level := le_refl _
    line := fun h => by cases h
    play := fun h => by cases h }

theorem mainEntryState_inv (rnd : RandStream) : GameInv (mainEntryState rnd) :=
  { board_length := List.length_replicate _ _
    lines_length := List.length_replicate _ _
    cells := emptyBoard_cells
    piece := ⟨(by decide : 2 < 7), le_refl (0 : Int), (by decide : (0 : Int) ≤ 3)⟩
    startLevel := le_refl _
    level := le_refl _
    line := fun h => by cases h
    play := fun h => by cases h }

theorem update_game_start_inv (g : GameState) (input : InputState) (rnd : RandStream)
    (h : GameInv g) : GameInv (update_game_start g input rnd).1 := by
  have hstart : 0 ≤ (if input.deltaDown > 0 ∧
        (if input.deltaUp > 0 then g.startLevel + 1 else g.startLevel) > 0 then
      (if input.deltaUp > 0 then g.startLevel + 1 else g.startLevel) - 1
    else (if input.deltaUp > 0 then g.startLevel + 1 else g.startLevel)) := by
    have := h.startLevel
    split_ifs <;> omega
  by_cases ha : input.deltaA > 0
  · rw [update_game_start_confirm g input rnd ha]
    have hboard := memset_board g.board h.board_length
    generalize memset g.board 0 0 (WIDTH * HEIGHT).toNat = cleared at hboard ⊢
    subst hboard
    exact
      { board_length := List.length_replicate _ _
        lines_length := h.lines_length
        cells := emptyBoard_cells
        piece := ⟨Nat.mod_lt _ (by decide), le_refl (0 : Int), (by decide : (0 : Int) ≤ 3)⟩
        startLevel := hstart
        level := hstart
        line := fun hp => by cases hp
        play := fun _ => emptyBoard_no_filled_row }
  · rw [update_game_start_idle g input rnd ha]
    exact
      { board_length := h.board_length
        lines_length := h.lines_length
        cells := h.cells
        piece := h.piece
        startLevel := hstart
        level := h.level
        line := h.line
        play := h.play }

theorem update_game_play_inv (fuel : Nat) (g : GameState) (input : InputState)
    (rnd : RandStream) (g' : GameState) (rnd' : RandStream) (h : GameInv g)
    (hphase : g.phase = GAME_PHASE_PLAY)
    (hrun : update_game_play fuel g input rnd = some (g', rnd')) : GameInv g' := by
  obtain ⟨s, rfl, hs⟩ := update_game_play_some fuel g input rnd g' rnd' hrun
  have hl : s.lines.length = 22 := by rw [hs.1.lines]; exact h.lines_length
  have hsp : s.phase = GAME_PHASE_PLAY := by rw [hs.1.phase]; exact hphase
  obtain ⟨hb, hc, hf, h1, h2, -, h4, -, hpiece, -, -, hlevel, hstart, -, -⟩ :=
    update_game_play_finish_spec s hl
  refine
    { board_length := by rw [hb, hs.2.1.1]; exact h.board_length
      lines_length := by rw [update_game_play_finish_lines_length]; exact hl
      cells := by rw [hb]; exact hs.2.1.cells h.cells
      piece := by rw [hpiece]; exact hs.2.2 h.piece
      startLevel := by rw [hstart, hs.1.startLevel]; exact h.startLevel
      level := by rw [hlevel, hs.1.level]; exact h.level
      line := ?_
      play := ?_ }
  · intro hph
    rw [hb]
    by_cases hocc : rowOccupied s.board WIDTH 0
    · rw [h1 hocc] at hph; cases hph
    · by_cases hpos : 0 < filledRowCount s.board WIDTH HEIGHT
      · exact ⟨hf, hocc, hc, hpos⟩
      · rw [h4 hocc (by omega), hsp] at hph; cases hph
  · intro hph
    rw [hb]
    by_cases hocc : rowOccupied s.board WIDTH 0
    · rw [h1 hocc] at hph; cases hph
    · by_cases hpos : 0 < filledRowCount s.board WIDTH HEIGHT
      · rw [h2 hocc hpos] at hph; cases hph
      · omega

theorem update_game_line_inv (g : GameState) (h : GameInv g)
    (hphase : g.phase = GAME_PHASE_LINE) : GameInv (update_game_line g) := by
  by_cases hdue : g.highlightEndTime ≤ g.time
  · obtain ⟨-, -, hb, hph, hlines, hpiece, hstart, hlevel⟩ := update_game_line_due g hdue
    obtain ⟨hflags, hocc, -, -⟩ := h.line hphase
    have hzero : arrayRead g.lines 0 = 0 :=
      ((hflags 0 (le_refl _) (by decide)).2).mpr
        (fun hfill => hocc ⟨0, by decide, hfill 0 (by decide)⟩)
    exact
      { board_length := by rw [hb, clear_lines_length]; exact h.board_length
        lines_length := by rw [hlines]; exact h.lines_length
        cells := by rw [hb]; exact clear_lines_cells _ _ _ _ h.cells
        piece := by rw [hpiece]; exact h.piece
        startLevel := by rw [hstart]; exact h.startLevel
        level := le_trans h.level hlevel
        line := fun hp => by rw [hph] at hp; cases hp
        play := fun _ => by
          rw [hb]
          exact clear_lines_no_filled_row g.board g.lines h.board_length hzero
            (fun row h0 h1 hz => ((hflags row h0 h1).2).mp hz) }
  · have : update_game_line g = g := by
      unfold update_game_line
      rw [if_neg hdue]
    rw [this]
    exact h

theorem update_game_gameover_inv (g : GameState) (input : InputState) (h : GameInv g) :
    GameInv (update_game_gameover g input) := by
  unfold update_game_gameover
  split_ifs
  · exact
      { board_length := h.board_length
        lines_length := h.lines_length
        cells := h.cells
        piece := h.piece
        startLevel := h.startLevel
        level := h.level
        line := fun hp => by cases hp
        play := fun hp => by cases hp }
  · exact h

theorem update_game_inv (fuel : Nat) (g : GameState) (input : InputState) (rnd : RandStream)
    (g' : GameState) (rnd' : RandStream) (h : GameInv g)
    (hrun : update_game fuel g input rnd = some (g', rnd')) : GameInv g' := by
  unfold update_game at hrun
  cases hph : g.phase <;> rw [hph] at hrun <;> simp only [] at hrun
  · have hg : (update_game_start g input rnd).1 = g' := congrArg Prod.fst (Option.some.inj hrun)
    rw [← hg]
    exact update_game_start_inv g input rnd h
  · exact update_game_play_inv fuel g input rnd g' rnd' h hph hrun
  · have hg : update_game_line g = g' := congrArg Prod.fst (Option.some.inj hrun)
    rw [← hg]
    exact update_game_line_inv g h hph
  · have hg : update_game_gameover g input = g' := congrArg Prod.fst (Option.some.inj hrun)
    rw [← hg]
    exact update_game_gameover_inv g input h

theorem reachable_inv (g : GameState) (h : Reachable g) : GameInv g := by
  induction h with
  | init => exact initialState_inv
  | entry rnd => exact mainEntryState_inv rnd
  | tick g time input rnd fuel g' rnd' _ hrun ih =>
    exact update_game_inv fuel _ input rnd g' rnd' (ih.set_time time) hrun

/-- C23: in every state reachable from the initial state (the all-zero state in phase START,
or the state in which `main` enters its loop) through `update_game` calls, every board cell is
0 or a shape colour id in `1..7`; the reset of the board, `merge_piece` and `clear_lines` each
preserve this. -/
theorem reachable_cells_are_colours (g : GameState) (h : Reachable g) :
    cellsAreColours g.board ∧
    (∀ board : List Nat, cellsAreColours board →
      cellsAreColours (memset board 0 0 (WIDTH * HEIGHT).toNat)) ∧
    (∀ s : GameState, cellsAreColours s.board → cellsAreColours (merge_piece s).board) ∧
    (∀ board lines : List Nat, cellsAreColours board →
      cellsAreColours (clear_lines board WIDTH HEIGHT lines)) :=
  ⟨(reachable_inv g h).cells, fun board hb => memset_cells board 0 _ hb,
    fun s hs => merge_piece_cells s hs,
    fun board lines hb => clear_lines_cells board WIDTH HEIGHT lines hb⟩

theorem reachable_cells_are_colours_witness :
    Reachable firstPlayState ∧ cellsAreColours firstPlayState.board :=
  ⟨Reachable.tick initialState 0 confirmInput (fun _ => 0) 1 firstPlayState
      (update_game_start { initialState with time := 0 } confirmInput (fun _ => 0)).2
      Reachable.init rfl,
    (reachable_cells_are_colours firstPlayState
      (Reachable.tick initialState 0 confirmInput (fun _ => 0) 1 firstPlayState
        (update_game_start { initialState with time := 0 } confirmInput (fun _ => 0)).2
        Reachable.init rfl)).1⟩

end Tetris
